import Mathlib

/-!
# Postor: growing pointer storage

A shallow embedding of `src/src/postor.c` (with the constants and types of
`src/src/postor.h`) and theorems about it.

Modelling conventions.

* `po_size_t` (`uint64_t`) values are natural numbers; every arithmetic step the
  C code performs on them is reduced modulo `2 ^ 64` explicitly.
* `po_pos_t` (`int64_t`) values are integers.
* `po_d` (`void*`) values are natural numbers, `0` being `NULL`.
* The data handle `po->data` is `none` for `NULL` and `some blk` for a block of
  `blk.length` pointer slots with the listed contents.
* `po_malloc` is `calloc`: a zero-filled block of the requested byte size (the
  allocation is taken to succeed).  `po_realloc` is `realloc`: the old contents
  up to the new size, followed by indeterminate slots supplied by `junk`.
* The definitions named `..._fallible` repeat the operations that allocate with
  an allocator that may return `NULL`; the definitions named `..._mem` place the
  blocks in a memory at addresses, so that two descriptors can share a block or
  not.
* Assertions are the default (strict) `assert`: a failing `po_assert` ends the
  run with `po_fault.assertion`.  Accesses outside the block end it with
  `po_fault.out_of_bounds`, accesses through `NULL` with `po_fault.null_deref`.
-/

namespace Postor

/-! ## Types and constants (postor.h) -/

/-- The null pointer. -/
abbrev NULL : Nat := 0

/-- Default size for Postor. -/
def PO_DEFAULT_SIZE : Nat := 16

/-- Minimum size for pointer array. -/
def PO_MIN_SIZE : Nat := 2

/-- Outsize Postor index. -/
def PO_NOT_INDEX : Int := -1

/-- Conversion of an integer to `uint64_t` (two's complement). -/
def to_u64 (i : Int) : Nat := (i % 18446744073709551616).toNat

/-- Conversion of a word to `int64_t` (two's complement). -/
def to_i64 (n : Nat) : Int :=
  if n % 18446744073709551616 < 9223372036854775808 then ((n % 18446744073709551616 : Nat) : Int)
  else ((n % 18446744073709551616 : Nat) : Int) - 18446744073709551616

/-- Faults that end a run. -/
inductive po_fault where
  | assertion
  | out_of_bounds
  | null_deref
  deriving DecidableEq, Repr

deriving instance DecidableEq for Except

/-- Postor struct: `size` is the raw word holding the reservation and, in its
least significant bit, the local flag. -/
structure po_s where
  size : Nat
  used : Nat
  data : Option (List Nat)
  deriving DecidableEq, Repr

/-! ## Macros (postor.c) -/

/-- Local Bitmask Clear. -/
def po_lbmc : Nat := 0xFFFFFFFFFFFFFFFE

/-- Local Bitmask Set. -/
def po_lbms : Nat := 0x0000000000000001

/-- Size of one unit, `sizeof( po_d )`. -/
def po_unit_size : Nat := 8

/-- Macro `po_snor`: make a size even. -/
def po_snor (size : Nat) : Nat :=
  if size &&& 0x1 ≠ 0 then (size + 1) % 18446744073709551616 else size

/-- Macro `po_local`: the local flag bit of the size word. -/
def po_local (po : po_s) : Nat := po.size &&& 0x1

/-- Macro `pm_size`: the reservation, flag bit masked out. -/
def pm_size (po : po_s) : Nat := po.size &&& po_lbmc

/-- Macro `pm_unit2byte`. -/
def pm_unit2byte (n : Nat) : Nat := (n <<< 3) % 18446744073709551616

/-- Macro `pm_byte2unit`. -/
def pm_byte2unit (n : Nat) : Nat := n >>> 3

/-- Macro `po_used_size`: byte size of the used region. -/
def po_used_size (po : po_s) : Nat := (po_unit_size * po.used) % 18446744073709551616

/-- Macro `po_byte_size`: byte size of the reservation. -/
def po_byte_size (po : po_s) : Nat := (po_unit_size * pm_size po) % 18446744073709551616

/-! ## Memory primitives -/

/-- Allocator hook `po_malloc`, by default `calloc( size, 1 )`: a zero-filled
block of `size` bytes, that is `size / 8` whole slots. -/
def po_malloc (size : Nat) : Option (List Nat) :=
  some (List.replicate (size / po_unit_size) NULL)

/-- Allocator hook `po_realloc`, by default `realloc`: a block of `size` bytes
keeping the old contents up to the smaller of the two sizes; slot `i` of a
grown tail holds the indeterminate value `junk i`. -/
def po_realloc (junk : Nat → Nat) (ptr : Option (List Nat)) (size : Nat) :
    Option (List Nat) :=
  let old := ptr.getD []
  let n := size / po_unit_size
  some (old.take n ++ (List.range (n - old.length)).map (fun i => junk (old.length + i)))

/-- Read of `data[ i ]`. -/
def po_load (data : Option (List Nat)) (i : Nat) : Except po_fault Nat :=
  match data with
  | none => .error .null_deref
  | some blk =>
    match blk[i]? with
    | some v => .ok v
    | none => .error .out_of_bounds

/-- Write `data[ i ] = v`. -/
def po_store (data : Option (List Nat)) (i : Nat) (v : Nat) :
    Except po_fault (Option (List Nat)) :=
  match data with
  | none => .error .null_deref
  | some blk => if i < blk.length then .ok (some (blk.set i v)) else .error .out_of_bounds

/-- Library `memset( &data[ off ], 0, bytes )` on whole slots. -/
def po_memset0 (data : Option (List Nat)) (off : Nat) (bytes : Nat) :
    Except po_fault (Option (List Nat)) :=
  match data with
  | none => .error .null_deref
  | some blk =>
    let n := bytes / po_unit_size
    if off + n ≤ blk.length then
      .ok (some (blk.take off ++ List.replicate n NULL ++ blk.drop (off + n)))
    else .error .out_of_bounds

/-- Library `memmove( &data[ dst ], &data[ src ], bytes )` on whole slots of
one block. -/
def po_memmove (data : Option (List Nat)) (dst src : Nat) (bytes : Nat) :
    Except po_fault (Option (List Nat)) :=
  match data with
  | none => .error .null_deref
  | some blk =>
    let n := bytes / po_unit_size
    if src + n ≤ blk.length ∧ dst + n ≤ blk.length then
      .ok (some (blk.take dst ++ (blk.drop src).take n ++ blk.drop (dst + n)))
    else .error .out_of_bounds

/-! ## Size word (postor.c, queries and internal support) -/

/-- Function `po_used`. -/
def po_used (po : po_s) : Nat := po.used

/-- Function `po_size`. -/
def po_size (po : po_s) : Nat := pm_size po

/-- Function `po_bytesize`. -/
def po_bytesize (po : po_s) : Nat := (po_unit_size * pm_size po) % 18446744073709551616

/-- Function `po_set_local`. -/
def po_set_local (po : po_s) (val : Int) : po_s :=
  if val ≠ 0 then { po with size := po.size ||| po_lbms }
  else { po with size := po.size &&& po_lbmc }

/-- Function `po_get_local`. -/
def po_get_local (po : po_s) : Int := (po_local po : Nat)

/-- Function `po_set_size`: set size without touching the local info. -/
def po_set_size (po : po_s) (size : Nat) : po_s :=
  let local_ := po_get_local po
  po_set_local { po with size := size } local_

/-- Function `po_set_size_and_local`. -/
def po_set_size_and_local (po : po_s) (size : Nat) (local_ : Int) : po_s :=
  po_set_local { po with size := size } local_

/-- Function `po_init`. -/
def po_init (po : po_s) (size : Nat) (data : Option (List Nat)) (local_ : Int) :
    po_s :=
  let po := po_set_size_and_local po size local_
  { po with used := 0, data := data }

/-! ## Growth policy -/

/-- Function `po_align_size`: align reservation size for 4k and bigger. -/
def po_align_size (new_size : Nat) : Nat :=
  if new_size ≥ 4096 then
    if new_size = 4096 then 4096
    else (((new_size >>> 12) + 1) <<< 12) % 18446744073709551616
  else new_size

/-- Function `po_incr_size`: the reservation doubled, then aligned. -/
def po_incr_size (po : po_s) : Nat :=
  po_align_size ((pm_size po * 2) % 18446744073709551616)

/-- Function `po_legal_size`: convert size to a legal Postor size. -/
def po_legal_size (size : Nat) : Nat :=
  let size := po_snor size
  let size := if size < PO_MIN_SIZE then PO_MIN_SIZE else size
  po_align_size size

/-- Function `po_norm_idx`: normalize a possibly negative index. -/
def po_norm_idx (po : po_s) (idx : Int) : Except po_fault Nat :=
  let pidx : Nat := if idx < 0 then (po.used + to_u64 idx) % 18446744073709551616 else to_u64 idx
  let idx : Int := if idx < 0 then to_i64 (po.used + to_u64 idx) else idx
  if pidx ≥ po.used then .error .assertion
  else if idx < 0 then .error .assertion
  else .ok pidx

/-! ## Create and destroy -/

/-- Function `po_new_sized` on a supplied (non-NULL) descriptor. -/
def po_new_sized (po : po_s) (size : Nat) : po_s :=
  let size := po_legal_size size
  po_init po size (po_malloc (pm_unit2byte size)) 0

/-- Function `po_new` on a supplied (non-NULL) descriptor. -/
def po_new (po : po_s) : po_s := po_new_sized po PO_DEFAULT_SIZE

/-- Function `po_new_descriptor` on a supplied (non-NULL) descriptor. -/
def po_new_descriptor (po : po_s) : po_s :=
  { po with size := 0, used := 0, data := none }

/-- Function `po_use`: `mem` is the contents of the caller's buffer. -/
def po_use (po : po_s) (mem : List Nat) (size : Nat) : Except po_fault po_s :=
  if ¬ (size % 2 = 0) then .error .assertion
  else if ¬ (size ≥ PO_MIN_SIZE) then .error .assertion
  else
    let po := po_init po size (some mem) 1
    match po_memset0 po.data 0 (pm_unit2byte size) with
    | .error e => .error e
    | .ok data => .ok { po with data := data }

/-- Function `po_destroy_storage` on a non-NULL descriptor. -/
def po_destroy_storage (po : po_s) : po_s :=
  po_set_size { po with data := none } 0

/-! ## Resizing -/

/-- Function `po_resize_to`: resize Postor to requested (legalized) size. -/
def po_resize_to (junk : Nat → Nat) (po : po_s) (new_size : Nat) :
    Except po_fault po_s :=
  if po_local po ≠ 0 then
    .ok (po_set_size_and_local { po with data := po_malloc (pm_unit2byte new_size) } new_size 0)
  else
    let old_size := pm_size po
    let po := { po with data := po_realloc junk po.data (pm_unit2byte new_size) }
    if new_size > old_size then
      match po_memset0 po.data old_size (((new_size - old_size) * po_unit_size) % 18446744073709551616) with
      | .error e => .error e
      | .ok data => .ok (po_set_size_and_local { po with data := data } new_size 0)
    else .ok (po_set_size_and_local po new_size 0)

/-- Function `po_resize`. -/
def po_resize (junk : Nat → Nat) (po : po_s) (new_size : Nat) : Except po_fault po_s :=
  let new_size := po_legal_size new_size
  if new_size ≥ po.used then po_resize_to junk po new_size else .ok po

/-! ## Stack operations -/

/-- Function `po_push`. -/
def po_push (junk : Nat → Nat) (po : po_s) (item : Nat) : Except po_fault po_s :=
  let new_used := (po.used + 1) % 18446744073709551616
  match (if new_used > pm_size po then po_resize_to junk po (po_incr_size po) else .ok po) with
  | .error e => .error e
  | .ok po =>
    match po_store po.data po.used item with
    | .error e => .error e
    | .ok data => .ok { po with data := data, used := new_used }

/-- Function `po_reset`. -/
def po_reset (po : po_s) : po_s := { po with used := 0 }

/-- Function `po_pop`: the popped item and the descriptor afterwards. -/
def po_pop (po : po_s) : Except po_fault (Nat × po_s) :=
  if po.used > 0 then
    match po_load po.data (po.used - 1) with
    | .error e => .error e
    | .ok ret =>
      let po := { po with used := po.used - 1 }
      if po.used = 0 then
        match po_store po.data 0 NULL with
        | .error e => .error e
        | .ok data => .ok (ret, { po with data := data })
      else .ok (ret, po)
  else .ok (NULL, po)

/-- Function `po_drop`: the number of items removed and the descriptor
afterwards. -/
def po_drop (po : po_s) (count : Nat) : Nat × po_s :=
  if po.used ≥ count then (count, { po with used := po.used - count })
  else (po.used, po_reset po)

/-- Function `po_add`. -/
def po_add (junk : Nat → Nat) (po : po_s) (item : Nat) : Except po_fault po_s :=
  let po := if po.data = none then po_new po else po
  po_push junk po item

/-- Function `po_remove`. -/
def po_remove (po : po_s) : Except po_fault (Nat × po_s) :=
  if po.data ≠ none then
    match po_pop po with
    | .error e => .error e
    | .ok (ret, po) =>
      if po.used = 0 then .ok (ret, po_destroy_storage po) else .ok (ret, po)
  else .ok (NULL, po)

/-- Function `po_clear`. -/
def po_clear (po : po_s) : Except po_fault po_s :=
  let po := { po with used := 0 }
  match po_memset0 po.data 0 (po_byte_size po) with
  | .error e => .error e
  | .ok data => .ok { po with data := data }

/-- Library `memcpy( dst, src, bytes )` between two blocks, on whole slots. -/
def po_memcpy (dst src : Option (List Nat)) (bytes : Nat) :
    Except po_fault (Option (List Nat)) :=
  match dst, src with
  | some d, some s =>
    let n := bytes / po_unit_size
    if n ≤ d.length ∧ n ≤ s.length then .ok (some (s.take n ++ d.drop n))
    else .error .out_of_bounds
  | _, _ => .error .null_deref

/-- Function `po_duplicate`: the duplicate descriptor (every field of the fresh
descriptor is written by `po_new_sized`). -/
def po_duplicate (po : po_s) : Except po_fault po_s :=
  let dup := po_new_sized { size := 0, used := 0, data := none } (pm_size po)
  let dup := { dup with used := po.used }
  match po_memcpy dup.data po.data (po_used_size po) with
  | .error e => .error e
  | .ok data => .ok { dup with data := data }

/-! ## Random access -/

/-- Function `po_swap`: the item swapped out and the descriptor afterwards. -/
def po_swap (po : po_s) (pos : Int) (item : Nat) : Except po_fault (Nat × po_s) :=
  if po.data = none then .ok (NULL, po)
  else if po.used = 0 then .ok (NULL, po)
  else
    match po_norm_idx po pos with
    | .error e => .error e
    | .ok norm =>
      match po_load po.data norm with
      | .error e => .error e
      | .ok ret =>
        match po_store po.data norm item with
        | .error e => .error e
        | .ok data => .ok (ret, { po with data := data })

/-- Function `po_insert_if`: the returned flag (`po_true` is 1, `po_false` is 0)
and the descriptor afterwards. -/
def po_insert_if (po : po_s) (pos : Int) (item : Nat) : Except po_fault (Int × po_s) :=
  let new_used := (po.used + 1) % 18446744073709551616
  if new_used > pm_size po then .ok (0, po)
  else
    match (if pos = to_i64 po.used then .ok (to_u64 pos) else po_norm_idx po pos) with
    | .error e => .error e
    | .ok norm =>
      match (if norm < po.used then
               po_memmove po.data (norm + 1) norm (((po.used - norm) * po_unit_size) % 18446744073709551616)
             else if norm > po.used then .error .assertion
             else .ok po.data) with
      | .error e => .error e
      | .ok data =>
        match po_store data norm item with
        | .error e => .error e
        | .ok data => .ok (1, { po with data := data, used := new_used })

/-- Function `po_insert_at`. -/
def po_insert_at (junk : Nat → Nat) (po : po_s) (pos : Int) (item : Nat) :
    Except po_fault po_s :=
  let new_used := (po.used + 1) % 18446744073709551616
  match (if new_used > pm_size po then po_resize_to junk po (po_incr_size po) else .ok po) with
  | .error e => .error e
  | .ok po =>
    match po_insert_if po pos item with
    | .error e => .error e
    | .ok (_, po) => .ok po

/-- Function `po_first`. -/
def po_first (po : po_s) : Except po_fault Nat := po_load po.data 0

/-- Function `po_last`. -/
def po_last (po : po_s) : Except po_fault Nat :=
  if po.used > 0 then po_load po.data (po.used - 1) else .ok NULL

/-- Function `po_nth`. -/
def po_nth (po : po_s) (pos : Int) : Except po_fault Nat :=
  if po.used > 0 then
    match po_norm_idx po pos with
    | .error e => .error e
    | .ok idx => po_load po.data idx
  else .ok NULL

/-- Function `po_delete_at`: the returned item and the descriptor afterwards. -/
def po_delete_at (po : po_s) (pos : Int) : Except po_fault (Nat × po_s) :=
  if po.used = 0 then .ok (NULL, po)
  else
    let new_used := po.used - 1
    if po.used = 1 then
      match po_first po with
      | .error e => .error e
      | .ok _ =>
        let po := { po with used := 0 }
        match po_store po.data 0 NULL with
        | .error e => .error e
        | .ok data => .ok (NULL, { po with data := data })
    else
      match po_norm_idx po pos with
      | .error e => .error e
      | .ok norm =>
        match po_load po.data norm with
        | .error e => .error e
        | .ok ret =>
          match po_memmove po.data norm (norm + 1)
                  (((po.used - (norm + 1)) * po_unit_size) % 18446744073709551616) with
          | .error e => .error e
          | .ok data => .ok (ret, { po with data := data, used := new_used })

/-- Function `po_alloc_bytes`: the returned pointer, as the offset of the slot
it addresses in the data block (`none` is `NULL`), and the descriptor
afterwards. -/
def po_alloc_bytes (po : po_s) (bytes : Nat) : Option Nat × po_s :=
  let units := ((bytes >>> 3) + (if bytes &&& 0x07 ≠ 0 then 1 else 0)) % 18446744073709551616
  if po.size ≥ (po.used + units) % 18446744073709551616 then
    ((if po.data = none ∧ po.used = 0 then none else some po.used),
      { po with used := (po.used + units) % 18446744073709551616 })
  else (none, po)

/-- Function `po_is_empty`. -/
def po_is_empty (po : po_s) : Int :=
  if po.data = none then 0 else if po.used ≤ 0 then 1 else 0

/-- Function `po_is_full`. -/
def po_is_full (po : po_s) : Int :=
  if po.data = none then 0 else if po.used ≥ pm_size po then 1 else 0

/-- Loop of `po_find`: `n` iterations remain, the next offset is `i`. -/
def po_find_loop (po : po_s) (item : Nat) : Nat → Nat → Except po_fault Int
  | 0, _ => .ok PO_NOT_INDEX
  | n + 1, i =>
    match po_load po.data i with
    | .error e => .error e
    | .ok x => if x = item then .ok (to_i64 i) else po_find_loop po item n (i + 1)

/-- Function `po_find`. -/
def po_find (po : po_s) (item : Nat) : Except po_fault Int :=
  po_find_loop po item po.used 0

/-- Loop of `po_find_with`: `n` iterations remain, the next offset is `i`. -/
def po_find_with_loop (po : po_s) (compare : Nat → Nat → Int) (ref : Nat) :
    Nat → Nat → Except po_fault Int
  | 0, _ => .ok PO_NOT_INDEX
  | n + 1, i =>
    match po_load po.data i with
    | .error e => .error e
    | .ok x =>
      if compare x ref ≠ 0 then .ok (to_i64 i) else po_find_with_loop po compare ref n (i + 1)

/-- Function `po_find_with`. -/
def po_find_with (po : po_s) (compare : Nat → Nat → Int) (ref : Nat) :
    Except po_fault Int :=
  po_find_with_loop po compare ref po.used 0

/-! ## Views used to state properties -/

/-- The data block of a descriptor (empty when there is no storage). -/
def po_block (po : po_s) : List Nat := po.data.getD []

/-- The element sequence: the slots at offsets `[0, used)`. -/
def po_items (po : po_s) : List Nat := (po_block po).take po.used

/-- A descriptor with storage: a 64-bit size word, a data block of exactly
`po_size` slots whose byte size `po_bytesize` is representable in 64 bits,
`used <= reservation` and `reservation >= PO_MIN_SIZE`. -/
def po_has_storage (po : po_s) : Prop :=
  po.size < 18446744073709551616 ∧ po.data.map List.length = some (po_size po) ∧
    po_unit_size * po_size po < 18446744073709551616 ∧
    po.used ≤ po_size po ∧ PO_MIN_SIZE ≤ po_size po

instance (po : po_s) : Decidable (po_has_storage po) := by
  unfold po_has_storage; infer_instance

/-- The used count lies in the range that positions of type `po_pos_t` can
address: at most `2 ^ 63` elements. -/
def po_used_fits (po : po_s) : Prop := po.used ≤ 9223372036854775808

instance (po : po_s) : Decidable (po_used_fits po) := by
  unfold po_used_fits; infer_instance

/-- The byte size of the doubled, page-aligned reservation is representable in
a 64-bit word, so that the allocation request of a growth step does not wrap. -/
def po_grow_fits (po : po_s) : Prop := po_unit_size * (2 * po_size po + 4096) < 18446744073709551616

instance (po : po_s) : Decidable (po_grow_fits po) := by
  unfold po_grow_fits; infer_instance

/-- A position is an `int64_t` value. -/
def po_pos_ok (pos : Int) : Prop :=
  -9223372036854775808 ≤ pos ∧ pos < 9223372036854775808

instance (pos : Int) : Decidable (po_pos_ok pos) := by
  unfold po_pos_ok; infer_instance

/-- Offset of a signed position in a container of `u` elements, as the spec
writes it (section 4.3): the position itself when it is not negative, `u + pos`
when it is. -/
def normalize (u : Nat) (pos : Int) : Nat :=
  if 0 ≤ pos then pos.toNat else ((u : Int) + pos).toNat

/-- The push loop of the tests: `po_push` of each item in turn. -/
def po_push_each (junk : Nat → Nat) : po_s → List Nat → Except po_fault po_s
  | po, [] => .ok po
  | po, item :: rest =>
    match po_push junk po item with
    | .error e => .error e
    | .ok po => po_push_each junk po rest

/-- The byte size of the page-aligned reservation is representable in a 64-bit
word, so that the allocation request of `po_duplicate` does not wrap. -/
def po_page_fits (po : po_s) : Prop :=
  po_unit_size * (po_size po + 4096) < 18446744073709551616

instance (po : po_s) : Decidable (po_page_fits po) := by
  unfold po_page_fits; infer_instance

/-! ## An allocator that may refuse

`po_malloc` and `po_realloc` above always hand out a block.  The C library may
also return `NULL`, and `postor.c` never tests for it.  The definitions of this
section repeat the operations that allocate, with an allocator that may refuse
a request; everything else in them is as above. -/

/-- The behaviour of the allocator: `meets n` tells whether a request of `n`
bytes is met (otherwise `NULL` is returned), `moves n` whether `realloc` to `n`
bytes returns a new address rather than the old one, and `junk i` is the
indeterminate content of slot `i` of a tail grown by `realloc`. -/
structure po_allocator where
  meets : Nat → Bool
  moves : Nat → Bool
  junk : Nat → Nat

/-- Allocator hook `po_malloc`, `calloc( size, 1 )`, which may return `NULL`. -/
def po_malloc_fallible (al : po_allocator) (size : Nat) : Option (List Nat) :=
  if al.meets size then po_malloc size else none

/-- Allocator hook `po_realloc`, `realloc`, which may return `NULL`. -/
def po_realloc_fallible (al : po_allocator) (ptr : Option (List Nat)) (size : Nat) :
    Option (List Nat) :=
  if al.meets size then po_realloc al.junk ptr size else none

/-- Function `po_resize_to`, the allocator may refuse: the result of the
allocator is stored in `po->data` unchecked, and the `memset` of a grown tail
then writes through it. -/
def po_resize_to_fallible (al : po_allocator) (po : po_s) (new_size : Nat) :
    Except po_fault po_s :=
  if po_local po ≠ 0 then
    .ok (po_set_size_and_local
      { po with data := po_malloc_fallible al (pm_unit2byte new_size) } new_size 0)
  else
    let old_size := pm_size po
    let po := { po with data := po_realloc_fallible al po.data (pm_unit2byte new_size) }
    if new_size > old_size then
      match po_memset0 po.data old_size (((new_size - old_size) * po_unit_size) % 18446744073709551616) with
      | .error e => .error e
      | .ok data => .ok (po_set_size_and_local { po with data := data } new_size 0)
    else .ok (po_set_size_and_local po new_size 0)

/-- Function `po_resize`, the allocator may refuse. -/
def po_resize_fallible (al : po_allocator) (po : po_s) (new_size : Nat) :
    Except po_fault po_s :=
  let new_size := po_legal_size new_size
  if new_size ≥ po.used then po_resize_to_fallible al po new_size else .ok po

/-- Function `po_push`, the allocator may refuse. -/
def po_push_fallible (al : po_allocator) (po : po_s) (item : Nat) : Except po_fault po_s :=
  let new_used := (po.used + 1) % 18446744073709551616
  match (if new_used > pm_size po then po_resize_to_fallible al po (po_incr_size po)
         else .ok po) with
  | .error e => .error e
  | .ok po =>
    match po_store po.data po.used item with
    | .error e => .error e
    | .ok data => .ok { po with data := data, used := new_used }

/-- Function `po_insert_at`, the allocator may refuse. -/
def po_insert_at_fallible (al : po_allocator) (po : po_s) (pos : Int) (item : Nat) :
    Except po_fault po_s :=
  let new_used := (po.used + 1) % 18446744073709551616
  match (if new_used > pm_size po then po_resize_to_fallible al po (po_incr_size po)
         else .ok po) with
  | .error e => .error e
  | .ok po =>
    match po_insert_if po pos item with
    | .error e => .error e
    | .ok (_, po) => .ok po

/-- Function `po_new_sized` on a supplied (non-NULL) descriptor, the allocator
may refuse. -/
def po_new_sized_fallible (al : po_allocator) (po : po_s) (size : Nat) : po_s :=
  let size := po_legal_size size
  po_init po size (po_malloc_fallible al (pm_unit2byte size)) 0

/-- Function `po_new` on a supplied (non-NULL) descriptor, the allocator may
refuse. -/
def po_new_fallible (al : po_allocator) (po : po_s) : po_s :=
  po_new_sized_fallible al po PO_DEFAULT_SIZE

/-- Function `po_add`, the allocator may refuse. -/
def po_add_fallible (al : po_allocator) (po : po_s) (item : Nat) : Except po_fault po_s :=
  let po := if po.data = none then po_new_fallible al po else po
  po_push_fallible al po item

/-! ## Memory with addresses

The operations above compute with the contents of the data block.  To speak
about two descriptors and whether they share storage, blocks live in a memory
at addresses, a descriptor holds the address of its block in `po->data`, and the
operations read and write the memory through that address.  The allocator hands
out addresses that are not in use; it may refuse. -/

/-- Memory: the blocks that exist, in order of creation.  The block at address
`a >= 1` is entry `a - 1`, which is `none` once the block is released.  Address
0 is `NULL`. -/
structure po_mem where
  blocks : List (Option (List Nat))
  deriving DecidableEq, Repr

/-- The block at an address: `none` at `NULL` and where no block exists. -/
def po_mem_get (m : po_mem) (a : Nat) : Option (List Nat) :=
  if a = 0 then none else m.blocks.getD (a - 1) none

/-- Memory with the block at an address replaced. -/
def po_mem_set (m : po_mem) (a : Nat) (b : Option (List Nat)) : po_mem :=
  if a = 0 then m else { blocks := m.blocks.set (a - 1) b }

/-- Postor struct with its block in memory: `data` is the address held by
`po->data`. -/
structure po_ref where
  size : Nat
  used : Nat
  data : Nat
  deriving DecidableEq, Repr

/-- The descriptor together with the contents of its block. -/
def po_deref (m : po_mem) (po : po_ref) : po_s :=
  { size := po.size, used := po.used, data := po_mem_get m po.data }

/-- Allocator hook `po_malloc` in memory, `calloc( size, 1 )`: the address of a
new zero-filled block, which is no address in use, or `NULL`. -/
def po_malloc_mem (al : po_allocator) (m : po_mem) (size : Nat) : Nat × po_mem :=
  if al.meets size then (m.blocks.length + 1, { blocks := m.blocks ++ [po_malloc size] })
  else (NULL, m)

/-- Allocator hook `po_realloc` in memory, `realloc`: the block with its new
size at the old address, or at a new address with the old block released, or
`NULL` with the old block left as it is. -/
def po_realloc_mem (al : po_allocator) (m : po_mem) (ptr : Nat) (size : Nat) : Nat × po_mem :=
  if al.meets size then
    if al.moves size = true ∨ ptr = NULL then
      (m.blocks.length + 1,
        { blocks := (po_mem_set m ptr none).blocks ++
            [po_realloc al.junk (po_mem_get m ptr) size] })
    else (ptr, po_mem_set m ptr (po_realloc al.junk (po_mem_get m ptr) size))
  else (NULL, m)

/-- Write `ptr[ i ] = v` in memory. -/
def po_store_mem (m : po_mem) (ptr : Nat) (i : Nat) (v : Nat) : Except po_fault po_mem :=
  match po_store (po_mem_get m ptr) i v with
  | .error e => .error e
  | .ok b => .ok (po_mem_set m ptr b)

/-- Library `memset( &ptr[ off ], 0, bytes )` in memory. -/
def po_memset0_mem (m : po_mem) (ptr : Nat) (off : Nat) (bytes : Nat) :
    Except po_fault po_mem :=
  match po_memset0 (po_mem_get m ptr) off bytes with
  | .error e => .error e
  | .ok b => .ok (po_mem_set m ptr b)

/-- Library `memcpy( dst, src, bytes )` in memory. -/
def po_memcpy_mem (m : po_mem) (dst src : Nat) (bytes : Nat) : Except po_fault po_mem :=
  match po_memcpy (po_mem_get m dst) (po_mem_get m src) bytes with
  | .error e => .error e
  | .ok b => .ok (po_mem_set m dst b)

/-- Function `po_set_size_and_local` on a descriptor in memory. -/
def po_set_size_and_local_mem (po : po_ref) (size : Nat) (local_ : Int) : po_ref :=
  { po with size := (po_set_size_and_local
      { size := po.size, used := po.used, data := none } size local_).size }

/-- Function `po_init` on a descriptor in memory. -/
def po_init_mem (po : po_ref) (size : Nat) (data : Nat) (local_ : Int) : po_ref :=
  let po := po_set_size_and_local_mem po size local_
  { po with used := 0, data := data }

/-- Function `po_new_sized` in memory, on a supplied (non-NULL) descriptor. -/
def po_new_sized_mem (al : po_allocator) (m : po_mem) (po : po_ref) (size : Nat) :
    po_mem × po_ref :=
  let size := po_legal_size size
  let r := po_malloc_mem al m (pm_unit2byte size)
  (r.2, po_init_mem po size r.1 0)

/-- Function `po_duplicate` in memory: the duplicate descriptor, whose block is
the one `po_new_sized` obtains from `po_malloc`, and the memory afterwards. -/
def po_duplicate_mem (al : po_allocator) (m : po_mem) (po : po_ref) :
    Except po_fault (po_mem × po_ref) :=
  let r := po_new_sized_mem al m { size := 0, used := 0, data := NULL } (pm_size (po_deref m po))
  let dup := { r.2 with used := po.used }
  match po_memcpy_mem r.1 dup.data po.data (po_used_size (po_deref m po)) with
  | .error e => .error e
  | .ok m => .ok (m, dup)

/-- Function `po_resize_to` in memory. -/
def po_resize_to_mem (al : po_allocator) (m : po_mem) (po : po_ref) (new_size : Nat) :
    Except po_fault (po_mem × po_ref) :=
  if po_local (po_deref m po) ≠ 0 then
    let r := po_malloc_mem al m (pm_unit2byte new_size)
    .ok (r.2, po_set_size_and_local_mem { po with data := r.1 } new_size 0)
  else
    let old_size := pm_size (po_deref m po)
    let r := po_realloc_mem al m po.data (pm_unit2byte new_size)
    let po := { po with data := r.1 }
    if new_size > old_size then
      match po_memset0_mem r.2 po.data old_size (((new_size - old_size) * po_unit_size) % 18446744073709551616) with
      | .error e => .error e
      | .ok m => .ok (m, po_set_size_and_local_mem po new_size 0)
    else .ok (r.2, po_set_size_and_local_mem po new_size 0)

/-- Function `po_push` in memory. -/
def po_push_mem (al : po_allocator) (m : po_mem) (po : po_ref) (item : Nat) :
    Except po_fault (po_mem × po_ref) :=
  let new_used := (po.used + 1) % 18446744073709551616
  match (if new_used > pm_size (po_deref m po) then
           po_resize_to_mem al m po (po_incr_size (po_deref m po))
         else .ok (m, po)) with
  | .error e => .error e
  | .ok r =>
    match po_store_mem r.1 r.2.data r.2.used item with
    | .error e => .error e
    | .ok m => .ok (m, { r.2 with used := new_used })

/-- Function `po_pop` in memory: the popped item, the memory and the descriptor
afterwards. -/
def po_pop_mem (m : po_mem) (po : po_ref) : Except po_fault (Nat × po_mem × po_ref) :=
  if po.used > 0 then
    match po_load (po_mem_get m po.data) (po.used - 1) with
    | .error e => .error e
    | .ok ret =>
      let po := { po with used := po.used - 1 }
      if po.used = 0 then
        match po_store_mem m po.data 0 NULL with
        | .error e => .error e
        | .ok m => .ok (ret, m, po)
      else .ok (ret, m, po)
  else .ok (NULL, m, po)

/-- Function `po_swap` in memory: the item swapped out, the memory and the
descriptor afterwards. -/
def po_swap_mem (m : po_mem) (po : po_ref) (pos : Int) (item : Nat) :
    Except po_fault (Nat × po_mem × po_ref) :=
  if po.data = NULL then .ok (NULL, m, po)
  else if po.used = 0 then .ok (NULL, m, po)
  else
    match po_norm_idx (po_deref m po) pos with
    | .error e => .error e
    | .ok norm =>
      match po_load (po_mem_get m po.data) norm with
      | .error e => .error e
      | .ok ret =>
        match po_store_mem m po.data norm item with
        | .error e => .error e
        | .ok m => .ok (ret, m, po)

/-- The invariant of the descriptor: either it has storage (`used` within an
even reservation of at least `PO_MIN_SIZE`, the block of that many slots), or
it has none, with `used == 0` and `reservation == 0`. -/
def po_invariant (po : po_s) : Prop :=
  po_has_storage po ∨ (po.data = none ∧ po_used po = 0 ∧ po_size po = 0)

instance (po : po_s) : Decidable (po_invariant po) := by
  unfold po_invariant; infer_instance

/-! ## Bit-mask arithmetic -/

theorem land_lbmc (n : Nat) (h : n < 18446744073709551616) :
    n &&& 0xFFFFFFFFFFFFFFFE = n - n % 2 := by
  apply Nat.eq_of_testBit_eq
  intro i
  rw [Nat.testBit_and]
  rcases i with _ | i
  · have : (n - n % 2) % 2 = 0 := by omega
    simp [Nat.testBit_zero, this]
  · have h1 : (n - n % 2).testBit (i + 1) = n.testBit (i + 1) := by
      rw [Nat.testBit_succ, Nat.testBit_succ]
      congr 1
      omega
    rw [h1]
    by_cases hi : i < 63
    · have : (0xFFFFFFFFFFFFFFFE : Nat).testBit (i + 1) = true := by
        interval_cases i <;> decide
      simp [this]
    · have : n.testBit (i + 1) = false := by
        apply Nat.testBit_eq_false_of_lt
        calc n < 2 ^ 64 := h
          _ ≤ 2 ^ (i + 1) := Nat.pow_le_pow_right (by norm_num) (by omega)
      simp [this]

theorem lor_one (n : Nat) : n ||| 1 = n + (1 - n % 2) := by
  apply Nat.eq_of_testBit_eq
  intro i
  rw [Nat.testBit_or]
  rcases i with _ | i
  · have : (n + (1 - n % 2)) % 2 = 1 := by omega
    simp [Nat.testBit_zero, this]
  · have h1 : (n + (1 - n % 2)).testBit (i + 1) = n.testBit (i + 1) := by
      rw [Nat.testBit_succ, Nat.testBit_succ]
      congr 1
      omega
    have h2 : (1 : Nat).testBit (i + 1) = false := by
      rw [Nat.testBit_succ]; simp
    rw [h1, h2]; simp

theorem pm_size_eq (po : po_s) (h : po.size < 18446744073709551616) :
    pm_size po = po.size - po.size % 2 := by
  unfold pm_size po_lbmc
  exact land_lbmc po.size h

theorem po_local_eq (po : po_s) : po_local po = po.size % 2 := by
  unfold po_local
  exact Nat.and_one_is_mod po.size

theorem po_size_even (po : po_s) (h : po.size < 18446744073709551616) : po_size po % 2 = 0 := by
  unfold po_size
  rw [pm_size_eq po h]
  omega

/-! ## Growth policy arithmetic -/

theorem po_align_size_small (s : Nat) (h : s < 4096) : po_align_size s = s := by
  unfold po_align_size
  have : ¬ s ≥ 4096 := by omega
  simp [this]

theorem po_align_size_page : po_align_size 4096 = 4096 := by decide

theorem po_align_size_large (s : Nat) (h : 4096 < s) (hb : s + 4096 < 18446744073709551616) :
    po_align_size s = (s / 4096 + 1) * 4096 := by
  unfold po_align_size
  have h1 : s ≥ 4096 := by omega
  have h2 : ¬ s = 4096 := by omega
  simp only [h1, h2, if_true, if_false, Nat.shiftRight_eq_div_pow, Nat.shiftLeft_eq]
  norm_num
  omega

theorem po_snor_eq (s : Nat) : po_snor s = if s % 2 = 1 then (s + 1) % 18446744073709551616 else s := by
  unfold po_snor
  rw [Nat.and_one_is_mod]
  by_cases h : s % 2 = 1
  · simp [h]
  · have : s % 2 = 0 := by omega
    simp [this]

/-- The legal size under its no-wrap bound: even, at least the minimum, at
least the request, a multiple of 4096 from 4096 on, and at most the request
plus 4097. -/
theorem po_legal_size_bounds (s : Nat) (hb : s + 4097 < 18446744073709551616) :
    po_legal_size s % 2 = 0 ∧ PO_MIN_SIZE ≤ po_legal_size s ∧ s ≤ po_legal_size s ∧
      (4096 ≤ po_legal_size s → po_legal_size s % 4096 = 0) ∧
      po_legal_size s ≤ s + 4097 := by
  unfold po_legal_size PO_MIN_SIZE
  rw [po_snor_eq]
  simp only []
  by_cases hodd : s % 2 = 1
  · rw [if_pos hodd, Nat.mod_eq_of_lt (by omega : s + 1 < 18446744073709551616)]
    rw [if_neg (by omega : ¬ s + 1 < 2)]
    rcases Nat.lt_trichotomy (s + 1) 4096 with h | h | h
    · rw [po_align_size_small _ h]; omega
    · rw [h, po_align_size_page]; omega
    · rw [po_align_size_large _ h (by omega)]; omega
  · rw [if_neg hodd]
    by_cases h2 : s < 2
    · rw [if_pos h2, po_align_size_small 2 (by omega)]; omega
    · rw [if_neg h2]
      rcases Nat.lt_trichotomy s 4096 with h | h | h
      · rw [po_align_size_small _ h]; omega
      · rw [h, po_align_size_page]; omega
      · rw [po_align_size_large _ h (by omega)]; omega

/-- The legal size of any 64-bit request is even and is a 64-bit value. -/
theorem po_legal_size_even (s : Nat) (hs : s < 18446744073709551616) :
    po_legal_size s % 2 = 0 ∧ po_legal_size s < 18446744073709551616 := by
  unfold po_legal_size PO_MIN_SIZE po_align_size
  rw [po_snor_eq]
  simp only [Nat.shiftRight_eq_div_pow, Nat.shiftLeft_eq]
  split_ifs <;> omega

/-! ## Size word lemmas -/

theorem po_set_size_and_local_zero (po : po_s) (n : Nat) (hn : n < 18446744073709551616)
    (he : n % 2 = 0) :
    po_set_size_and_local po n 0 = { po with size := n } := by
  unfold po_set_size_and_local po_set_local po_lbmc
  simp only [ne_eq, not_true_eq_false, if_false]
  rw [land_lbmc n hn]
  have : n - n % 2 = n := by omega
  rw [this]

theorem po_size_of_even (po : po_s) (h : po.size < 18446744073709551616)
    (he : po.size % 2 = 0) : po_size po = po.size := by
  unfold po_size
  rw [pm_size_eq po h]
  omega

theorem po_get_local_eq (po : po_s) : po_get_local po = ((po.size % 2 : Nat) : Int) := by
  unfold po_get_local
  rw [po_local_eq]

/-! ## Memory lemmas -/

theorem po_has_storage_block {po : po_s} (hs : po_has_storage po) :
    ∃ blk, po.data = some blk ∧ blk.length = po_size po := by
  obtain ⟨_, h, _⟩ := hs
  cases hd : po.data with
  | none => rw [hd] at h; simp at h
  | some blk =>
    rw [hd] at h
    simp only [Option.map_some', Option.some.injEq] at h
    exact ⟨blk, rfl, h⟩

theorem po_load_some (blk : List Nat) (i : Nat) (h : i < blk.length) :
    po_load (some blk) i = .ok (blk[i]) := by
  unfold po_load
  simp only [List.getElem?_eq_getElem h]

theorem po_store_some (blk : List Nat) (i v : Nat) (h : i < blk.length) :
    po_store (some blk) i v = .ok (some (blk.set i v)) := by
  unfold po_store
  simp only [h, if_true]

theorem po_load_set_self (blk : List Nat) (i v : Nat) (h : i < blk.length) :
    po_load (some (blk.set i v)) i = .ok v := by
  rw [po_load_some _ _ (by simpa using h)]
  simp

theorem po_load_set_ne (blk : List Nat) (i j v : Nat) (hij : i ≠ j) :
    po_load (some (blk.set i v)) j = po_load (some blk) j := by
  unfold po_load
  simp only [List.getElem?_set_ne hij]

theorem po_load_append_left (blk tl : List Nat) (i : Nat) (h : i < blk.length) :
    po_load (some (blk ++ tl)) i = po_load (some blk) i := by
  unfold po_load
  simp only [List.getElem?_append_left h]

theorem po_align_size_bounds (s : Nat) (hb : s + 4096 < 18446744073709551616) :
    s ≤ po_align_size s ∧ po_align_size s ≤ s + 4096 ∧
      (s < 4096 → po_align_size s = s) ∧
      (4096 ≤ s → po_align_size s % 4096 = 0) ∧
      (s % 2 = 0 → po_align_size s % 2 = 0) := by
  rcases Nat.lt_trichotomy s 4096 with h | h | h
  · rw [po_align_size_small _ h]; omega
  · rw [h, po_align_size_page]; omega
  · rw [po_align_size_large _ h hb]; omega

/-- Growth of a heap-owned block: the old slots are kept and the new tail is
zero-filled, whatever `realloc` left there. -/
theorem po_resize_to_heap_grow (junk : Nat → Nat) (po : po_s) (new_size : Nat)
    (blk : List Nat) (hd : po.data = some blk) (hlen : blk.length = pm_size po)
    (hloc : po_local po = 0) (hgt : pm_size po < new_size)
    (hnb : 8 * new_size < 18446744073709551616) (he : new_size % 2 = 0) :
    po_resize_to junk po new_size =
      .ok { size := new_size, used := po.used,
            data := some (blk ++ List.replicate (new_size - pm_size po) 0) } := by
  unfold po_resize_to
  simp only [hloc, ne_eq, not_true_eq_false, if_false, hgt, gt_iff_lt, if_true]
  have hbytes : pm_unit2byte new_size / po_unit_size = new_size := by
    unfold pm_unit2byte po_unit_size
    rw [Nat.shiftLeft_eq]
    omega
  have hb2 : (new_size - pm_size po) * po_unit_size % 18446744073709551616 / po_unit_size
      = new_size - pm_size po := by
    unfold po_unit_size
    omega
  unfold po_realloc po_memset0
  simp only [hd, Option.getD_some, hbytes, hb2]
  have htake : List.take new_size blk = blk := List.take_of_length_le (by omega)
  rw [htake]
  have hlen2 : (blk ++ List.map (fun i => junk (blk.length + i))
      (List.range (new_size - blk.length))).length = new_size := by
    simp only [List.length_append, List.length_map, List.length_range]
    omega
  rw [if_pos (by rw [hlen2]; omega)]
  simp only []
  rw [po_set_size_and_local_zero _ _ (by omega) he]
  have h1 : List.take (pm_size po) (blk ++ List.map (fun i => junk (blk.length + i))
      (List.range (new_size - blk.length))) = blk := by
    rw [← hlen]; simp
  have h2 : List.drop (pm_size po + (new_size - pm_size po)) (blk ++ List.map
      (fun i => junk (blk.length + i)) (List.range (new_size - blk.length))) = [] := by
    apply List.drop_of_length_le
    rw [hlen2]; omega
  rw [h1, h2]
  simp

/-- Push into a container that has room: one store, nothing else. -/
theorem po_push_room (junk : Nat → Nat) (po : po_s) (item : Nat) (blk : List Nat)
    (hd : po.data = some blk) (hlen : blk.length = pm_size po)
    (hroom : po.used < pm_size po) (hsz : po.size < 18446744073709551616) :
    po_push junk po item =
      .ok { size := po.size, used := po.used + 1, data := some (blk.set po.used item) } := by
  have hps := pm_size_eq po hsz
  unfold po_push
  have h1 : (po.used + 1) % 18446744073709551616 = po.used + 1 := by omega
  rw [h1]
  have h2 : ¬ po.used + 1 > pm_size po := by omega
  simp only [h2, if_false, hd]
  rw [po_store_some _ _ _ (by omega)]

/-- Push into a full heap-owned container: growth to `po_incr_size`, then the
store. -/
theorem po_push_full (junk : Nat → Nat) (po : po_s) (item : Nat) (blk : List Nat)
    (hd : po.data = some blk) (hlen : blk.length = pm_size po)
    (hfull : po.used = pm_size po) (hmin : 2 ≤ pm_size po)
    (hsz : po.size < 18446744073709551616) (hloc : po_local po = 0)
    (hfit : 8 * (2 * pm_size po + 4096) < 18446744073709551616) :
    po_push junk po item =
      .ok { size := po_incr_size po, used := po.used + 1,
            data := some ((blk ++ List.replicate (po_incr_size po - pm_size po) 0).set
              po.used item) } := by
  have hps := pm_size_eq po hsz
  have hinc : po_incr_size po = po_align_size (pm_size po * 2) := by
    unfold po_incr_size
    rw [Nat.mod_eq_of_lt (by omega)]
  obtain ⟨b1, b2, _, _, b5⟩ := po_align_size_bounds (pm_size po * 2) (by omega)
  rw [← hinc] at b1 b2 b5
  unfold po_push
  have h1 : (po.used + 1) % 18446744073709551616 = po.used + 1 := by omega
  rw [h1]
  have h2 : po.used + 1 > pm_size po := by omega
  simp only [h2, if_true]
  rw [po_resize_to_heap_grow junk po _ blk hd hlen hloc (by omega) (by omega) (b5 (by omega))]
  simp only []
  rw [po_store_some _ _ _ (by simp only [List.length_append, List.length_replicate]; omega)]

/-! ## Index normalizer lemmas -/

theorem to_u64_of_nonneg (i : Int) (h0 : 0 ≤ i) (h1 : i < 9223372036854775808) :
    to_u64 i = i.toNat := by
  unfold to_u64
  rw [Int.emod_eq_of_lt h0 (by omega)]

theorem to_u64_of_neg (i : Int) (h0 : i < 0) (h1 : -9223372036854775808 ≤ i) :
    to_u64 i = (i + 18446744073709551616).toNat := by
  unfold to_u64
  congr 1
  omega

theorem to_i64_of_small (n : Nat) (h : n < 9223372036854775808) : to_i64 n = (n : Int) := by
  unfold to_i64
  have : n % 18446744073709551616 = n := by omega
  rw [this, if_pos h]

/-- In range, `po_norm_idx` returns the normalized offset and no assertion
fires. -/
theorem po_norm_idx_in_range (po : po_s) (i : Int)
    (hfit : po.used ≤ 9223372036854775808)
    (h1 : -(po.used : Int) ≤ i) (h2 : i < po.used) :
    po_norm_idx po i = .ok (normalize po.used i) ∧ normalize po.used i < po.used := by
  unfold po_norm_idx normalize
  by_cases hneg : i < 0
  · have hn : ¬ 0 ≤ i := by omega
    simp only [hneg, hn, if_true, if_false]
    rw [to_u64_of_neg i hneg (by omega)]
    have e1 : (po.used + (i + 18446744073709551616).toNat) % 18446744073709551616
        = ((po.used : Int) + i).toNat := by omega
    rw [e1]
    have e2 : to_i64 (po.used + (i + 18446744073709551616).toNat)
        = (po.used : Int) + i := by
      unfold to_i64
      rw [e1]
      have : ((po.used : Int) + i).toNat < 9223372036854775808 := by omega
      rw [if_pos this]
      omega
    rw [e2]
    have e3 : ¬ ((po.used : Int) + i).toNat ≥ po.used := by omega
    have e4 : ¬ ((po.used : Int) + i < 0) := by omega
    simp only [e3, e4, if_false]
    exact ⟨trivial, by omega⟩
  · have hn : 0 ≤ i := by omega
    simp only [hneg, hn, if_true, if_false]
    rw [to_u64_of_nonneg i hn (by omega)]
    have e3 : ¬ i.toNat ≥ po.used := by omega
    simp only [e3, if_false]
    exact ⟨trivial, by omega⟩

/-- Out of range, the assertion of `po_norm_idx` fires. -/
theorem po_norm_idx_out_of_range (po : po_s) (i : Int)
    (hfit : po.used ≤ 9223372036854775808) (hi : po_pos_ok i)
    (h : (po.used : Int) ≤ i ∨ i < -(po.used : Int)) :
    po_norm_idx po i = .error .assertion := by
  obtain ⟨hlo, hhi⟩ := hi
  unfold po_norm_idx
  by_cases hneg : i < 0
  · simp only [hneg, if_true]
    rw [to_u64_of_neg i hneg hlo]
    have e3 : (po.used + (i + 18446744073709551616).toNat) % 18446744073709551616
        ≥ po.used := by omega
    simp only [e3, if_true]
  · have hn : 0 ≤ i := by omega
    simp only [hneg, if_false]
    rw [to_u64_of_nonneg i hn hhi]
    have e3 : i.toNat ≥ po.used := by omega
    simp only [e3, if_true]

/-! ## Resizing lemmas -/

/-- Resizing a local container: a fresh zero-filled block; nothing is copied
from the borrowed buffer. -/
theorem po_resize_to_local (junk : Nat → Nat) (po : po_s) (new_size : Nat)
    (hloc : po_local po ≠ 0)
    (hnb : 8 * new_size < 18446744073709551616) (he : new_size % 2 = 0) :
    po_resize_to junk po new_size =
      .ok { size := new_size, used := po.used, data := some (List.replicate new_size 0) } := by
  unfold po_resize_to
  simp only [hloc, ne_eq, not_false_eq_true, if_true]
  rw [po_set_size_and_local_zero _ _ (by omega) he]
  have hbytes : pm_unit2byte new_size / po_unit_size = new_size := by
    unfold pm_unit2byte po_unit_size
    rw [Nat.shiftLeft_eq]
    omega
  unfold po_malloc
  rw [hbytes]

/-- Shrinking a heap-owned block, or keeping its size: the block is cut to the
new size. -/
theorem po_resize_to_heap_shrink (junk : Nat → Nat) (po : po_s) (new_size : Nat)
    (blk : List Nat) (hd : po.data = some blk) (hlen : blk.length = pm_size po)
    (hloc : po_local po = 0) (hle : new_size ≤ pm_size po) (he : new_size % 2 = 0)
    (hnb : 8 * new_size < 18446744073709551616) :
    po_resize_to junk po new_size =
      .ok { size := new_size, used := po.used, data := some (blk.take new_size) } := by
  unfold po_resize_to
  have hgt : ¬ new_size > pm_size po := by omega
  simp only [hloc, ne_eq, not_true_eq_false, if_false, hgt]
  have hbytes : pm_unit2byte new_size / po_unit_size = new_size := by
    unfold pm_unit2byte po_unit_size
    rw [Nat.shiftLeft_eq]
    omega
  rw [po_set_size_and_local_zero _ _ (by omega) he]
  unfold po_realloc
  simp only [hd, Option.getD_some, hbytes]
  have : new_size - blk.length = 0 := by omega
  rw [this]
  simp

/-- The reservation after a growth step of a full container with storage. -/
theorem po_incr_size_bounds (po : po_s) (hsz : po.size < 18446744073709551616)
    (hfit : 8 * (2 * pm_size po + 4096) < 18446744073709551616) :
    2 * pm_size po ≤ po_incr_size po ∧ po_incr_size po ≤ 2 * pm_size po + 4096 ∧
      (2 * pm_size po < 4096 → po_incr_size po = 2 * pm_size po) ∧
      (4096 ≤ 2 * pm_size po → po_incr_size po % 4096 = 0) ∧
      po_incr_size po % 2 = 0 := by
  have hps := pm_size_eq po hsz
  have hinc : po_incr_size po = po_align_size (pm_size po * 2) := by
    unfold po_incr_size
    rw [Nat.mod_eq_of_lt (by omega)]
  obtain ⟨b1, b2, b3, b4, b5⟩ := po_align_size_bounds (pm_size po * 2) (by omega)
  rw [← hinc] at b1 b2 b3 b4 b5
  refine ⟨by omega, by omega, fun h => ?_, fun h => ?_, b5 (by omega)⟩
  · have := b3 (by omega); omega
  · exact b4 (by omega)

/-- The growth step of `po_push` and `po_insert_at` on a full container with
storage, local or heap-owned: whatever `realloc` leaves in fresh memory, the
result has the incremented reservation, the same `used`, is heap-owned and has
storage; a heap-owned source keeps its elements. -/
theorem po_grow_step (po : po_s) (hs : po_has_storage po)
    (hfull : po.used = po_size po) (hfit : po_grow_fits po) :
    ∃ p, (∀ junk, po_resize_to junk po (po_incr_size po) = .ok p) ∧
      p.size = po_incr_size po ∧
      p.used = po.used ∧ po_has_storage p ∧ po_size p = po_incr_size po ∧
      po_get_local p = 0 ∧ (po_get_local po = 0 → po_items p = po_items po) := by
  obtain ⟨blk, hd, hlen⟩ := po_has_storage_block hs
  obtain ⟨hsz, _, hbyte, hused, hmin⟩ := hs
  unfold po_grow_fits po_unit_size at hfit
  unfold po_unit_size at hbyte
  unfold PO_MIN_SIZE at hmin
  unfold po_size at *
  obtain ⟨b1, b2, _, _, b5⟩ := po_incr_size_bounds po hsz hfit
  have hstore : ∀ blk2 : List Nat, blk2.length = po_incr_size po →
      po_has_storage { size := po_incr_size po, used := po.used, data := some blk2 } ∧
        po_size { size := po_incr_size po, used := po.used, data := some blk2 }
          = po_incr_size po ∧
        po_get_local { size := po_incr_size po, used := po.used, data := some blk2 } = 0 := by
    intro blk2 h2
    have hsize : po_size { size := po_incr_size po, used := po.used, data := some blk2 }
        = po_incr_size po := po_size_of_even _ (by simp only []; omega) b5
    refine ⟨?_, hsize, ?_⟩
    · unfold po_has_storage
      rw [hsize]
      unfold po_unit_size PO_MIN_SIZE
      simp only [Option.map_some', h2]
      exact ⟨by omega, trivial, by omega, by omega, by omega⟩
    · rw [po_get_local_eq]; simp only [b5]; rfl
  by_cases hloc : po_local po = 0
  · refine ⟨_, fun junk =>
      po_resize_to_heap_grow junk po _ blk hd hlen hloc (by omega) (by omega) b5, rfl, rfl, ?_⟩
    obtain ⟨h1, h2, h3⟩ := hstore (blk ++ List.replicate (po_incr_size po - pm_size po) 0)
      (by simp only [List.length_append, List.length_replicate]; omega)
    refine ⟨h1, h2, h3, fun _ => ?_⟩
    unfold po_items po_block
    simp only [hd, Option.getD_some]
    rw [List.take_append_of_le_length (by omega)]
  · refine ⟨_, fun junk => po_resize_to_local junk po _ hloc (by omega) b5, rfl, rfl, ?_⟩
    obtain ⟨h1, h2, h3⟩ := hstore (List.replicate (po_incr_size po) 0)
      (by simp only [List.length_replicate])
    refine ⟨h1, h2, h3, fun h => ?_⟩
    rw [po_get_local_eq] at h
    rw [po_local_eq] at hloc
    omega

/-! ## Insert and delete lemmas -/

theorem insert_items (blk : List Nat) (n u item : Nat) (hn : n ≤ u) (hu : u < blk.length) :
    List.take (u + 1) ((List.take (n + 1) blk ++ List.take (u - n) (List.drop n blk)
        ++ List.drop (n + 1 + (u - n)) blk).set n item)
      = List.take n (List.take u blk) ++ item :: List.drop n (List.take u blk) := by
  apply List.ext_getElem?
  intro i
  simp only [List.getElem?_take, List.getElem?_set, List.getElem?_append, List.getElem?_drop,
    List.length_take, List.length_append, List.length_drop, List.getElem?_cons, List.length_set]
  have e1 : min (n + 1) blk.length = n + 1 := by omega
  have e2 : min n (min u blk.length) = n := by omega
  have e3 : min (u - n) (blk.length - n) = u - n := by omega
  simp only [e1, e2, e3]
  split_ifs <;> first | rfl | omega

theorem insert_items_end (blk : List Nat) (u item : Nat) (hu : u < blk.length) :
    List.take (u + 1) (blk.set u item)
      = List.take u (List.take u blk) ++ item :: List.drop u (List.take u blk) := by
  apply List.ext_getElem?
  intro i
  simp only [List.getElem?_take, List.getElem?_set, List.getElem?_append, List.getElem?_drop,
    List.length_take, List.length_append, List.length_drop, List.getElem?_cons, List.length_set]
  have e2 : min u (min u blk.length) = u := by omega
  simp only [e2]
  split_ifs <;> first | rfl | omega

theorem delete_items (blk : List Nat) (n u : Nat) (hn : n < u) (hu : u ≤ blk.length) :
    List.take (u - 1) (List.take n blk ++ List.take (u - (n + 1)) (List.drop (n + 1) blk)
        ++ List.drop (n + (u - (n + 1))) blk)
      = List.take n (List.take u blk) ++ List.drop (n + 1) (List.take u blk) := by
  apply List.ext_getElem?
  intro i
  simp only [List.getElem?_take, List.getElem?_set, List.getElem?_append, List.getElem?_drop,
    List.length_take, List.length_append, List.length_drop, List.getElem?_cons, List.length_set]
  have e1 : min n blk.length = n := by omega
  have e2 : min n (min u blk.length) = n := by omega
  have e3 : min (u - (n + 1)) (blk.length - (n + 1)) = u - (n + 1) := by omega
  simp only [e1, e2, e3]
  split_ifs <;> first | rfl | omega

theorem list_insert_delete (l : List Nat) (n item : Nat) (hn : n ≤ l.length) :
    (l.take n ++ item :: l.drop n)[n]? = some item ∧
      List.take n (l.take n ++ item :: l.drop n) ++
        List.drop (n + 1) (l.take n ++ item :: l.drop n) = l := by
  have hlt : (l.take n).length = n := by rw [List.length_take]; omega
  constructor
  · rw [List.getElem?_append_right (by omega), hlt]
    simp
  · rw [List.take_left' hlt]
    have : List.drop (n + 1) (l.take n ++ item :: l.drop n) = l.drop n := by
      rw [List.drop_append_eq_append_drop, hlt, List.drop_eq_nil_of_le (by omega)]
      have : n + 1 - n = 1 := by omega
      rw [this]
      simp
    rw [this, List.take_append_drop]

/-- Insertion with room at a valid position: the flag is 1, the size word is
untouched, `used` grows by one and `item` sits at the normalized offset between
the old head and the old tail. -/
theorem po_insert_if_room (po : po_s) (pos : Int) (item : Nat) (hs : po_has_storage po)
    (hroom : po.used < po_size po) (h1 : -(po.used : Int) ≤ pos) (h2 : pos ≤ po.used) :
    ∃ p, po_insert_if po pos item = .ok (1, p) ∧ p.size = po.size ∧
      p.used = po.used + 1 ∧ po_has_storage p ∧
      po_items p = (po_items po).take (normalize po.used pos) ++
        item :: (po_items po).drop (normalize po.used pos) := by
  obtain ⟨blk, hd, hlen⟩ := po_has_storage_block hs
  obtain ⟨hsz, _, hbyte, hused, hmin⟩ := hs
  unfold po_unit_size at hbyte
  unfold po_size at *
  have hnorm : (if pos = to_i64 po.used then Except.ok (to_u64 pos) else po_norm_idx po pos)
      = .ok (normalize po.used pos) ∧ normalize po.used pos ≤ po.used := by
    rw [to_i64_of_small _ (by omega)]
    by_cases hp : pos = (po.used : Int)
    · rw [if_pos hp, to_u64_of_nonneg pos (by omega) (by omega)]
      unfold normalize
      rw [if_pos (by omega)]
      exact ⟨rfl, by omega⟩
    · rw [if_neg hp]
      obtain ⟨e, l⟩ := po_norm_idx_in_range po pos (by omega) h1 (by omega)
      exact ⟨e, by omega⟩
  obtain ⟨hn1, hn2⟩ := hnorm
  unfold po_insert_if
  have hnu : (po.used + 1) % 18446744073709551616 = po.used + 1 := by omega
  have hng : ¬ po.used + 1 > pm_size po := by omega
  simp only [hnu, hng, if_false, hn1]
  have hwf : ∀ blk2 : List Nat, blk2.length = blk.length →
      po_has_storage { size := po.size, used := po.used + 1, data := some blk2 } := by
    intro blk2 h
    unfold po_has_storage po_unit_size PO_MIN_SIZE po_size
    have : pm_size { size := po.size, used := po.used + 1, data := some blk2 } = pm_size po :=
      rfl
    rw [this]
    simp only [Option.map_some', h, hlen]
    exact ⟨hsz, trivial, by omega, by omega, hmin⟩
  by_cases hlt : normalize po.used pos < po.used
  · simp only [hlt, if_true, hd]
    have hb : (po.used - normalize po.used pos) * po_unit_size % 18446744073709551616
        / po_unit_size = po.used - normalize po.used pos := by
      unfold po_unit_size; omega
    unfold po_memmove
    simp only [hb]
    rw [if_pos (by constructor <;> omega)]
    simp only []
    rw [po_store_some _ _ _ (by
      simp only [List.length_append, List.length_take, List.length_drop]; omega)]
    refine ⟨_, rfl, rfl, rfl, hwf _ ?_, ?_⟩
    · simp only [List.length_set, List.length_append, List.length_take, List.length_drop]
      omega
    · unfold po_items po_block
      simp only [hd, Option.getD_some]
      exact insert_items blk _ _ item (by omega) (by omega)
  · have heq : normalize po.used pos = po.used := by omega
    have hgt : ¬ normalize po.used pos > po.used := by omega
    simp only [hlt, hgt, if_false, hd]
    rw [po_store_some _ _ _ (by omega)]
    refine ⟨_, rfl, rfl, rfl, hwf _ (by simp), ?_⟩
    unfold po_items po_block
    simp only [hd, Option.getD_some, heq]
    exact insert_items_end blk _ item (by omega)

/-- Deletion at a valid position of a container holding at least two elements:
the element at the normalized offset is returned, the size word is untouched,
`used` shrinks by one and the tail moves one slot left. -/
theorem po_delete_at_many (po : po_s) (pos : Int) (hs : po_has_storage po)
    (hu : 2 ≤ po.used) (h1 : -(po.used : Int) ≤ pos) (h2 : pos < po.used) :
    ∃ ret p, po_delete_at po pos = .ok (ret, p) ∧
      (po_items po)[normalize po.used pos]? = some ret ∧ p.size = po.size ∧
      p.used = po.used - 1 ∧ po_has_storage p ∧
      po_items p = (po_items po).take (normalize po.used pos) ++
        (po_items po).drop (normalize po.used pos + 1) := by
  obtain ⟨blk, hd, hlen⟩ := po_has_storage_block hs
  obtain ⟨hsz, _, hbyte, hused, hmin⟩ := hs
  unfold po_unit_size at hbyte
  unfold po_size at *
  obtain ⟨hn1, hn2⟩ := po_norm_idx_in_range po pos (by omega) h1 h2
  unfold po_delete_at
  have hz : ¬ po.used = 0 := by omega
  have ho : ¬ po.used = 1 := by omega
  simp only [hz, ho, if_false, hn1, hd]
  rw [po_load_some _ _ (by omega)]
  simp only []
  have hb : (po.used - (normalize po.used pos + 1)) * po_unit_size % 18446744073709551616
      / po_unit_size = po.used - (normalize po.used pos + 1) := by
    unfold po_unit_size; omega
  unfold po_memmove
  simp only [hb]
  rw [if_pos (by constructor <;> omega)]
  refine ⟨_, _, rfl, ?_, rfl, rfl, ?_, ?_⟩
  · unfold po_items po_block
    simp only [hd, Option.getD_some]
    rw [List.getElem?_take, if_pos hn2, List.getElem?_eq_getElem (by omega)]
  · unfold po_has_storage po_unit_size PO_MIN_SIZE po_size
    have : ∀ b : List Nat, pm_size { size := po.size, used := po.used - 1, data := some b }
        = pm_size po := fun _ => rfl
    rw [this]
    simp only [Option.map_some', List.length_append, List.length_take, List.length_drop]
    refine ⟨hsz, ?_, by omega, by omega, hmin⟩
    congr 1
    omega
  · unfold po_items po_block
    simp only [hd, Option.getD_some]
    exact delete_items blk _ _ hn2 (by omega)

/-! ## Push and insert steps -/

/-- One `po_push` on a container with storage, local or heap-owned: it
succeeds with a result that does not depend on what `realloc` leaves in fresh
memory, `used` grows by one, the item sits at offset old-used, the reservation
is unchanged with room and incremented when full, and the result has storage.
A container with room, and a heap-owned full one, keep their elements. -/
theorem po_push_step (po : po_s) (item : Nat) (hs : po_has_storage po)
    (hfit : po.used = po_size po → po_grow_fits po) :
    ∃ p, (∀ junk, po_push junk po item = .ok p) ∧ po_has_storage p ∧
      p.used = po.used + 1 ∧
      (po.used < po_size po → p.size = po.size) ∧
      (po.used = po_size po → po_size p = po_incr_size po ∧ po_get_local p = 0) ∧
      (po.used < po_size po ∨ po_get_local po = 0 →
        po_items p = po_items po ++ [item]) := by
  obtain ⟨blk, hd, hlen⟩ := po_has_storage_block hs
  have hs' := hs
  obtain ⟨hsz, _, hbyte, hused, hmin⟩ := hs
  unfold po_unit_size at hbyte
  unfold po_size at *
  have hnu : (po.used + 1) % 18446744073709551616 = po.used + 1 := by omega
  by_cases hroom : po.used < pm_size po
  · refine ⟨_, fun junk => po_push_room junk po item blk hd hlen hroom hsz, ?_, rfl,
      fun _ => rfl, fun h => by omega, fun _ => ?_⟩
    · unfold po_has_storage po_unit_size PO_MIN_SIZE po_size
      have : ∀ b : List Nat,
          pm_size { size := po.size, used := po.used + 1, data := some b } = pm_size po :=
        fun _ => rfl
      rw [this]
      simp only [Option.map_some', List.length_set, hlen]
      exact ⟨hsz, trivial, by omega, by omega, hmin⟩
    · unfold po_items po_block
      simp only [hd, Option.getD_some]
      have := insert_items_end blk po.used item (by omega)
      rw [this, List.take_take, Nat.min_self, List.drop_take, Nat.sub_self]
      simp
  · have hfull : po.used = pm_size po := by omega
    obtain ⟨p1, hr, hsize1, hused1, hs1, hps1, hloc1, hit1⟩ :=
      po_grow_step po hs' hfull (hfit hfull)
    obtain ⟨blk1, hd1, hlen1⟩ := po_has_storage_block hs1
    have hfit' := hfit hfull
    unfold po_grow_fits po_unit_size po_size at hfit'
    obtain ⟨b1, b2, _, _, b5⟩ := po_incr_size_bounds po hsz hfit'
    unfold PO_MIN_SIZE at hmin
    unfold po_size at hps1 hlen1
    have hpm : ∀ (u : Nat) (d : Option (List Nat)),
        pm_size { size := p1.size, used := u, data := d } = pm_size p1 := fun _ _ => rfl
    refine ⟨{ size := p1.size, used := po.used + 1, data := some (blk1.set po.used item) },
      fun junk => ?_, ?_, rfl, fun h => by omega, fun _ => ⟨?_, ?_⟩, fun h => ?_⟩
    · unfold po_push
      have hgt : po.used + 1 > pm_size po := by omega
      simp only [hnu, hgt, if_true, hr junk, hd1, hused1]
      rw [po_store_some _ _ _ (by omega)]
    · unfold po_has_storage po_unit_size PO_MIN_SIZE po_size
      rw [hpm]
      simp only [Option.map_some', List.length_set, hlen1]
      exact ⟨hs1.1, trivial, by omega, by omega, by omega⟩
    · rw [hpm]; exact hps1
    · rw [po_get_local_eq] at hloc1 ⊢; exact hloc1
    · have hl0 : po_get_local po = 0 := by
        rcases h with h | h
        · omega
        · exact h
      have hi := hit1 hl0
      unfold po_items po_block at hi ⊢
      simp only [hd, hd1, Option.getD_some, hused1] at hi ⊢
      have := insert_items_end blk1 po.used item (by omega)
      rw [this, List.take_take, Nat.min_self, List.drop_take, Nat.sub_self, hi]
      simp

/-- One `po_insert_at` on a container with storage at a valid position: it
succeeds, `used` grows by one, the reservation is unchanged with room and
incremented when full, and the result has storage. -/
theorem po_insert_at_step (junk : Nat → Nat) (po : po_s) (pos : Int) (item : Nat)
    (hs : po_has_storage po) (hfit : po.used = po_size po → po_grow_fits po)
    (h1 : -(po.used : Int) ≤ pos) (h2 : pos ≤ po.used) :
    ∃ p, po_insert_at junk po pos item = .ok p ∧ po_has_storage p ∧
      p.used = po.used + 1 ∧
      (po.used < po_size po → p.size = po.size) ∧
      (po.used = po_size po → po_size p = po_incr_size po ∧ po_get_local p = 0) ∧
      (po.used < po_size po ∨ po_get_local po = 0 →
        po_items p = (po_items po).take (normalize po.used pos) ++
          item :: (po_items po).drop (normalize po.used pos)) := by
  have hs' := hs
  obtain ⟨hsz, _, hbyte, hused, hmin⟩ := hs
  unfold po_unit_size at hbyte
  unfold po_size at hbyte hused hmin
  have hnu : (po.used + 1) % 18446744073709551616 = po.used + 1 := by omega
  by_cases hroom : po.used < po_size po
  · obtain ⟨p, hp, hsize, hu, hsp, hit⟩ := po_insert_if_room po pos item hs' hroom h1 h2
    refine ⟨p, ?_, hsp, hu, fun _ => hsize, fun h => by omega, fun _ => hit⟩
    unfold po_insert_at
    have hng : ¬ po.used + 1 > pm_size po := by unfold po_size at hroom; omega
    simp only [hnu, hng, if_false, hp]
  · have hfull : po.used = po_size po := by unfold po_size at hroom ⊢; omega
    obtain ⟨p1, hr, hsize1, hused1, hs1, hps1, hloc1, hit1⟩ :=
      po_grow_step po hs' hfull (hfit hfull)
    have hfit' := hfit hfull
    unfold po_grow_fits po_unit_size po_size at hfit'
    obtain ⟨b1, b2, _, _, b5⟩ := po_incr_size_bounds po hsz hfit'
    unfold PO_MIN_SIZE at hmin
    have hroom1 : p1.used < po_size p1 := by
      rw [hps1, hused1]; unfold po_size at hfull; omega
    obtain ⟨p, hp, hsize, hu, hsp, hit⟩ :=
      po_insert_if_room p1 pos item hs1 hroom1 (by rw [hused1]; exact h1)
        (by rw [hused1]; exact h2)
    refine ⟨p, ?_, hsp, by rw [hu, hused1], fun h => by omega, fun _ => ⟨?_, ?_⟩, fun h => ?_⟩
    · unfold po_insert_at
      have hgt : po.used + 1 > pm_size po := by unfold po_size at hfull; omega
      simp only [hnu, hgt, if_true, hr junk, hp]
    · have : po_size p = po_size p1 := by unfold po_size pm_size; rw [hsize]
      rw [this, hps1]
    · rw [po_get_local_eq] at hloc1 ⊢; rw [hsize]; exact hloc1
    · have hl0 : po_get_local po = 0 := by
        rcases h with h | h
        · omega
        · exact h
      rw [hit, hit1 hl0, hused1]

/-! ## Push sequences -/

theorem po_push_each_append (junk : Nat → Nat) (po : po_s) (xs ys : List Nat) :
    po_push_each junk po (xs ++ ys) =
      match po_push_each junk po xs with
      | .error e => .error e
      | .ok p => po_push_each junk p ys := by
  induction xs generalizing po with
  | nil => rfl
  | cons x xs ih =>
    simp only [List.cons_append, po_push_each]
    cases po_push junk po x with
    | error e => rfl
    | ok p => exact ih p

/-- A sequence of pushes on a container with storage: it succeeds with a
result that does not depend on what `realloc` leaves in fresh memory, `used`
grows by the number of items, the reservation never shrinks, and it does not
change at all while the items fit. -/
theorem po_push_each_spec (po : po_s) (items : List Nat) (hs : po_has_storage po)
    (hb : po_unit_size * (2 * (po.used + items.length) + 4096) < 18446744073709551616) :
    ∃ p, (∀ junk, po_push_each junk po items = .ok p) ∧ po_has_storage p ∧
      p.used = po.used + items.length ∧ po_size po ≤ po_size p ∧
      (po.used + items.length ≤ po_size po → p.size = po.size) := by
  induction items generalizing po with
  | nil => exact ⟨po, fun _ => rfl, hs, rfl, Nat.le_refl _, fun _ => rfl⟩
  | cons x xs ih =>
    unfold po_unit_size at hb
    simp only [List.length_cons] at hb
    have hfit : po.used = po_size po → po_grow_fits po := by
      intro h
      unfold po_grow_fits po_unit_size
      omega
    obtain ⟨p1, hp1, hs1, hu1, hroom1, hfull1, _⟩ := po_push_step po x hs hfit
    obtain ⟨p, hp, hsp, hu, hmono, hsame⟩ := ih p1 hs1 (by
      unfold po_unit_size; rw [hu1]; omega)
    have hstep : po_size po ≤ po_size p1 := by
      by_cases hr : po.used < po_size po
      · have := hroom1 hr
        unfold po_size pm_size; rw [this]
      · have hf : po.used = po_size po := by have := hs.2.2.2.1; omega
        rw [(hfull1 hf).1]
        have hfit' := hfit hf
        unfold po_grow_fits po_unit_size po_size at hfit'
        have := (po_incr_size_bounds po hs.1 hfit').1
        unfold po_size; omega
    refine ⟨p, fun junk => ?_, hsp, ?_, Nat.le_trans hstep hmono, fun h => ?_⟩
    · simp only [po_push_each, hp1 junk, hp junk]
    · rw [hu, hu1]; simp only [List.length_cons]; omega
    · simp only [List.length_cons] at h
      have h1 : p1.size = po.size := hroom1 (by omega)
      have h2 : po_size p1 = po_size po := by unfold po_size pm_size; rw [h1]
      rw [hsame (by rw [hu1, h2]; omega), h1]

theorem po_new_sized_eq (po : po_s) (s : Nat) (hs : s < 18446744073709551616) :
    po_new_sized po s =
      { size := po_legal_size s, used := 0,
        data := po_malloc (pm_unit2byte (po_legal_size s)) } := by
  obtain ⟨he, hlt⟩ := po_legal_size_even s hs
  unfold po_new_sized po_init
  simp only [po_set_size_and_local_zero po _ hlt he]

/-- The reservation example of the tests: from reservation 12, thirteen
pushes give reservation 24, and eleven more leave it at 24 with the container
full. -/
theorem po_push_each_example (junk : Nat → Nat) (po : po_s) (item : Nat) :
    ∃ p13 p24, po_push_each junk (po_new_sized po 12) (List.replicate 13 item) = .ok p13 ∧
      po_size p13 = 24 ∧ po_used p13 = 13 ∧
      po_push_each junk p13 (List.replicate 11 item) = .ok p24 ∧
      po_size p24 = 24 ∧ po_used p24 = po_size p24 := by
  have h0 : po_new_sized po 12 = ⟨12, 0, some (List.replicate 12 0)⟩ := by
    rw [po_new_sized_eq po 12 (by norm_num)]
    have e1 : po_legal_size 12 = 12 := by decide
    rw [e1]
    have e2 : po_malloc (pm_unit2byte 12) = some (List.replicate 12 0) := by decide
    rw [e2]
  have hs0 : po_has_storage ⟨12, 0, some (List.replicate 12 0)⟩ := by decide
  obtain ⟨p12, hp12, hs12, hu12, _, hsz12⟩ :=
    po_push_each_spec ⟨12, 0, some (List.replicate 12 0)⟩ (List.replicate 12 item) hs0
      (by simp only [List.length_replicate, po_unit_size]; norm_num)
  simp only [List.length_replicate] at hu12 hsz12
  have hsize12 : p12.size = 12 := hsz12 (by decide)
  have hps12 : po_size p12 = 12 := by unfold po_size pm_size; rw [hsize12]; decide
  have hinc12 : po_incr_size p12 = 24 := by
    unfold po_incr_size pm_size; rw [hsize12]; decide
  have hu12' : p12.used = 12 := by omega
  obtain ⟨p13, hp13, hs13, hu13, _, hfull13, _⟩ := po_push_step p12 item hs12 (by
    intro _; unfold po_grow_fits po_unit_size; rw [hps12]; norm_num)
  have hps13 : po_size p13 = 24 := by
    rw [(hfull13 (by rw [hu12', hps12])).1, hinc12]
  obtain ⟨p24, hp24, hs24, hu24, _, hsz24⟩ :=
    po_push_each_spec p13 (List.replicate 11 item) hs13
      (by simp only [List.length_replicate, po_unit_size]; rw [hu13, hu12']; norm_num)
  simp only [List.length_replicate] at hu24 hsz24
  have hps24 : po_size p24 = 24 := by
    have : p24.size = p13.size := hsz24 (by rw [hu13, hu12', hps13])
    unfold po_size pm_size at hps13 ⊢
    rw [this]; exact hps13
  refine ⟨p13, p24, ?_, hps13, by unfold po_used; omega, hp24 junk, hps24, ?_⟩
  · rw [h0, List.replicate_succ' 12 item, po_push_each_append, hp12 junk]
    simp only [po_push_each, hp13 junk]
  · unfold po_used; rw [hps24]; omega

/-! ## Elements seen through `po_load` -/

theorem po_items_length (po : po_s) (hs : po_has_storage po) :
    (po_items po).length = po.used := by
  obtain ⟨blk, hd, hlen⟩ := po_has_storage_block hs
  have := hs.2.2.2.1
  unfold po_items po_block
  simp only [hd, Option.getD_some, List.length_take]
  omega

theorem po_load_items (po : po_s) (hs : po_has_storage po) (i : Nat) (hi : i < po.used) :
    ∃ v, (po_items po)[i]? = some v ∧ po_load po.data i = .ok v := by
  obtain ⟨blk, hd, hlen⟩ := po_has_storage_block hs
  have := hs.2.2.2.1
  have hib : i < blk.length := by omega
  refine ⟨blk[i], ?_, ?_⟩
  · unfold po_items po_block
    simp only [hd, Option.getD_some]
    rw [List.getElem?_take, if_pos hi, List.getElem?_eq_getElem hib]
  · rw [hd, po_load_some _ _ hib]

/-! ## Claims C1 to C5 -/

/-- C1: evaluation at a borrowed (local) container created by `po_use` over a
buffer of two slots and filled with the items 11 and 22.  The third push makes
`po_get_local` report 0 and `po_nth 2` returns the new item 33, but `po_nth 0`
and `po_nth 1` return `NULL` instead of 11 and 22: the local branch of
`po_resize_to` takes a fresh zero-filled block and copies nothing. -/
theorem po_push_local_growth_drops_items (junk : Nat → Nat) :
    po_use ⟨0, 0, none⟩ [5, 5] 2 = .ok ⟨3, 0, some [0, 0]⟩ ∧
    po_push junk ⟨3, 0, some [0, 0]⟩ 11 = .ok ⟨3, 1, some [11, 0]⟩ ∧
    po_push junk ⟨3, 1, some [11, 0]⟩ 22 = .ok ⟨3, 2, some [11, 22]⟩ ∧
    po_get_local ⟨3, 2, some [11, 22]⟩ = 1 ∧
    po_nth ⟨3, 2, some [11, 22]⟩ 0 = .ok 11 ∧
    po_nth ⟨3, 2, some [11, 22]⟩ 1 = .ok 22 ∧
    po_push junk ⟨3, 2, some [11, 22]⟩ 33 = .ok ⟨4, 3, some [0, 0, 33, 0]⟩ ∧
    po_get_local ⟨4, 3, some [0, 0, 33, 0]⟩ = 0 ∧
    po_nth ⟨4, 3, some [0, 0, 33, 0]⟩ 0 = .ok NULL ∧
    po_nth ⟨4, 3, some [0, 0, 33, 0]⟩ 1 = .ok NULL ∧
    po_nth ⟨4, 3, some [0, 0, 33, 0]⟩ 2 = .ok 33 := by
  have push_eq : ∀ (po : po_s) (item : Nat) (r : po_s), po_has_storage po →
      (po.used = po_size po → po_grow_fits po) →
      po_push (fun _ => 0) po item = .ok r → po_push junk po item = .ok r := by
    intro po item r hs hfit h
    obtain ⟨p, hp, _⟩ := po_push_step po item hs hfit
    rw [hp junk]
    rw [hp (fun _ => 0)] at h
    exact h
  refine ⟨by decide, ?_, ?_, by decide, by decide, by decide, ?_, by decide, by decide,
    by decide, by decide⟩
  · exact push_eq _ _ _ (by decide) (by decide) (by decide)
  · exact push_eq _ _ _ (by decide) (by decide) (by decide)
  · exact push_eq _ _ _ (by decide) (by decide) (by decide)

/-- C2: for every heap-owned container with storage and every item,
`po_push` succeeds, increases `used` by exactly one, makes the element at
offset old-used equal to the item and leaves the elements at offsets
`[0, old-used)` unchanged; with `used < reservation` beforehand the reservation
and the local flag are unchanged as well.  (For a full container the byte size
of the grown block is taken to be representable, `po_grow_fits`.) -/
theorem po_push_spec (junk : Nat → Nat) (po : po_s) (item : Nat) (hs : po_has_storage po)
    (hl : po_get_local po = 0) (hfit : po_used po = po_size po → po_grow_fits po) :
    ∃ p, po_push junk po item = .ok p ∧ po_used p = po_used po + 1 ∧
      po_load p.data (po_used po) = .ok item ∧
      (∀ i, i < po_used po → po_load p.data i = po_load po.data i) ∧
      (po_used po < po_size po →
        po_size p = po_size po ∧ po_get_local p = po_get_local po) := by
  unfold po_used at *
  obtain ⟨p, hp, hsp, hu, hroom, _, hit⟩ := po_push_step po item hs hfit
  have hit' := hit (Or.inr hl)
  have hlen := po_items_length po hs
  refine ⟨p, hp junk, hu, ?_, fun i hi => ?_, fun h => ?_⟩
  · obtain ⟨v, hv1, hv2⟩ := po_load_items p hsp po.used (by omega)
    rw [hit', List.getElem?_append_right (by omega), hlen] at hv1
    simp only [Nat.sub_self, List.getElem?_cons_zero, Option.some.injEq] at hv1
    rw [hv2, hv1]
  · obtain ⟨v, hv1, hv2⟩ := po_load_items p hsp i (by omega)
    obtain ⟨w, hw1, hw2⟩ := po_load_items po hs i hi
    rw [hit', List.getElem?_append_left (by omega), hw1] at hv1
    rw [hv2, hw2, Option.some.inj hv1]
  · have := hroom h
    refine ⟨?_, ?_⟩
    · unfold po_size pm_size; rw [this]
    · rw [po_get_local_eq, po_get_local_eq, this]

/-- Witness for C2: a full heap-owned container of two slots. -/
theorem po_push_spec_witness :
    po_has_storage ⟨2, 2, some [5, 6]⟩ ∧ po_get_local ⟨2, 2, some [5, 6]⟩ = 0 ∧
    (po_used ⟨2, 2, some [5, 6]⟩ = po_size ⟨2, 2, some [5, 6]⟩ →
      po_grow_fits ⟨2, 2, some [5, 6]⟩) ∧
    ∃ p, po_push (fun _ => 9) ⟨2, 2, some [5, 6]⟩ 7 = .ok p ∧
      po_used p = po_used ⟨2, 2, some [5, 6]⟩ + 1 ∧
      po_load p.data (po_used ⟨2, 2, some [5, 6]⟩) = .ok 7 ∧
      (∀ i, i < po_used ⟨2, 2, some [5, 6]⟩ →
        po_load p.data i = po_load (po_s.data ⟨2, 2, some [5, 6]⟩) i) ∧
      (po_used ⟨2, 2, some [5, 6]⟩ < po_size ⟨2, 2, some [5, 6]⟩ →
        po_size p = po_size ⟨2, 2, some [5, 6]⟩ ∧
          po_get_local p = po_get_local ⟨2, 2, some [5, 6]⟩) :=
  ⟨by decide, by decide, by decide,
    po_push_spec (fun _ => 9) ⟨2, 2, some [5, 6]⟩ 7 (by decide) (by decide) (by decide)⟩
/-- C3: evaluation of the page-alignment step at the exact multiple 8192 of
4096, inside the claimed range: `po_align_size` returns 12288, which is neither
8192 itself nor the least multiple of 4096 that is at least 8192; only 4096
itself is kept, and sizes below 4096 are unchanged. -/
theorem po_align_size_moves_exact_multiple :
    4096 ≤ 8192 ∧ 8192 + 4096 < 18446744073709551616 ∧ 8192 % 4096 = 0 ∧
      po_align_size 8192 = 12288 ∧ po_align_size 8192 ≠ 8192 ∧
      po_align_size 12288 = 16384 ∧ po_align_size 4096 = 4096 ∧
      po_align_size 4095 = 4095 := by
  decide

/-- C4, as stated, fails: the odd request `2 ^ 64 - 4097` satisfies
`s + 4096 < 2 ^ 64`, yet rounding it up to even and then to the next page wraps
around and `po_legal_size` returns 0, which is below `PO_MIN_SIZE` and below
the request. -/
theorem po_legal_size_wraps :
    18446744073709547519 + 4096 < 18446744073709551616 ∧
      po_legal_size 18446744073709547519 = 0 ∧
      ¬ (PO_MIN_SIZE ≤ po_legal_size 18446744073709547519) ∧
      ¬ (18446744073709547519 ≤ po_legal_size 18446744073709547519) := by
  decide

/-- C4, amended: for every requested size `s` with `s + 4097 < 2 ^ 64`,
`po_legal_size s` is even, at least `PO_MIN_SIZE`, at least `s`, and a multiple
of 4096 whenever it is at least 4096; and `po_new_sized` reports
`po_size = po_legal_size s` with `used = 0` and the local flag clear (0 gives 2,
12 gives 12, the default gives 16). -/
theorem po_legal_size_spec (po : po_s) (s : Nat) (hb : s + 4097 < 18446744073709551616) :
    (po_legal_size s % 2 = 0 ∧ PO_MIN_SIZE ≤ po_legal_size s ∧ s ≤ po_legal_size s ∧
      (4096 ≤ po_legal_size s → po_legal_size s % 4096 = 0)) ∧
    (po_size (po_new_sized po s) = po_legal_size s ∧ po_used (po_new_sized po s) = 0 ∧
      po_get_local (po_new_sized po s) = 0) ∧
    (po_size (po_new_sized po 0) = 2 ∧ po_size (po_new_sized po 12) = 12 ∧
      po_size (po_new po) = 16) := by
  have key : ∀ t : Nat, t < 18446744073709551616 →
      po_size (po_new_sized po t) = po_legal_size t ∧ po_used (po_new_sized po t) = 0 ∧
        po_get_local (po_new_sized po t) = 0 := by
    intro t ht
    obtain ⟨he, hlt⟩ := po_legal_size_even t ht
    rw [po_new_sized_eq po t ht]
    refine ⟨?_, rfl, ?_⟩
    · exact po_size_of_even _ hlt he
    · rw [po_get_local_eq]; simp only [he]; rfl
  obtain ⟨h1, h2, h3, h4, _⟩ := po_legal_size_bounds s hb
  refine ⟨⟨h1, h2, h3, h4⟩, key s (by omega), ?_, ?_, ?_⟩
  · rw [(key 0 (by norm_num)).1]; decide
  · rw [(key 12 (by norm_num)).1]; decide
  · unfold po_new PO_DEFAULT_SIZE; rw [(key 16 (by norm_num)).1]; decide

/-- Witness for C4 (amended) at the request 4097 on an empty
descriptor. -/
theorem po_legal_size_spec_witness :
    4097 + 4097 < 18446744073709551616 ∧
    (po_legal_size 4097 % 2 = 0 ∧ PO_MIN_SIZE ≤ po_legal_size 4097 ∧
      4097 ≤ po_legal_size 4097 ∧
      (4096 ≤ po_legal_size 4097 → po_legal_size 4097 % 4096 = 0)) ∧
    (po_size (po_new_sized ⟨0, 0, none⟩ 4097) = po_legal_size 4097 ∧
      po_used (po_new_sized ⟨0, 0, none⟩ 4097) = 0 ∧
      po_get_local (po_new_sized ⟨0, 0, none⟩ 4097) = 0) ∧
    (po_size (po_new_sized ⟨0, 0, none⟩ 0) = 2 ∧
      po_size (po_new_sized ⟨0, 0, none⟩ 12) = 12 ∧
      po_size (po_new ⟨0, 0, none⟩) = 16) :=
  ⟨by decide, po_legal_size_spec ⟨0, 0, none⟩ 4097 (by decide)⟩

/-- C5: for a full heap-owned container of reservation `r` (the grown block
addressable), `po_push` and `po_insert_at` at a valid position set the
reservation to `2r` when `2r < 4096` and to a multiple of 4096 that is at least
`2r` otherwise; for a container that is not full they leave the reservation
unchanged; a sequence of pushes succeeds and never reduces the reservation; and
from reservation 12 the 13th push gives 24 and 24 pushes in total leave it at
24 with `used == reservation`. -/
theorem po_reservation_growth (junk : Nat → Nat) (po : po_s) (pos : Int) (item : Nat)
    (items : List Nat) (hs : po_has_storage po)
    (h1 : -(po_used po : Int) ≤ pos) (h2 : pos ≤ po_used po) :
    (po_used po = po_size po → po_get_local po = 0 → po_grow_fits po →
      ∃ p q, po_push junk po item = .ok p ∧ po_insert_at junk po pos item = .ok q ∧
        (2 * po_size po < 4096 →
          po_size p = 2 * po_size po ∧ po_size q = 2 * po_size po) ∧
        (4096 ≤ 2 * po_size po →
          (po_size p % 4096 = 0 ∧ 2 * po_size po ≤ po_size p) ∧
          (po_size q % 4096 = 0 ∧ 2 * po_size po ≤ po_size q))) ∧
    (po_used po < po_size po →
      ∃ p q, po_push junk po item = .ok p ∧ po_insert_at junk po pos item = .ok q ∧
        po_size p = po_size po ∧ po_size q = po_size po) ∧
    (po_unit_size * (2 * (po_used po + items.length) + 4096) < 18446744073709551616 →
      ∃ p, po_push_each junk po items = .ok p ∧ po_size po ≤ po_size p) ∧
    (∃ p13 p24, po_push_each junk (po_new_sized po 12) (List.replicate 13 item) = .ok p13 ∧
      po_size p13 = 24 ∧ po_used p13 = 13 ∧
      po_push_each junk p13 (List.replicate 11 item) = .ok p24 ∧
      po_size p24 = 24 ∧ po_used p24 = po_size p24) := by
  unfold po_used at h1 h2
  refine ⟨fun hfull _ hfit => ?_, fun hroom => ?_, fun hb => ?_,
    po_push_each_example junk po item⟩
  · unfold po_used at hfull
    obtain ⟨p, hp, _, _, _, hpf, _⟩ := po_push_step po item hs (fun _ => hfit)
    obtain ⟨q, hq, _, _, _, hqf, _⟩ :=
      po_insert_at_step junk po pos item hs (fun _ => hfit) h1 h2
    have hfit' := hfit
    unfold po_grow_fits po_unit_size po_size at hfit'
    obtain ⟨b1, _, b3, b4, _⟩ := po_incr_size_bounds po hs.1 hfit'
    rw [← po_size] at b1 b3 b4
    refine ⟨p, q, hp junk, hq, fun h => ?_, fun h => ?_⟩
    · rw [(hpf hfull).1, (hqf hfull).1]; exact ⟨b3 h, b3 h⟩
    · rw [(hpf hfull).1, (hqf hfull).1]; exact ⟨⟨b4 h, b1⟩, ⟨b4 h, b1⟩⟩
  · unfold po_used at hroom
    have hnf : po.used = po_size po → po_grow_fits po := fun h => by omega
    obtain ⟨p, hp, _, _, hpr, _, _⟩ := po_push_step po item hs hnf
    obtain ⟨q, hq, _, _, hqr, _, _⟩ := po_insert_at_step junk po pos item hs hnf h1 h2
    refine ⟨p, q, hp junk, hq, ?_, ?_⟩
    · unfold po_size pm_size; rw [hpr hroom]
    · unfold po_size pm_size; rw [hqr hroom]
  · unfold po_used at hb
    obtain ⟨p, hp, _, _, hmono, _⟩ := po_push_each_spec po items hs hb
    exact ⟨p, hp junk, hmono⟩

/-- Witness for C5: a full heap-owned container of two
slots, insertion at the front, three further pushes. -/
theorem po_reservation_growth_witness :
    po_has_storage ⟨2, 2, some [5, 6]⟩ ∧ -(po_used ⟨2, 2, some [5, 6]⟩ : Int) ≤ 0 ∧
    (0 : Int) ≤ po_used ⟨2, 2, some [5, 6]⟩ ∧
    po_used ⟨2, 2, some [5, 6]⟩ = po_size ⟨2, 2, some [5, 6]⟩ ∧
    po_get_local ⟨2, 2, some [5, 6]⟩ = 0 ∧ po_grow_fits ⟨2, 2, some [5, 6]⟩ ∧
    ∃ p q, po_push (fun _ => 9) ⟨2, 2, some [5, 6]⟩ 7 = .ok p ∧
      po_insert_at (fun _ => 9) ⟨2, 2, some [5, 6]⟩ 0 7 = .ok q ∧
      (2 * po_size ⟨2, 2, some [5, 6]⟩ < 4096 →
        po_size p = 2 * po_size ⟨2, 2, some [5, 6]⟩ ∧
          po_size q = 2 * po_size ⟨2, 2, some [5, 6]⟩) ∧
      (4096 ≤ 2 * po_size ⟨2, 2, some [5, 6]⟩ →
        (po_size p % 4096 = 0 ∧ 2 * po_size ⟨2, 2, some [5, 6]⟩ ≤ po_size p) ∧
        (po_size q % 4096 = 0 ∧ 2 * po_size ⟨2, 2, some [5, 6]⟩ ≤ po_size q)) :=
  ⟨by decide, by decide, by decide, by decide, by decide, by decide,
    (po_reservation_growth (fun _ => 9) ⟨2, 2, some [5, 6]⟩ 0 7 [1, 2, 3] (by decide)
      (by decide) (by decide)).1 (by decide) (by decide) (by decide)⟩
/-! ## Claims C6 to C10 -/

/-- C6: for a descriptor with `used = u > 0` (at most `2 ^ 63`, the range of
`po_pos_t`) and an `int64_t` index `i`: when `-u <= i < u`, `po_norm_idx` returns `i` for
`i >= 0` and `u + i` for `i < 0`, the result is below `u` and no assertion
fires, so that `po_nth` reads the slot at that offset; when `i >= u` or
`i < -u` the assertion fires.  For `u = 4`: -1 gives 3, -4 gives 0, 3 gives 3. -/
theorem po_norm_idx_spec (po : po_s) (i : Int) (hu : 0 < po_used po) (hfit : po_used_fits po)
    (hi : po_pos_ok i) :
    ((-(po_used po : Int) ≤ i ∧ i < po_used po) →
      po_norm_idx po i =
          .ok (if 0 ≤ i then i.toNat else ((po_used po : Int) + i).toNat) ∧
        (if 0 ≤ i then i.toNat else ((po_used po : Int) + i).toNat) < po_used po ∧
        po_nth po i =
          po_load po.data (if 0 ≤ i then i.toNat else ((po_used po : Int) + i).toNat)) ∧
    (((po_used po : Int) ≤ i ∨ i < -(po_used po : Int)) →
      po_norm_idx po i = .error .assertion) ∧
    (po_norm_idx { po with used := 4 } (-1) = .ok 3 ∧
      po_norm_idx { po with used := 4 } (-4) = .ok 0 ∧
      po_norm_idx { po with used := 4 } 3 = .ok 3) := by
  unfold po_used_fits at hfit
  unfold po_used at *
  refine ⟨?_, ?_, ?_⟩
  · rintro ⟨h1, h2⟩
    obtain ⟨e, l⟩ := po_norm_idx_in_range po i hfit h1 h2
    unfold normalize at e l
    refine ⟨e, l, ?_⟩
    unfold po_nth
    simp only [hu, gt_iff_lt, if_true, e]
  · exact po_norm_idx_out_of_range po i hfit hi
  · refine ⟨?_, ?_, ?_⟩ <;> (simp only [po_norm_idx]; decide)

/-- Witness for C6: four elements, index -2. -/
theorem po_norm_idx_spec_witness :
    0 < po_used ⟨16, 4, none⟩ ∧ po_used_fits ⟨16, 4, none⟩ ∧ po_pos_ok (-2) ∧
    (-(po_used ⟨16, 4, none⟩ : Int) ≤ -2 ∧ (-2 : Int) < po_used ⟨16, 4, none⟩) ∧
    po_norm_idx ⟨16, 4, none⟩ (-2) = .ok 2 :=
  ⟨by decide, by decide, by decide, by decide,
    ((po_norm_idx_spec ⟨16, 4, none⟩ (-2) (by decide) (by decide) (by decide)).1
      (by decide)).1⟩

/-- C7, as stated, fails for a negative position: in the container holding
the single element 11 with reservation 2, `po_insert_if` at -1 puts 44 before
11, and `po_delete_at` at -1 then removes and returns 11, leaving 44. -/
theorem po_insert_delete_negative_position :
    po_has_storage ⟨2, 1, some [11, 0]⟩ ∧
    po_used ⟨2, 1, some [11, 0]⟩ < po_size ⟨2, 1, some [11, 0]⟩ ∧
    -(po_used ⟨2, 1, some [11, 0]⟩ : Int) ≤ -1 ∧ (-1 : Int) ≤ po_used ⟨2, 1, some [11, 0]⟩ ∧
    po_items ⟨2, 1, some [11, 0]⟩ = [11] ∧
    po_insert_if ⟨2, 1, some [11, 0]⟩ (-1) 44 = .ok (1, ⟨2, 2, some [44, 11]⟩) ∧
    po_delete_at ⟨2, 2, some [44, 11]⟩ (-1) = .ok (11, ⟨2, 1, some [44, 11]⟩) ∧
    po_items ⟨2, 1, some [44, 11]⟩ = [44] := by
  decide

/-- C7, amended: for every container with room that holds at least one
element, every item and every position `p` with `0 <= p <= used`,
`po_insert_if` at `p` followed by `po_delete_at` at `p` returns the item,
restores the prior `used` and leaves the element sequence exactly as it was
before the insert. -/
theorem po_insert_delete_roundtrip (po : po_s) (p : Int) (item : Nat)
    (hs : po_has_storage po) (hroom : po_used po < po_size po) (hu : 1 ≤ po_used po)
    (h0 : 0 ≤ p) (h1 : p ≤ po_used po) :
    ∃ p1 p2, po_insert_if po p item = .ok (1, p1) ∧ po_delete_at p1 p = .ok (item, p2) ∧
      po_used p2 = po_used po ∧ po_items p2 = po_items po := by
  unfold po_used at *
  obtain ⟨p1, hp1, _, hu1, hs1, hit1⟩ := po_insert_if_room po p item hs hroom (by omega) h1
  obtain ⟨ret, p2, hp2, hret, _, hu2, _, hit2⟩ :=
    po_delete_at_many p1 p hs1 (by omega) (by omega) (by omega)
  have hlen := po_items_length po hs
  have hn : normalize p1.used p = normalize po.used p := by
    unfold normalize; simp only [h0, if_true]
  have hnle : normalize po.used p ≤ po.used := by
    unfold normalize; simp only [h0, if_true]; omega
  obtain ⟨l1, l2⟩ := list_insert_delete (po_items po) (normalize po.used p) item (by omega)
  rw [hn] at hret hit2
  rw [hit1, l1] at hret
  rw [hit1, l2] at hit2
  exact ⟨p1, p2, hp1, by rw [hp2, Option.some.inj hret], by rw [hu2, hu1]; omega, hit2⟩

/-- Witness for C7 (amended): two elements, reservation 4,
insertion in the middle. -/
theorem po_insert_delete_roundtrip_witness :
    po_has_storage ⟨4, 2, some [11, 22, 0, 0]⟩ ∧
    po_used ⟨4, 2, some [11, 22, 0, 0]⟩ < po_size ⟨4, 2, some [11, 22, 0, 0]⟩ ∧
    1 ≤ po_used ⟨4, 2, some [11, 22, 0, 0]⟩ ∧ (0 : Int) ≤ 1 ∧
    (1 : Int) ≤ po_used ⟨4, 2, some [11, 22, 0, 0]⟩ ∧
    ∃ p1 p2, po_insert_if ⟨4, 2, some [11, 22, 0, 0]⟩ 1 44 = .ok (1, p1) ∧
      po_delete_at p1 1 = .ok (44, p2) ∧
      po_used p2 = po_used ⟨4, 2, some [11, 22, 0, 0]⟩ ∧
      po_items p2 = po_items ⟨4, 2, some [11, 22, 0, 0]⟩ :=
  ⟨by decide, by decide, by decide, by decide, by decide,
    po_insert_delete_roundtrip ⟨4, 2, some [11, 22, 0, 0]⟩ 1 44 (by decide) (by decide)
      (by decide) (by decide) (by decide)⟩
/-- C8: evaluation at a borrowed (local) container of reservation 2 that is
full.  `po_alloc_bytes` compares against the raw size word, whose flag bit is
set, so a request of one byte (one unit) returns a non-null pointer, to the
slot at offset 2 past the buffer, although `reservation - used` is 0, and it
leaves `used = 3` above the reservation; likewise a fresh local container of
two slots grants a request of 24 bytes (three units).  On the heap-owned
container with the same contents the request is rejected. -/
theorem po_alloc_bytes_local_overrun :
    po_use ⟨0, 0, none⟩ [5, 5] 2 = .ok ⟨3, 0, some [0, 0]⟩ ∧
    po_alloc_bytes ⟨3, 0, some [0, 0]⟩ 24 = (some 0, ⟨3, 3, some [0, 0]⟩) ∧
    po_has_storage ⟨3, 2, some [11, 22]⟩ ∧ po_get_local ⟨3, 2, some [11, 22]⟩ = 1 ∧
    po_size ⟨3, 2, some [11, 22]⟩ = 2 ∧ po_used ⟨3, 2, some [11, 22]⟩ = 2 ∧
    po_alloc_bytes ⟨3, 2, some [11, 22]⟩ 1 = (some 2, ⟨3, 3, some [11, 22]⟩) ∧
    ¬ (po_used ⟨3, 3, some [11, 22]⟩ ≤ po_size ⟨3, 3, some [11, 22]⟩) ∧
    po_get_local ⟨2, 2, some [11, 22]⟩ = 0 ∧
    po_alloc_bytes ⟨2, 2, some [11, 22]⟩ 1 = (none, ⟨2, 2, some [11, 22]⟩) := by
  decide

/-- C9, as stated, fails: `po_destroy_storage` does not touch `used`.  After
one push into a fresh container of reservation 2 and `po_destroy_storage`, the
data handle is null and the reservation is 0, but `used` is still 1. -/
theorem po_destroy_storage_keeps_used :
    po_push (fun _ => 0) (po_new_sized ⟨0, 0, none⟩ 2) 7 = .ok ⟨2, 1, some [7, 0]⟩ ∧
    (po_destroy_storage ⟨2, 1, some [7, 0]⟩).data = none ∧
    po_size (po_destroy_storage ⟨2, 1, some [7, 0]⟩) = 0 ∧
    po_used (po_destroy_storage ⟨2, 1, some [7, 0]⟩) = 1 ∧
    ¬ (po_used (po_destroy_storage ⟨2, 1, some [7, 0]⟩) = 0) := by
  decide

/-- C9, amended: for every descriptor in any state, after
`po_destroy_storage` the data handle is null and the reservation is 0, while
`used` and the local flag are what they were before; so `used` is 0 afterwards
exactly when it was 0 before. -/
theorem po_destroy_storage_spec (po : po_s) :
    (po_destroy_storage po).data = none ∧ po_size (po_destroy_storage po) = 0 ∧
      po_used (po_destroy_storage po) = po_used po ∧
      po_get_local (po_destroy_storage po) = po_get_local po ∧
      (po_used (po_destroy_storage po) = 0 ↔ po_used po = 0) := by
  have hl : po_get_local { po with data := none } = ((po.size % 2 : Nat) : Int) :=
    po_get_local_eq _
  rw [po_get_local_eq po]
  unfold po_destroy_storage po_set_size po_set_local
  rw [hl]
  have h01 : po.size % 2 = 0 ∨ po.size % 2 = 1 := by omega
  rcases h01 with h | h
  · rw [h]
    simp only [Nat.cast_zero, ne_eq, not_true_eq_false, if_false]
    unfold po_size pm_size po_get_local po_local po_used
    dsimp only
    exact ⟨trivial, by decide, rfl, by decide, Iff.rfl⟩
  · rw [h]
    simp only [Nat.cast_one, ne_eq, one_ne_zero, not_false_eq_true, if_true]
    unfold po_size pm_size po_get_local po_local po_used
    dsimp only
    exact ⟨trivial, by decide, rfl, by decide, Iff.rfl⟩

/-- C10: evaluation at a borrowed (local) container of reservation 2 holding
the element 11.  `po_resize` to 4 sets the reservation to 4, keeps `used = 1`
and clears the local flag, but the element at offset 0 becomes `NULL`: the
local branch of `po_resize_to` copies nothing (the same defect as in C1),
while the heap-owned container with the same contents keeps its element. -/
theorem po_resize_local_drops_items (junk : Nat → Nat) :
    po_has_storage ⟨3, 1, some [11, 0]⟩ ∧ po_get_local ⟨3, 1, some [11, 0]⟩ = 1 ∧
    po_legal_size 4 = 4 ∧ po_nth ⟨3, 1, some [11, 0]⟩ 0 = .ok 11 ∧
    po_resize junk ⟨3, 1, some [11, 0]⟩ 4 = .ok ⟨4, 1, some [0, 0, 0, 0]⟩ ∧
    po_size ⟨4, 1, some [0, 0, 0, 0]⟩ = 4 ∧ po_get_local ⟨4, 1, some [0, 0, 0, 0]⟩ = 0 ∧
    po_nth ⟨4, 1, some [0, 0, 0, 0]⟩ 0 = .ok NULL ∧
    po_resize junk ⟨2, 1, some [11, 0]⟩ 4 = .ok ⟨4, 1, some [11, 0, 0, 0]⟩ ∧
    po_nth ⟨4, 1, some [11, 0, 0, 0]⟩ 0 = .ok 11 := by
  have e : po_legal_size 4 = 4 := by decide
  refine ⟨by decide, by decide, e, by decide, ?_, by decide, by decide, by decide, ?_,
    by decide⟩
  · unfold po_resize
    simp only [e]
    rw [if_pos (by decide),
      po_resize_to_local junk _ 4 (by decide) (by decide) (by decide)]
    rfl
  · unfold po_resize
    simp only [e]
    rw [if_pos (by decide),
      po_resize_to_heap_grow junk _ 4 [11, 0] rfl (by decide) (by decide) (by decide)
        (by decide) (by decide)]
    have : pm_size ⟨2, 1, some [11, 0]⟩ = 2 := by decide
    rw [this]
    rfl

/-! ## Insert flag lemma -/

/-- An insertion that is let through never reports 0: the only results of
`po_insert_if` past the room test are a fault or the flag 1. -/
theorem po_insert_if_flag (po : po_s) (pos : Int) (item : Nat) (p : po_s)
    (hroom : ¬ (po.used + 1) % 18446744073709551616 > pm_size po) :
    po_insert_if po pos item ≠ .ok (0, p) := by
  unfold po_insert_if
  simp only [hroom, if_false]
  intro h
  split at h
  · exact Except.noConfusion h
  · split at h
    · exact Except.noConfusion h
    · split at h
      · exact Except.noConfusion h
      · have := (Prod.mk.inj (Except.ok.inj h)).1
        exact absurd this (by decide)

/-! ## Duplicate lemmas -/

theorem po_legal_size_of_even (s : Nat) (he : s % 2 = 0) (h2 : 2 ≤ s) :
    po_legal_size s = po_align_size s := by
  unfold po_legal_size PO_MIN_SIZE
  rw [po_snor_eq]
  have h1 : ¬ s % 2 = 1 := by omega
  have h3 : ¬ s < 2 := by omega
  simp only [h1, h3, if_false]

/-- The duplicate of a container with storage: a block of
`po_legal_size (po_size po)` slots that starts with the used region of the
source and is zero beyond it. -/
theorem po_duplicate_ok (po : po_s) (hs : po_has_storage po) (hfit : po_page_fits po) :
    ∃ dblk, po_duplicate po =
        .ok { size := po_legal_size (po_size po), used := po.used, data := some dblk } ∧
      dblk.length = po_legal_size (po_size po) ∧
      dblk.take po.used = (po_block po).take po.used ∧
      po_legal_size (po_size po) = po_align_size (po_size po) ∧
      po_legal_size (po_size po) % 2 = 0 ∧ po_size po ≤ po_legal_size (po_size po) ∧
      8 * po_legal_size (po_size po) < 18446744073709551616 := by
  obtain ⟨blk, hd, hlen⟩ := po_has_storage_block hs
  have hev := po_size_even po hs.1
  obtain ⟨hsz, _, hbyte, hused, hmin⟩ := hs
  unfold po_page_fits po_unit_size at hfit
  unfold po_unit_size at hbyte
  unfold PO_MIN_SIZE at hmin
  have hL := po_legal_size_of_even (po_size po) hev hmin
  obtain ⟨a1, a2, _, _, a5⟩ := po_align_size_bounds (po_size po) (by omega)
  rw [← hL] at a1 a2 a5
  have a5' := a5 hev
  have hmal : po_malloc (pm_unit2byte (po_legal_size (po_size po)))
      = some (List.replicate (po_legal_size (po_size po)) 0) := by
    unfold po_malloc pm_unit2byte po_unit_size
    rw [Nat.shiftLeft_eq]
    have : po_legal_size (po_size po) * 2 ^ 3 % 18446744073709551616 / 8
        = po_legal_size (po_size po) := by omega
    rw [this]
  have hbytes : po_used_size po / po_unit_size = po.used := by
    unfold po_used_size po_unit_size; omega
  refine ⟨blk.take po.used ++ (List.replicate (po_legal_size (po_size po)) 0).drop po.used,
    ?_, ?_, ?_, hL, a5', a1, by omega⟩
  · unfold po_duplicate
    have hpm : pm_size po = po_size po := rfl
    rw [po_new_sized_eq _ _ (by rw [hpm]; omega)]
    simp only [hpm, hmal, hd]
    unfold po_memcpy
    simp only [hbytes, List.length_replicate]
    rw [if_pos ⟨by omega, by omega⟩]
  · simp only [List.length_append, List.length_take, List.length_drop, List.length_replicate]
    omega
  · unfold po_block
    simp only [hd, Option.getD_some]
    rw [List.take_append_of_le_length (by rw [List.length_take]; omega), List.take_take,
      Nat.min_self]

/-! ## Allocator lemmas -/

/-- When the allocator meets the request, `po_resize_to` with an allocator that
may refuse is `po_resize_to`. -/
theorem po_resize_to_fallible_met (al : po_allocator) (po : po_s) (new_size : Nat)
    (h : al.meets (pm_unit2byte new_size) = true) :
    po_resize_to_fallible al po new_size = po_resize_to al.junk po new_size := by
  unfold po_resize_to_fallible po_resize_to po_malloc_fallible po_realloc_fallible
  simp only [h, if_true]

theorem po_resize_fallible_met (al : po_allocator) (po : po_s) (new_size : Nat)
    (h : po.used ≤ po_legal_size new_size →
      al.meets (pm_unit2byte (po_legal_size new_size)) = true) :
    po_resize_fallible al po new_size = po_resize al.junk po new_size := by
  unfold po_resize_fallible po_resize
  by_cases hge : po_legal_size new_size ≥ po.used
  · simp only [hge, if_true]
    exact po_resize_to_fallible_met al po _ (h hge)
  · simp only [hge, if_false]

theorem po_push_fallible_met (al : po_allocator) (po : po_s) (item : Nat)
    (h : (po.used + 1) % 18446744073709551616 > pm_size po →
      al.meets (pm_unit2byte (po_incr_size po)) = true) :
    po_push_fallible al po item = po_push al.junk po item := by
  unfold po_push_fallible po_push
  by_cases hg : (po.used + 1) % 18446744073709551616 > pm_size po
  · simp only [hg, if_true, po_resize_to_fallible_met al po _ (h hg)]
  · simp only [hg, if_false]

theorem po_insert_at_fallible_met (al : po_allocator) (po : po_s) (pos : Int) (item : Nat)
    (h : (po.used + 1) % 18446744073709551616 > pm_size po →
      al.meets (pm_unit2byte (po_incr_size po)) = true) :
    po_insert_at_fallible al po pos item = po_insert_at al.junk po pos item := by
  unfold po_insert_at_fallible po_insert_at
  by_cases hg : (po.used + 1) % 18446744073709551616 > pm_size po
  · simp only [hg, if_true, po_resize_to_fallible_met al po _ (h hg)]
  · simp only [hg, if_false]

/-- In a container with storage the growth test of `po_push` and `po_insert_at`
fires exactly when the container is full. -/
theorem po_growth_test (po : po_s) (hs : po_has_storage po) :
    (po.used + 1) % 18446744073709551616 > pm_size po ↔ po.used = po_size po := by
  obtain ⟨hsz, _, hbyte, hused, _⟩ := hs
  unfold po_unit_size at hbyte
  unfold po_size at *
  have hnu : (po.used + 1) % 18446744073709551616 = po.used + 1 := by omega
  rw [hnu]
  omega

/-- Growth by `po_resize` of a container with storage: a heap-owned container
keeps every slot below the old reservation, a local one gets a block of `NULL`
slots. -/
theorem po_resize_grow_kept (junk : Nat → Nat) (po p : po_s) (new_size : Nat)
    (hs : po_has_storage po) (hb : 8 * (new_size + 4097) < 18446744073709551616)
    (hlt : po_size po < po_legal_size new_size)
    (hp : po_resize junk po new_size = .ok p) :
    (po_local po = 0 → ∀ i, i < po_size po → po_load p.data i = po_load po.data i) ∧
    (po_local po ≠ 0 → ∀ i, i < po_legal_size new_size → po_load p.data i = .ok NULL) := by
  obtain ⟨blk, hd, hlen⟩ := po_has_storage_block hs
  obtain ⟨hsz, _, hbyte, hused, hmin⟩ := hs
  unfold po_unit_size at hbyte
  unfold PO_MIN_SIZE at hmin
  unfold po_size at hlen hbyte hused hmin hlt
  obtain ⟨lev, lmin, lge, _, lle⟩ := po_legal_size_bounds new_size (by omega)
  have hpm : po_size po = pm_size po := rfl
  rw [hpm]
  generalize hL : po_legal_size new_size = L at hlt lev lmin lge lle
  have hres : po_resize junk po new_size = po_resize_to junk po L := by
    unfold po_resize
    have hge : L ≥ po.used := by omega
    simp only [hL, hge, ge_iff_le, if_true]
  rw [hres] at hp
  refine ⟨fun hloc i hi => ?_, fun hloc i hi => ?_⟩
  · rw [po_resize_to_heap_grow junk po L blk hd hlen hloc hlt (by omega) lev] at hp
    rw [← Except.ok.inj hp, hd]
    exact po_load_append_left _ _ _ (by omega)
  · rw [po_resize_to_local junk po L hloc (by omega) lev] at hp
    rw [← Except.ok.inj hp]
    rw [po_load_some _ _ (by simp only [List.length_replicate]; omega)]
    simp

/-! ## Memory lemmas -/

theorem po_mem_get_some (m : po_mem) (a : Nat) (blk : List Nat)
    (h : po_mem_get m a = some blk) : a ≠ 0 ∧ a - 1 < m.blocks.length := by
  unfold po_mem_get at h
  by_cases h0 : a = 0
  · simp only [h0, if_true] at h
    exact Option.noConfusion h
  · simp only [h0, if_false] at h
    refine ⟨h0, ?_⟩
    by_contra hl
    rw [List.getD_eq_default _ _ (by omega)] at h
    exact Option.noConfusion h

theorem po_mem_get_set_ne (m : po_mem) (a b : Nat) (v : Option (List Nat)) (h : a ≠ b) :
    po_mem_get (po_mem_set m b v) a = po_mem_get m a := by
  unfold po_mem_get po_mem_set
  by_cases hb : b = 0
  · simp only [hb, if_true]
  · by_cases ha : a = 0
    · simp only [ha, if_true]
    · simp only [hb, ha, if_false]
      rw [List.getD_eq_getElem?_getD, List.getD_eq_getElem?_getD,
        List.getElem?_set_ne (by omega)]

theorem po_mem_get_set_self (m : po_mem) (a : Nat) (v : Option (List Nat)) (h0 : a ≠ 0)
    (hl : a - 1 < m.blocks.length) : po_mem_get (po_mem_set m a v) a = v := by
  unfold po_mem_get po_mem_set
  simp only [h0, if_false]
  rw [List.getD_eq_getElem?_getD, List.getElem?_set_eq_of_lt _ hl]
  rfl

theorem po_mem_set_length (m : po_mem) (a : Nat) (v : Option (List Nat)) :
    (po_mem_set m a v).blocks.length = m.blocks.length := by
  unfold po_mem_set
  split
  · rfl
  · simp only [List.length_set]

theorem po_mem_get_append (bs : List (Option (List Nat))) (x : Option (List Nat)) (a : Nat)
    (hl : a - 1 < bs.length) :
    po_mem_get { blocks := bs ++ [x] } a = po_mem_get { blocks := bs } a := by
  unfold po_mem_get
  split
  · rfl
  · simp only []
    rw [List.getD_eq_getElem?_getD, List.getD_eq_getElem?_getD, List.getElem?_append_left hl]

theorem po_mem_get_new (bs : List (Option (List Nat))) (x : Option (List Nat)) :
    po_mem_get { blocks := bs ++ [x] } (bs.length + 1) = x := by
  unfold po_mem_get
  simp only [Nat.add_one_ne_zero, if_false, Nat.add_sub_cancel]
  rw [List.getD_eq_getElem?_getD, List.getElem?_append_right (Nat.le_refl _)]
  simp

/-- A store through one address leaves the block at any other address as it
is. -/
theorem po_store_mem_frame (m m2 : po_mem) (ptr i v a : Nat) (h : a ≠ ptr)
    (hst : po_store_mem m ptr i v = .ok m2) : po_mem_get m2 a = po_mem_get m a := by
  unfold po_store_mem at hst
  split at hst
  · exact Except.noConfusion hst
  · rw [← Except.ok.inj hst]
    exact po_mem_get_set_ne m a ptr _ h

theorem po_memset0_mem_frame (m m2 : po_mem) (ptr off bytes a : Nat) (h : a ≠ ptr)
    (hst : po_memset0_mem m ptr off bytes = .ok m2) : po_mem_get m2 a = po_mem_get m a := by
  unfold po_memset0_mem at hst
  split at hst
  · exact Except.noConfusion hst
  · rw [← Except.ok.inj hst]
    exact po_mem_get_set_ne m a ptr _ h

/-- The allocator hands out no address of a block that exists, and leaves the
blocks that exist as they are. -/
theorem po_malloc_mem_frame (al : po_allocator) (m : po_mem) (size a : Nat) (blk : List Nat)
    (ha : po_mem_get m a = some blk) :
    (po_malloc_mem al m size).1 ≠ a ∧
      po_mem_get (po_malloc_mem al m size).2 a = po_mem_get m a := by
  obtain ⟨h0, hl⟩ := po_mem_get_some m a blk ha
  unfold po_malloc_mem
  split
  · exact ⟨by simp only []; omega, po_mem_get_append m.blocks _ a hl⟩
  · exact ⟨fun e => h0 e.symm, rfl⟩

theorem po_realloc_mem_frame (al : po_allocator) (m : po_mem) (ptr size a : Nat)
    (blk : List Nat) (ha : po_mem_get m a = some blk) (hne : a ≠ ptr) :
    (po_realloc_mem al m ptr size).1 ≠ a ∧
      po_mem_get (po_realloc_mem al m ptr size).2 a = po_mem_get m a := by
  obtain ⟨h0, hl⟩ := po_mem_get_some m a blk ha
  unfold po_realloc_mem
  split
  · split
    · refine ⟨by simp only []; omega, ?_⟩
      simp only []
      rw [po_mem_get_append _ _ a (by rw [po_mem_set_length]; exact hl)]
      exact po_mem_get_set_ne m a ptr none hne
    · exact ⟨fun e => hne e.symm, po_mem_get_set_ne m a ptr _ hne⟩
  · exact ⟨fun e => h0 e.symm, rfl⟩

theorem po_resize_to_mem_frame (al : po_allocator) (m m2 : po_mem) (po po2 : po_ref)
    (new_size a : Nat) (blk : List Nat) (ha : po_mem_get m a = some blk) (hne : a ≠ po.data)
    (hr : po_resize_to_mem al m po new_size = .ok (m2, po2)) :
    po2.data ≠ a ∧ po_mem_get m2 a = po_mem_get m a := by
  unfold po_resize_to_mem at hr
  split at hr
  · obtain ⟨f1, f2⟩ := po_malloc_mem_frame al m (pm_unit2byte new_size) a blk ha
    have e := Except.ok.inj hr
    rw [← (Prod.mk.inj e).1, ← (Prod.mk.inj e).2]
    exact ⟨f1, f2⟩
  · obtain ⟨f1, f2⟩ := po_realloc_mem_frame al m po.data (pm_unit2byte new_size) a blk ha hne
    dsimp only at hr
    split at hr
    · split at hr
      · exact Except.noConfusion hr
      · rename_i m3 hms
        have e := Except.ok.inj hr
        rw [← (Prod.mk.inj e).1, ← (Prod.mk.inj e).2]
        refine ⟨f1, ?_⟩
        rw [po_memset0_mem_frame _ _ _ _ _ a (fun e2 => f1 e2.symm) hms]
        exact f2
    · have e := Except.ok.inj hr
      rw [← (Prod.mk.inj e).1, ← (Prod.mk.inj e).2]
      exact ⟨f1, f2⟩

/-- A push through one descriptor leaves every other block that exists as it
is, whether it grows the container or not. -/
theorem po_push_mem_frame (al : po_allocator) (m m2 : po_mem) (po po2 : po_ref)
    (item a : Nat) (blk : List Nat) (ha : po_mem_get m a = some blk) (hne : a ≠ po.data)
    (hp : po_push_mem al m po item = .ok (m2, po2)) :
    po_mem_get m2 a = po_mem_get m a := by
  unfold po_push_mem at hp
  dsimp only at hp
  split at hp
  · exact Except.noConfusion hp
  · rename_i r hr
    have hfr : r.2.data ≠ a ∧ po_mem_get r.1 a = po_mem_get m a := by
      split at hr
      · exact po_resize_to_mem_frame al m r.1 po r.2 _ a blk ha hne hr
      · rw [← Except.ok.inj hr]
        exact ⟨fun e => hne e.symm, rfl⟩
    split at hp
    · exact Except.noConfusion hp
    · rename_i m3 hst
      rw [← (Prod.mk.inj (Except.ok.inj hp)).1,
        po_store_mem_frame _ _ _ _ _ a (fun e => hfr.1 e.symm) hst]
      exact hfr.2

theorem po_pop_mem_frame (m m2 : po_mem) (po po2 : po_ref) (ret a : Nat)
    (hne : a ≠ po.data) (hp : po_pop_mem m po = .ok (ret, m2, po2)) :
    po_mem_get m2 a = po_mem_get m a := by
  unfold po_pop_mem at hp
  split at hp
  · split at hp
    · exact Except.noConfusion hp
    · dsimp only at hp
      split at hp
      · split at hp
        · exact Except.noConfusion hp
        · rename_i m3 hst
          rw [← (Prod.mk.inj (Prod.mk.inj (Except.ok.inj hp)).2).1]
          exact po_store_mem_frame _ _ _ _ _ a hne hst
      · rw [← (Prod.mk.inj (Prod.mk.inj (Except.ok.inj hp)).2).1]
  · rw [← (Prod.mk.inj (Prod.mk.inj (Except.ok.inj hp)).2).1]

theorem po_swap_mem_frame (m m2 : po_mem) (po po2 : po_ref) (pos : Int) (item ret a : Nat)
    (hne : a ≠ po.data) (hp : po_swap_mem m po pos item = .ok (ret, m2, po2)) :
    po_mem_get m2 a = po_mem_get m a := by
  unfold po_swap_mem at hp
  split at hp
  · rw [← (Prod.mk.inj (Prod.mk.inj (Except.ok.inj hp)).2).1]
  · split at hp
    · rw [← (Prod.mk.inj (Prod.mk.inj (Except.ok.inj hp)).2).1]
    · split at hp
      · exact Except.noConfusion hp
      · split at hp
        · exact Except.noConfusion hp
        · split at hp
          · exact Except.noConfusion hp
          · rename_i m3 hst
            rw [← (Prod.mk.inj (Prod.mk.inj (Except.ok.inj hp)).2).1]
            exact po_store_mem_frame _ _ _ _ _ a hne hst

theorem po_set_size_and_local_fields (q : po_s) (n : Nat) (l : Int) :
    po_set_size_and_local q n l =
      ⟨(po_set_size_and_local ⟨q.size, q.used, none⟩ n l).size, q.used, q.data⟩ := by
  unfold po_set_size_and_local po_set_local
  split <;> rfl

/-- A met `po_malloc` in memory returns the address of the block that
`po_malloc` describes. -/
theorem po_malloc_mem_get (al : po_allocator) (m : po_mem) (size : Nat)
    (h : al.meets size = true) :
    po_mem_get (po_malloc_mem al m size).2 (po_malloc_mem al m size).1 = po_malloc size := by
  unfold po_malloc_mem
  simp only [h, if_true]
  exact po_mem_get_new m.blocks _

/-- A met `po_realloc` in memory of a block that exists returns the address of
the block that `po_realloc` describes, moved or not. -/
theorem po_realloc_mem_get (al : po_allocator) (m : po_mem) (ptr size : Nat) (blk : List Nat)
    (hp : po_mem_get m ptr = some blk) (h : al.meets size = true) :
    po_mem_get (po_realloc_mem al m ptr size).2 (po_realloc_mem al m ptr size).1
      = po_realloc al.junk (some blk) size := by
  obtain ⟨h0, hl⟩ := po_mem_get_some m ptr blk hp
  unfold po_realloc_mem
  simp only [h, if_true]
  split
  · simp only [hp]
    rw [← po_mem_set_length m ptr none]
    exact po_mem_get_new _ _
  · simp only [hp]
    exact po_mem_get_set_self m ptr _ h0 hl

theorem po_store_mem_sim (m : po_mem) (a i v : Nat) (b : Option (List Nat)) (blk : List Nat)
    (ha : po_mem_get m a = some blk) (h : po_store (po_mem_get m a) i v = .ok b) :
    po_store_mem m a i v = .ok (po_mem_set m a b) ∧ po_mem_get (po_mem_set m a b) a = b := by
  obtain ⟨h0, hl⟩ := po_mem_get_some m a blk ha
  unfold po_store_mem
  rw [h]
  exact ⟨rfl, po_mem_get_set_self m a b h0 hl⟩

theorem po_memset0_mem_sim (m : po_mem) (a off bytes : Nat) (b : Option (List Nat))
    (blk : List Nat) (ha : po_mem_get m a = some blk)
    (h : po_memset0 (po_mem_get m a) off bytes = .ok b) :
    po_memset0_mem m a off bytes = .ok (po_mem_set m a b) ∧
      po_mem_get (po_mem_set m a b) a = b := by
  obtain ⟨h0, hl⟩ := po_mem_get_some m a blk ha
  unfold po_memset0_mem
  rw [h]
  exact ⟨rfl, po_mem_get_set_self m a b h0 hl⟩

/-- When the request is met, `po_resize_to` in memory ends as `po_resize_to`
on the contents does, and the descriptor read back from memory is its
result. -/
theorem po_resize_to_mem_sim (al : po_allocator) (m : po_mem) (po : po_ref) (new_size : Nat)
    (blk : List Nat) (p : po_s) (hget : po_mem_get m po.data = some blk)
    (hmeet : al.meets (pm_unit2byte new_size) = true)
    (hv : po_resize_to al.junk (po_deref m po) new_size = .ok p) :
    ∃ m2 po2, po_resize_to_mem al m po new_size = .ok (m2, po2) ∧ po_deref m2 po2 = p ∧
      po2.used = po.used := by
  unfold po_resize_to at hv
  unfold po_resize_to_mem
  have hdata : (po_deref m po).data = some blk := hget
  split at hv
  · rename_i hloc
    rw [if_pos hloc]
    refine ⟨_, _, rfl, ?_, rfl⟩
    rw [← Except.ok.inj hv, po_set_size_and_local_fields]
    unfold po_deref po_set_size_and_local_mem
    simp only [po_malloc_mem_get al m _ hmeet]
  · rename_i hloc
    rw [if_neg hloc]
    have hrg := po_realloc_mem_get al m po.data (pm_unit2byte new_size) blk hget hmeet
    dsimp only at hv ⊢
    rw [hdata] at hv
    split at hv
    · rename_i hgt
      rw [if_pos hgt]
      split at hv
      · exact Except.noConfusion hv
      · rename_i d hms
        have hex : ∃ b2, po_realloc al.junk (some blk) (pm_unit2byte new_size) = some b2 :=
          ⟨_, rfl⟩
        obtain ⟨b2, hb2⟩ := hex
        rw [← hrg] at hms
        obtain ⟨e1, e2⟩ := po_memset0_mem_sim _ _ _ _ d b2 (by rw [hrg, hb2]) hms
        rw [e1]
        refine ⟨_, _, rfl, ?_, rfl⟩
        rw [← Except.ok.inj hv, po_set_size_and_local_fields]
        unfold po_deref po_set_size_and_local_mem
        simp only [e2]
    · rename_i hgt
      rw [if_neg hgt]
      refine ⟨_, _, rfl, ?_, rfl⟩
      rw [← Except.ok.inj hv, po_set_size_and_local_fields]
      unfold po_deref po_set_size_and_local_mem
      simp only [hrg]

/-- When the request of a growth step is met, `po_push` in memory ends as
`po_push` on the contents does, and the descriptor read back from memory is its
result. -/
theorem po_push_mem_sim (al : po_allocator) (m : po_mem) (po : po_ref) (item : Nat)
    (blk : List Nat) (p : po_s) (hget : po_mem_get m po.data = some blk)
    (hmeet : (po.used + 1) % 18446744073709551616 > pm_size (po_deref m po) →
      al.meets (pm_unit2byte (po_incr_size (po_deref m po))) = true)
    (hv : po_push al.junk (po_deref m po) item = .ok p) :
    ∃ m2 po2, po_push_mem al m po item = .ok (m2, po2) ∧ po_deref m2 po2 = p := by
  unfold po_push at hv
  unfold po_push_mem
  have hused : (po_deref m po).used = po.used := rfl
  rw [hused] at hv
  dsimp only at hv ⊢
  by_cases hg : (po.used + 1) % 18446744073709551616 > pm_size (po_deref m po)
  · rw [if_pos hg] at hv ⊢
    split at hv
    · exact Except.noConfusion hv
    · rename_i p1 hr
      obtain ⟨m1, po1, hr1, hd1, hu1⟩ :=
        po_resize_to_mem_sim al m po _ blk p1 hget (hmeet hg) hr
      rw [hr1]
      dsimp only
      split at hv
      · exact Except.noConfusion hv
      · rename_i d hst
        have hp1 : p1.data = po_mem_get m1 po1.data := by rw [← hd1]; rfl
        have hp1u : p1.used = po1.used := by rw [← hd1]; rfl
        rw [hp1, hp1u] at hst
        have hex : ∃ b1, po_mem_get m1 po1.data = some b1 := by
          cases hc : po_mem_get m1 po1.data with
          | none => rw [hc] at hst; exact Except.noConfusion hst
          | some b1 => exact ⟨b1, rfl⟩
        obtain ⟨b1, hb1⟩ := hex
        obtain ⟨e1, e2⟩ := po_store_mem_sim m1 po1.data po1.used item d b1 hb1 hst
        rw [e1]
        refine ⟨_, _, rfl, ?_⟩
        rw [← Except.ok.inj hv, ← hd1]
        unfold po_deref
        simp only [e2]
  · rw [if_neg hg] at hv ⊢
    dsimp only at hv ⊢
    split at hv
    · exact Except.noConfusion hv
    · rename_i d hst
      have hdd : (po_deref m po).data = po_mem_get m po.data := rfl
      rw [hdd, hused] at hst
      obtain ⟨e1, e2⟩ := po_store_mem_sim m po.data po.used item d blk hget hst
      rw [e1]
      refine ⟨_, _, rfl, ?_⟩
      rw [← Except.ok.inj hv]
      unfold po_deref
      simp only [e2]

/-- Swap through a descriptor whose container has storage and elements ends
normally at every valid position. -/
theorem po_swap_mem_total (m : po_mem) (po : po_ref) (pos : Int) (item : Nat)
    (hs : po_has_storage (po_deref m po))
    (h1 : -(po.used : Int) ≤ pos) (h2 : pos < po.used) :
    ∃ ret m2 po2, po_swap_mem m po pos item = .ok (ret, m2, po2) := by
  obtain ⟨blk, hd, hlen⟩ := po_has_storage_block hs
  have hd : po_mem_get m po.data = some blk := hd
  obtain ⟨h0, _⟩ := po_mem_get_some m po.data blk hd
  have hused : po.used ≤ po_size (po_deref m po) := hs.2.2.2.1
  have hbyte := hs.2.2.1
  unfold po_unit_size at hbyte
  obtain ⟨hn1, hn2⟩ := po_norm_idx_in_range (po_deref m po) pos
    (by show po.used ≤ 9223372036854775808; omega) h1 h2
  have hn1 : po_norm_idx (po_deref m po) pos = .ok (normalize po.used pos) := hn1
  have hn2 : normalize po.used pos < po.used := hn2
  have hu : ¬ po.used = 0 := by omega
  unfold po_swap_mem
  rw [if_neg h0, if_neg hu, hn1]
  dsimp only
  rw [hd, po_load_some _ _ (by omega)]
  dsimp only
  unfold po_store_mem
  rw [hd, po_store_some _ _ _ (by omega)]
  exact ⟨_, _, _, rfl⟩

/-- Pop through a descriptor whose container has storage ends normally. -/
theorem po_pop_mem_total (m : po_mem) (po : po_ref) (hs : po_has_storage (po_deref m po)) :
    ∃ ret m2 po2, po_pop_mem m po = .ok (ret, m2, po2) := by
  obtain ⟨blk, hd, hlen⟩ := po_has_storage_block hs
  have hd : po_mem_get m po.data = some blk := hd
  have hused : po.used ≤ po_size (po_deref m po) := hs.2.2.2.1
  have hmin : 2 ≤ po_size (po_deref m po) := hs.2.2.2.2
  unfold po_pop_mem
  by_cases hu : po.used > 0
  · rw [if_pos hu, hd, po_load_some _ _ (by omega)]
    dsimp only
    by_cases h1 : po.used - 1 = 0
    · rw [if_pos h1]
      unfold po_store_mem
      rw [hd, po_store_some _ _ _ (by omega)]
      exact ⟨_, _, _, rfl⟩
    · rw [if_neg h1]
      exact ⟨_, _, _, rfl⟩
  · rw [if_neg hu]
    exact ⟨_, _, _, rfl⟩

/-- Duplicate in memory of a container with storage, the request met: the
block of the duplicate is a new one, at the address after those in existence,
and holds what `po_duplicate` computes from the contents. -/
theorem po_duplicate_mem_ok (al : po_allocator) (m : po_mem) (po : po_ref) (dblk : List Nat)
    (L : Nat) (hL : po_legal_size (po_size (po_deref m po)) = L)
    (hmeet : al.meets (pm_unit2byte L) = true)
    (hdup : po_duplicate (po_deref m po) = .ok ⟨L, po.used, some dblk⟩)
    (sblk : List Nat) (hsrc : po_mem_get m po.data = some sblk) :
    po_duplicate_mem al m po =
      .ok ({ blocks := m.blocks ++ [some dblk] }, ⟨L, po.used, m.blocks.length + 1⟩) := by
  obtain ⟨h0, hl⟩ := po_mem_get_some m po.data sblk hsrc
  have hpm : pm_size (po_deref m po) = po_size (po_deref m po) := rfl
  have hcpy : po_memcpy (po_malloc (pm_unit2byte L)) (some sblk)
      (po_used_size (po_deref m po)) = .ok (some dblk) ∧
      (po_set_size_and_local ⟨0, 0, none⟩ L 0).size = L := by
    unfold po_duplicate po_new_sized po_init at hdup
    rw [hpm, hL] at hdup
    have hd : (po_deref m po).data = some sblk := hsrc
    simp only [hd] at hdup
    split at hdup
    · exact Except.noConfusion hdup
    · rename_i d hm
      have e := Except.ok.inj hdup
      have e1 : (po_set_size_and_local ⟨0, 0, none⟩ L 0).size = L := congrArg po_s.size e
      have e2 : d = some dblk := congrArg po_s.data e
      rw [hm, e2]
      exact ⟨rfl, e1⟩
  unfold po_duplicate_mem po_new_sized_mem po_malloc_mem po_init_mem po_set_size_and_local_mem
  rw [hpm, hL]
  simp only [hmeet, if_true]
  unfold po_memcpy_mem
  rw [po_mem_get_new, po_mem_get_append m.blocks _ po.data hl]
  have hsrc2 : po_mem_get { blocks := m.blocks } po.data = some sblk := hsrc
  rw [hsrc2, hcpy.1]
  simp only [hcpy.2]
  unfold po_mem_set
  simp only [Nat.add_one_ne_zero, if_false, Nat.add_sub_cancel]
  rw [List.set_append_right _ _ (Nat.le_refl _)]
  simp

/-! ## Pop lemmas -/

/-- Pop on a non-empty container with storage: the last element is returned,
`used` shrinks by one, the size word is untouched and the elements below the
new `used` stay. -/
theorem po_pop_ok (po : po_s) (hs : po_has_storage po) (hu : 0 < po.used) :
    ∃ ret q, po_pop po = .ok (ret, q) ∧ (po_items po)[po.used - 1]? = some ret ∧
      q.used = po.used - 1 ∧ q.size = po.size ∧ po_has_storage q ∧
      po_items q = (po_items po).take (po.used - 1) := by
  obtain ⟨blk, hd, hlen⟩ := po_has_storage_block hs
  obtain ⟨v, hlast, hload⟩ := po_load_items po hs (po.used - 1) (by omega)
  obtain ⟨hsz, _, hbyte, hused, hmin⟩ := hs
  unfold PO_MIN_SIZE at hmin
  have hwf : ∀ blk2 : List Nat, blk2.length = blk.length →
      po_has_storage { size := po.size, used := po.used - 1, data := some blk2 } := by
    intro blk2 h
    unfold po_has_storage po_unit_size PO_MIN_SIZE po_size
    have : pm_size { size := po.size, used := po.used - 1, data := some blk2 } = pm_size po :=
      rfl
    rw [this]
    unfold po_unit_size po_size at hbyte
    unfold po_size at hlen hmin hused
    simp only [Option.map_some', h, hlen]
    exact ⟨hsz, trivial, hbyte, by omega, hmin⟩
  unfold po_pop
  simp only [hu, gt_iff_lt, if_true, hload]
  by_cases h1 : po.used - 1 = 0
  · simp only [if_pos h1, hd]
    rw [po_store_some _ _ _ (by omega)]
    refine ⟨_, _, rfl, hlast, rfl, rfl, ?_, ?_⟩
    · exact hwf (blk.set 0 NULL) (by simp)
    · unfold po_items po_block
      simp only [hd, Option.getD_some, h1, List.take_zero]
  · simp only [if_neg h1]
    refine ⟨_, _, rfl, hlast, rfl, rfl, by rw [hd]; exact hwf blk rfl, ?_⟩
    unfold po_items po_block
    simp only [hd, Option.getD_some]
    rw [List.take_take]
    congr 1
    omega

/-- Pop on a container with storage always ends normally. -/
theorem po_pop_total (po : po_s) (hs : po_has_storage po) :
    ∃ ret q, po_pop po = .ok (ret, q) := by
  by_cases hu : 0 < po.used
  · obtain ⟨ret, q, h, _⟩ := po_pop_ok po hs hu
    exact ⟨ret, q, h⟩
  · refine ⟨NULL, po, ?_⟩
    unfold po_pop
    simp only [hu, gt_iff_lt, if_false]

/-- Push then pop on a container with storage that has room or is heap-owned:
the item comes back, `used` and the element sequence are what they were. -/
theorem po_push_pop_roundtrip (junk : Nat → Nat) (po : po_s) (item : Nat)
    (hs : po_has_storage po) (hfit : po.used = po_size po → po_grow_fits po)
    (hok : po.used < po_size po ∨ po_get_local po = 0) :
    ∃ p q, po_push junk po item = .ok p ∧ po_pop p = .ok (item, q) ∧
      q.used = po.used ∧ po_items q = po_items po := by
  obtain ⟨p, hp, hsp, hu, _, _, hit⟩ := po_push_step po item hs hfit
  obtain ⟨ret, q, hq, hret, hqu, _, _, hqi⟩ := po_pop_ok p hsp (by omega)
  have hlen := po_items_length po hs
  have e : p.used - 1 = po.used := by omega
  rw [e, hit hok] at hret hqi
  rw [List.getElem?_append_right (by omega), hlen] at hret
  simp only [Nat.sub_self, List.getElem?_cons_zero, Option.some.injEq] at hret
  refine ⟨p, q, hp junk, by rw [hq, hret], by omega, ?_⟩
  rw [hqi, List.take_left' hlen]

/-- A resize request whose legalized size is below `used` is ignored. -/
theorem po_resize_ignored (junk : Nat → Nat) (po : po_s) (new_size : Nat)
    (h : po_legal_size new_size < po.used) : po_resize junk po new_size = .ok po := by
  unfold po_resize
  have : ¬ po_legal_size new_size ≥ po.used := by omega
  simp only [this, if_false]

/-! ## Claims C11 to C15 -/

/-- C11: evaluation at a heap-owned container of reservation 16 holding four
elements.  The request 3 is smaller than `used`, but it is legalized to 4
first and 4 is not below `used`, so `po_resize` does act: the reservation
drops from 16 to 4.  On a local container of reservation 4 holding two
elements the request 1 is legalized to 2 and the resize replaces the buffer by
a fresh zero-filled block, clears the local flag and loses both elements. -/
theorem po_resize_below_used_acts (junk : Nat → Nat) :
    po_has_storage ⟨16, 4, some [1, 2, 3, 4, 0, 0, 0, 0, 0, 0, 0, 0, 0, 0, 0, 0]⟩ ∧
    3 < po_used ⟨16, 4, some [1, 2, 3, 4, 0, 0, 0, 0, 0, 0, 0, 0, 0, 0, 0, 0]⟩ ∧
    po_size ⟨16, 4, some [1, 2, 3, 4, 0, 0, 0, 0, 0, 0, 0, 0, 0, 0, 0, 0]⟩ = 16 ∧
    po_legal_size 3 = 4 ∧
    po_resize junk ⟨16, 4, some [1, 2, 3, 4, 0, 0, 0, 0, 0, 0, 0, 0, 0, 0, 0, 0]⟩ 3
      = .ok ⟨4, 4, some [1, 2, 3, 4]⟩ ∧
    po_size ⟨4, 4, some [1, 2, 3, 4]⟩ = 4 ∧
    po_has_storage ⟨5, 2, some [11, 22, 0, 0]⟩ ∧ 1 < po_used ⟨5, 2, some [11, 22, 0, 0]⟩ ∧
    po_get_local ⟨5, 2, some [11, 22, 0, 0]⟩ = 1 ∧
    po_resize junk ⟨5, 2, some [11, 22, 0, 0]⟩ 1 = .ok ⟨2, 2, some [0, 0]⟩ := by
  have e3 : po_legal_size 3 = 4 := by decide
  have e1 : po_legal_size 1 = 2 := by decide
  refine ⟨by decide, by decide, by decide, e3, ?_, by decide, by decide, by decide,
    by decide, ?_⟩
  · unfold po_resize
    simp only [e3]
    rw [if_pos (by decide),
      po_resize_to_heap_shrink junk _ 4 [1, 2, 3, 4, 0, 0, 0, 0, 0, 0, 0, 0, 0, 0, 0, 0] rfl
        (by decide) (by decide) (by decide) (by decide) (by decide)]
    rfl
  · unfold po_resize
    simp only [e1]
    rw [if_pos (by decide),
      po_resize_to_local junk _ 2 (by decide) (by decide) (by decide)]
    rfl

/-- C12: for a container with storage, `po_insert_if` returns 0 exactly when
`used + 1 > reservation`, and then the descriptor (used, reservation, local
flag, every element) is unchanged; with room it never returns 0 and at a valid
position it returns 1; in neither case does the reservation, or the local
flag, change. -/
theorem po_insert_if_spec (po : po_s) (pos : Int) (item : Nat) (hs : po_has_storage po) :
    (po_used po + 1 > po_size po → po_insert_if po pos item = .ok (0, po)) ∧
    (po_used po + 1 ≤ po_size po →
      (∀ p, po_insert_if po pos item ≠ .ok (0, p)) ∧
      (-(po_used po : Int) ≤ pos ∧ pos ≤ po_used po →
        ∃ p, po_insert_if po pos item = .ok (1, p) ∧ po_size p = po_size po ∧
          po_get_local p = po_get_local po)) := by
  unfold po_used
  have hs' := hs
  obtain ⟨hsz, _, hbyte, hused, hmin⟩ := hs
  unfold po_unit_size at hbyte
  unfold po_size at *
  have hnu : (po.used + 1) % 18446744073709551616 = po.used + 1 := by omega
  refine ⟨fun h => ?_, fun h => ⟨fun p => ?_, fun hp => ?_⟩⟩
  · unfold po_insert_if
    simp only [hnu, h, if_true]
  · exact po_insert_if_flag po pos item p (by rw [hnu]; omega)
  · obtain ⟨p, hp1, hsize, _, _, _⟩ :=
      po_insert_if_room po pos item hs' (by unfold po_size; omega) hp.1 hp.2
    refine ⟨p, hp1, ?_, ?_⟩
    · unfold pm_size; rw [hsize]
    · rw [po_get_local_eq, po_get_local_eq, hsize]

/-- Witness for C12: a full container of two slots. -/
theorem po_insert_if_spec_witness :
    po_has_storage ⟨2, 2, some [5, 6]⟩ ∧
    po_used ⟨2, 2, some [5, 6]⟩ + 1 > po_size ⟨2, 2, some [5, 6]⟩ ∧
    po_insert_if ⟨2, 2, some [5, 6]⟩ 0 7 = .ok (0, ⟨2, 2, some [5, 6]⟩) :=
  ⟨by decide, by decide,
    (po_insert_if_spec ⟨2, 2, some [5, 6]⟩ 0 7 (by decide)).1 (by decide)⟩

/-- C13: for every container with storage and `used < reservation`, every
item and every position `p` with `-used <= p <= used`, `po_insert_if` returns 1
and the element sequence becomes `old[0..n) ++ [item] ++ old[n..used)`, where
`n = p` for `p >= 0` and `n = used + p` for `p < 0`; `used` increases by exactly
one. -/
theorem po_insert_if_sequence (po : po_s) (p : Int) (item : Nat) (hs : po_has_storage po)
    (hroom : po_used po < po_size po) (h1 : -(po_used po : Int) ≤ p)
    (h2 : p ≤ po_used po) :
    ∃ q, po_insert_if po p item = .ok (1, q) ∧
      po_items q =
        (po_items po).take (if 0 ≤ p then p.toNat else ((po_used po : Int) + p).toNat) ++
          [item] ++
          (po_items po).drop (if 0 ≤ p then p.toNat else ((po_used po : Int) + p).toNat) ∧
      po_used q = po_used po + 1 := by
  unfold po_used at *
  obtain ⟨q, hq, _, hu, _, hit⟩ := po_insert_if_room po p item hs hroom h1 h2
  unfold normalize at hit
  refine ⟨q, hq, ?_, hu⟩
  rw [hit]
  simp

/-- Witness for C13: two elements in four slots, insertion at -1. -/
theorem po_insert_if_sequence_witness :
    po_has_storage ⟨4, 2, some [11, 22, 0, 0]⟩ ∧
    po_used ⟨4, 2, some [11, 22, 0, 0]⟩ < po_size ⟨4, 2, some [11, 22, 0, 0]⟩ ∧
    -(po_used ⟨4, 2, some [11, 22, 0, 0]⟩ : Int) ≤ -1 ∧
    (-1 : Int) ≤ po_used ⟨4, 2, some [11, 22, 0, 0]⟩ ∧
    ∃ q, po_insert_if ⟨4, 2, some [11, 22, 0, 0]⟩ (-1) 44 = .ok (1, q) ∧
      po_items q =
        (po_items ⟨4, 2, some [11, 22, 0, 0]⟩).take
            (if (0 : Int) ≤ -1 then (-1 : Int).toNat
              else ((po_used ⟨4, 2, some [11, 22, 0, 0]⟩ : Int) + -1).toNat) ++
          [44] ++
          (po_items ⟨4, 2, some [11, 22, 0, 0]⟩).drop
            (if (0 : Int) ≤ -1 then (-1 : Int).toNat
              else ((po_used ⟨4, 2, some [11, 22, 0, 0]⟩ : Int) + -1).toNat) ∧
      po_used q = po_used ⟨4, 2, some [11, 22, 0, 0]⟩ + 1 :=
  ⟨by decide, by decide, by decide, by decide,
    po_insert_if_sequence ⟨4, 2, some [11, 22, 0, 0]⟩ (-1) 44 (by decide) (by decide)
      (by decide) (by decide)⟩

/-- C14: for every container with storage and `used >= 2` and every position
`p` with `-used <= p < used`, `po_delete_at` returns the element at the
normalized offset `n`, the element sequence becomes
`old[0..n) ++ old[n+1..used)`, `used` decreases by exactly one, and the
reservation and the local flag are unchanged. -/
theorem po_delete_at_sequence (po : po_s) (p : Int) (hs : po_has_storage po)
    (hu : 2 ≤ po_used po) (h1 : -(po_used po : Int) ≤ p) (h2 : p < po_used po) :
    ∃ ret q, po_delete_at po p = .ok (ret, q) ∧
      (po_items po)[if 0 ≤ p then p.toNat else ((po_used po : Int) + p).toNat]? = some ret ∧
      po_items q =
        (po_items po).take (if 0 ≤ p then p.toNat else ((po_used po : Int) + p).toNat) ++
          (po_items po).drop
            ((if 0 ≤ p then p.toNat else ((po_used po : Int) + p).toNat) + 1) ∧
      po_used q + 1 = po_used po ∧ po_size q = po_size po ∧
      po_get_local q = po_get_local po := by
  unfold po_used at *
  obtain ⟨ret, q, hq, hret, hsize, hu', _, hit⟩ := po_delete_at_many po p hs hu h1 h2
  unfold normalize at hret hit
  refine ⟨ret, q, hq, hret, hit, by omega, ?_, ?_⟩
  · unfold po_size pm_size; rw [hsize]
  · rw [po_get_local_eq, po_get_local_eq, hsize]

/-- Witness for C14: three elements in four slots, deletion at -2. -/
theorem po_delete_at_sequence_witness :
    po_has_storage ⟨4, 3, some [11, 22, 33, 0]⟩ ∧
    2 ≤ po_used ⟨4, 3, some [11, 22, 33, 0]⟩ ∧
    -(po_used ⟨4, 3, some [11, 22, 33, 0]⟩ : Int) ≤ -2 ∧
    (-2 : Int) < po_used ⟨4, 3, some [11, 22, 33, 0]⟩ ∧
    ∃ ret q, po_delete_at ⟨4, 3, some [11, 22, 33, 0]⟩ (-2) = .ok (ret, q) ∧
      (po_items ⟨4, 3, some [11, 22, 33, 0]⟩)[1]? = some ret ∧
      po_items q = (po_items ⟨4, 3, some [11, 22, 33, 0]⟩).take 1 ++
          (po_items ⟨4, 3, some [11, 22, 33, 0]⟩).drop (1 + 1) ∧
      po_used q + 1 = po_used ⟨4, 3, some [11, 22, 33, 0]⟩ ∧
      po_size q = po_size ⟨4, 3, some [11, 22, 33, 0]⟩ ∧
      po_get_local q = po_get_local ⟨4, 3, some [11, 22, 33, 0]⟩ :=
  ⟨by decide, by decide, by decide, by decide,
    po_delete_at_sequence ⟨4, 3, some [11, 22, 33, 0]⟩ (-2) (by decide) (by decide)
      (by decide) (by decide)⟩

/-- C15: for every container with storage holding exactly one element,
`po_delete_at` (at any position, in particular 0 and -1) returns `NULL`
whatever the removed element was, sets `used` to 0 and slot 0 to `NULL`, and
leaves the reservation, the local flag and the storage, with its other slots,
in place. -/
theorem po_delete_at_sole (po : po_s) (pos : Int) (hs : po_has_storage po)
    (h1 : po_used po = 1) :
    ∃ removed q, po_load po.data 0 = .ok removed ∧ po_delete_at po pos = .ok (NULL, q) ∧
      po_used q = 0 ∧ po_load q.data 0 = .ok NULL ∧ po_size q = po_size po ∧
      po_get_local q = po_get_local po ∧ po_has_storage q ∧
      (∀ i, 0 < i → po_load q.data i = po_load po.data i) := by
  unfold po_used at *
  obtain ⟨blk, hd, hlen⟩ := po_has_storage_block hs
  obtain ⟨hsz, _, hbyte, hused, hmin⟩ := hs
  unfold PO_MIN_SIZE at hmin
  have hpos : 0 < blk.length := by omega
  refine ⟨blk[0], { size := po.size, used := 0, data := some (blk.set 0 NULL) }, ?_, ?_, rfl,
    ?_, rfl, ?_, ?_, fun i hi => ?_⟩
  · rw [hd, po_load_some _ _ hpos]
  · unfold po_delete_at po_first
    simp only [h1, one_ne_zero, if_false, if_true, hd]
    rw [po_load_some _ _ hpos]
    simp only []
    rw [po_store_some _ _ _ hpos]
  · exact po_load_set_self blk 0 NULL hpos
  · rw [po_get_local_eq, po_get_local_eq]
  · unfold po_has_storage po_unit_size PO_MIN_SIZE po_size
    have : ∀ b : List Nat, pm_size { size := po.size, used := 0, data := some b } = pm_size po :=
      fun _ => rfl
    rw [this]
    simp only [Option.map_some', List.length_set]
    unfold po_unit_size po_size at hbyte
    unfold po_size at hlen hmin
    exact ⟨hsz, by rw [hlen], hbyte, by omega, hmin⟩
  · rw [hd]
    exact po_load_set_ne blk 0 i NULL (by omega)

/-- Witness for C15: the single element 11 in two slots, deletion at -1. -/
theorem po_delete_at_sole_witness :
    po_has_storage ⟨2, 1, some [11, 22]⟩ ∧ po_used ⟨2, 1, some [11, 22]⟩ = 1 ∧
    ∃ removed q, po_load (po_s.data ⟨2, 1, some [11, 22]⟩) 0 = .ok removed ∧
      po_delete_at ⟨2, 1, some [11, 22]⟩ (-1) = .ok (NULL, q) ∧
      po_used q = 0 ∧ po_load q.data 0 = .ok NULL ∧
      po_size q = po_size ⟨2, 1, some [11, 22]⟩ ∧
      po_get_local q = po_get_local ⟨2, 1, some [11, 22]⟩ ∧ po_has_storage q ∧
      (∀ i, 0 < i → po_load q.data i = po_load (po_s.data ⟨2, 1, some [11, 22]⟩) i) :=
  ⟨by decide, by decide,
    po_delete_at_sole ⟨2, 1, some [11, 22]⟩ (-1) (by decide) (by decide)⟩

/-! ## Claims C16 to C20 -/

/-- C16: evaluation at a borrowed (local) container of two slots that is full
with 11 and 22.  `po_push` of 33 followed by `po_pop` returns 33 and restores
`used = 2`, but the elements at offsets 0 and 1 are now `NULL` instead of 11
and 22: the push grew the container through the local branch of
`po_resize_to`, which copies nothing. -/
theorem po_push_pop_local_drops_items (junk : Nat → Nat) :
    po_has_storage ⟨3, 2, some [11, 22]⟩ ∧ po_get_local ⟨3, 2, some [11, 22]⟩ = 1 ∧
    po_nth ⟨3, 2, some [11, 22]⟩ 0 = .ok 11 ∧ po_nth ⟨3, 2, some [11, 22]⟩ 1 = .ok 22 ∧
    po_push junk ⟨3, 2, some [11, 22]⟩ 33 = .ok ⟨4, 3, some [0, 0, 33, 0]⟩ ∧
    po_pop ⟨4, 3, some [0, 0, 33, 0]⟩ = .ok (33, ⟨4, 2, some [0, 0, 33, 0]⟩) ∧
    po_used ⟨4, 2, some [0, 0, 33, 0]⟩ = po_used ⟨3, 2, some [11, 22]⟩ ∧
    po_nth ⟨4, 2, some [0, 0, 33, 0]⟩ 0 = .ok NULL ∧
    po_nth ⟨4, 2, some [0, 0, 33, 0]⟩ 1 = .ok NULL := by
  refine ⟨by decide, by decide, by decide, by decide, ?_, by decide, by decide, by decide,
    by decide⟩
  obtain ⟨p, hp, _⟩ := po_push_step ⟨3, 2, some [11, 22]⟩ 33 (by decide) (by decide)
  have h0 : po_push (fun _ => 0) ⟨3, 2, some [11, 22]⟩ 33 = .ok ⟨4, 3, some [0, 0, 33, 0]⟩ := by
    decide
  rw [hp junk]
  rw [hp (fun _ => 0)] at h0
  exact h0

/-- C17: for every descriptor with `used == 0`, with or without storage:
`po_pop`, `po_delete_at` at any position and `po_swap` at any position return
`NULL`, `po_last` and `po_nth` return `NULL`, `po_find` and `po_find_with`
return `PO_NOT_INDEX`, which is -1; each call ends normally, without fault or
assertion, and the calls that return a descriptor return the one they were
given, so neither `used` nor the reservation nor any slot changes. -/
theorem po_empty_sentinels (po : po_s) (hu : po_used po = 0) :
    po_pop po = .ok (NULL, po) ∧
    (∀ p, po_delete_at po p = .ok (NULL, po)) ∧
    (∀ p x, po_swap po p x = .ok (NULL, po)) ∧
    po_last po = .ok NULL ∧
    (∀ p, po_nth po p = .ok NULL) ∧
    (∀ item, po_find po item = .ok PO_NOT_INDEX) ∧
    (∀ compare ref, po_find_with po compare ref = .ok PO_NOT_INDEX) ∧
    PO_NOT_INDEX = -1 := by
  unfold po_used at hu
  refine ⟨?_, fun p => ?_, fun p x => ?_, ?_, fun p => ?_, fun item => ?_,
    fun compare ref => ?_, rfl⟩
  · unfold po_pop; simp only [hu, gt_iff_lt, Nat.lt_irrefl, if_false]
  · unfold po_delete_at; simp only [hu, if_true]
  · unfold po_swap
    by_cases hd : po.data = none
    · simp only [hd, if_true]
    · simp only [hd, hu, if_true, if_false]
  · unfold po_last; simp only [hu, gt_iff_lt, Nat.lt_irrefl, if_false]
  · unfold po_nth; simp only [hu, gt_iff_lt, Nat.lt_irrefl, if_false]
  · unfold po_find; rw [hu]; rfl
  · unfold po_find_with; rw [hu]; rfl

/-- Witness for C17: an empty container of two slots. -/
theorem po_empty_sentinels_witness :
    po_has_storage ⟨2, 0, some [0, 0]⟩ ∧ po_used ⟨2, 0, some [0, 0]⟩ = 0 ∧
    po_pop ⟨2, 0, some [0, 0]⟩ = .ok (NULL, ⟨2, 0, some [0, 0]⟩) ∧
    po_delete_at ⟨2, 0, some [0, 0]⟩ 0 = .ok (NULL, ⟨2, 0, some [0, 0]⟩) :=
  ⟨by decide, by decide, (po_empty_sentinels ⟨2, 0, some [0, 0]⟩ (by decide)).1,
    (po_empty_sentinels ⟨2, 0, some [0, 0]⟩ (by decide)).2.1 0⟩

/-- C18: for every source container with storage in memory (the byte size of
its page-aligned reservation representable, the request of `po_new_sized` met
by the allocator), `po_duplicate` ends normally; the duplicate has the same
`used` and the same elements at offsets `[0, used)` as the source, is
heap-owned and has storage of its own, in a block at another address than the
block of the source; the source is unchanged, and it stays unchanged, in `used`
and in every element, by a later `po_swap`, `po_push` (growing or not, whatever
the allocator does) or `po_pop` through the duplicate that ends normally; and
these do end normally: `po_pop` always, `po_swap` at every valid position, and
`po_push` whenever a growth step has its request representable and met. -/
theorem po_duplicate_independent (al : po_allocator) (m : po_mem) (src : po_ref)
    (hs : po_has_storage (po_deref m src)) (hfit : po_page_fits (po_deref m src))
    (hmeet : al.meets (pm_unit2byte (po_legal_size (po_size (po_deref m src)))) = true) :
    ∃ m1 dup, po_duplicate_mem al m src = .ok (m1, dup) ∧
      po_duplicate (po_deref m src) = .ok (po_deref m1 dup) ∧
      po_used (po_deref m1 dup) = po_used (po_deref m src) ∧
      (∀ i, i < po_used (po_deref m src) →
        po_load (po_deref m1 dup).data i = po_load (po_deref m src).data i) ∧
      po_get_local (po_deref m1 dup) = 0 ∧ po_has_storage (po_deref m1 dup) ∧
      dup.data ≠ src.data ∧ po_deref m1 src = po_deref m src ∧
      (∀ pos item ret m2 dup2, po_swap_mem m1 dup pos item = .ok (ret, m2, dup2) →
        po_deref m2 src = po_deref m src) ∧
      (∀ al2 item m2 dup2, po_push_mem al2 m1 dup item = .ok (m2, dup2) →
        po_deref m2 src = po_deref m src) ∧
      (∀ ret m2 dup2, po_pop_mem m1 dup = .ok (ret, m2, dup2) →
        po_deref m2 src = po_deref m src) ∧
      (∃ ret m2 dup2, po_pop_mem m1 dup = .ok (ret, m2, dup2)) ∧
      (∀ pos item, -(po_used (po_deref m1 dup) : Int) ≤ pos →
        pos < po_used (po_deref m1 dup) →
        ∃ ret m2 dup2, po_swap_mem m1 dup pos item = .ok (ret, m2, dup2)) ∧
      (∀ al2 item,
        (po_used (po_deref m1 dup) = po_size (po_deref m1 dup) →
          po_grow_fits (po_deref m1 dup) ∧
          al2.meets (pm_unit2byte (po_incr_size (po_deref m1 dup))) = true) →
        ∃ m2 dup2, po_push_mem al2 m1 dup item = .ok (m2, dup2) ∧
          po_used (po_deref m2 dup2) = po_used (po_deref m src) + 1) := by
  obtain ⟨sblk, hsb, _⟩ := po_has_storage_block hs
  have hsb : po_mem_get m src.data = some sblk := hsb
  obtain ⟨h0, hl⟩ := po_mem_get_some m src.data sblk hsb
  obtain ⟨dblk, hdup, hlen, htake, _, hev, hle, hb⟩ := po_duplicate_ok (po_deref m src) hs hfit
  generalize hL : po_legal_size (po_size (po_deref m src)) = L at hdup hlen hev hle hb hmeet
  have hused : (po_deref m src).used = src.used := rfl
  rw [hused] at hdup
  have hdm := po_duplicate_mem_ok al m src dblk L hL hmeet hdup sblk hsb
  have hsd : src.data ≠ m.blocks.length + 1 := by omega
  have hd1 : po_deref { blocks := m.blocks ++ [some dblk] }
      (⟨L, src.used, m.blocks.length + 1⟩ : po_ref) = (⟨L, src.used, some dblk⟩ : po_s) := by
    unfold po_deref
    simp only [po_mem_get_new]
  have hsrc1 : po_mem_get { blocks := m.blocks ++ [some dblk] } src.data = some sblk := by
    rw [po_mem_get_append m.blocks _ src.data hl]
    exact hsb
  have hframe : ∀ m2 : po_mem, po_mem_get m2 src.data = some sblk →
      po_deref m2 src = po_deref m src := by
    intro m2 h2
    unfold po_deref
    rw [h2, hsb]
  have hsize1 : po_size (⟨L, src.used, some dblk⟩ : po_s) = L :=
    po_size_of_even _ (by simp only []; omega) hev
  have hsdup : po_has_storage (po_deref { blocks := m.blocks ++ [some dblk] }
      (⟨L, src.used, m.blocks.length + 1⟩ : po_ref)) := by
    rw [hd1]
    unfold po_has_storage
    rw [hsize1]
    unfold po_unit_size PO_MIN_SIZE
    simp only [Option.map_some', hlen]
    have h3 : src.used ≤ po_size (po_deref m src) := hs.2.2.2.1
    have h4 := hs.2.2.2.2
    unfold PO_MIN_SIZE at h4
    exact ⟨by omega, trivial, hb, by omega, by omega⟩
  refine ⟨{ blocks := m.blocks ++ [some dblk] }, (⟨L, src.used, m.blocks.length + 1⟩ : po_ref),
    hdm, ?_, ?_, ?_, ?_, hsdup, fun e => hsd e.symm, hframe _ hsrc1, ?_, ?_, ?_,
    po_pop_mem_total _ _ hsdup, ?_, ?_⟩
  · rw [hdup, hd1]
  · rw [hd1]; rfl
  · intro i hi
    have hi : i < src.used := hi
    rw [hd1]
    have hdata : (po_deref m src).data = some sblk := hsb
    rw [hdata]
    have e : dblk[i]? = sblk[i]? := by
      have := congrArg (fun l => l[i]?) htake
      unfold po_block at this
      simp only [hdata, Option.getD_some, List.getElem?_take, hused, hi, if_true] at this
      exact this
    unfold po_load
    simp only [e]
  · rw [hd1, po_get_local_eq]
    simp only [hev]
    rfl
  · intro pos item ret m2 dup2 hsw
    apply hframe
    rw [po_swap_mem_frame _ _ _ _ _ _ _ src.data hsd hsw]
    exact hsrc1
  · intro al2 item m2 dup2 hpu
    apply hframe
    rw [po_push_mem_frame al2 _ _ _ _ _ src.data sblk hsrc1 hsd hpu]
    exact hsrc1
  · intro ret m2 dup2 hpo
    apply hframe
    rw [po_pop_mem_frame _ _ _ _ _ src.data hsd hpo]
    exact hsrc1
  · intro pos item h1 h2
    exact po_swap_mem_total _ _ pos item hsdup h1 h2
  · intro al2 item hg
    obtain ⟨p, hp, _, hpu, _⟩ := po_push_step _ item hsdup (fun h => (hg h).1)
    obtain ⟨m2, dup2, e1, e2⟩ := po_push_mem_sim al2 _ _ item dblk p
      (po_mem_get_new m.blocks _)
      (fun h => (hg ((po_growth_test _ hsdup).1 h)).2) (hp al2.junk)
    refine ⟨m2, dup2, e1, ?_⟩
    rw [e2]
    exact hpu

/-- Witness for C18: a full source of two slots, the only block in memory, at
address 1; its duplicate is pushed to, which grows it. -/
theorem po_duplicate_independent_witness :
    po_has_storage (po_deref ⟨[some [11, 22]]⟩ ⟨2, 2, 1⟩) ∧
    po_page_fits (po_deref ⟨[some [11, 22]]⟩ ⟨2, 2, 1⟩) ∧
    decide (pm_unit2byte (po_legal_size (po_size (po_deref ⟨[some [11, 22]]⟩ ⟨2, 2, 1⟩)))
      < 140737488355328) = true ∧
    po_duplicate_mem ⟨fun n => decide (n < 140737488355328), fun _ => true, fun _ => 9⟩
      ⟨[some [11, 22]]⟩ ⟨2, 2, 1⟩ = .ok (⟨[some [11, 22], some [11, 22]]⟩, ⟨2, 2, 2⟩) ∧
    po_push_mem ⟨fun n => decide (n < 140737488355328), fun _ => true, fun _ => 9⟩
      ⟨[some [11, 22], some [11, 22]]⟩ ⟨2, 2, 2⟩ 33
      = .ok (⟨[some [11, 22], none, some [11, 22, 33, 0]]⟩, ⟨4, 3, 3⟩) ∧
    ∃ m1 dup,
      po_duplicate_mem ⟨fun n => decide (n < 140737488355328), fun _ => true, fun _ => 9⟩
        ⟨[some [11, 22]]⟩ ⟨2, 2, 1⟩ = .ok (m1, dup) ∧
      po_used (po_deref m1 dup) = 2 ∧ dup.data ≠ 1 ∧
      po_deref m1 ⟨2, 2, 1⟩ = ⟨2, 2, some [11, 22]⟩ :=
  ⟨by decide, by decide, by decide, by decide, by decide,
    match po_duplicate_independent
      ⟨fun n => decide (n < 140737488355328), fun _ => true, fun _ => 9⟩
      ⟨[some [11, 22]]⟩ ⟨2, 2, 1⟩ (by decide) (by decide) (by decide) with
    | ⟨m1, dup, e, _, u, _, _, _, n, s, _⟩ => ⟨m1, dup, e, u, n, s⟩⟩

/-- C19: evaluation at the container made by `po_new_sized` for the request
5000, whose reservation is 8192.  `po_duplicate` passes the reservation through
`po_new_sized` again, and `po_legal_size 8192` is 12288 (the defect of
`po_align_size` at exact multiples of 4096, see C3): the duplicate has
reservation 12288, not 8192. -/
theorem po_duplicate_reservation_differs (d : po_s) :
    ∃ dup, po_has_storage (po_new_sized d 5000) ∧ po_size (po_new_sized d 5000) = 8192 ∧
      po_duplicate (po_new_sized d 5000) = .ok dup ∧ po_size dup = 12288 ∧
      po_size dup ≠ po_size (po_new_sized d 5000) := by
  have e1 : po_legal_size 5000 = 8192 := by decide
  have e2 : po_legal_size 8192 = 12288 := by decide
  have hmal : po_malloc (pm_unit2byte 8192) = some (List.replicate 8192 0) := by
    unfold po_malloc
    have : pm_unit2byte 8192 / po_unit_size = 8192 := by decide
    rw [this]
  have hnew : po_new_sized d 5000 = ⟨8192, 0, some (List.replicate 8192 0)⟩ := by
    rw [po_new_sized_eq d 5000 (by norm_num), e1, hmal]
  have hsize : po_size (⟨8192, 0, some (List.replicate 8192 0)⟩ : po_s) = 8192 :=
    po_size_of_even _ (by norm_num) (by norm_num)
  have hs : po_has_storage ⟨8192, 0, some (List.replicate 8192 0)⟩ := by
    unfold po_has_storage
    rw [hsize]
    unfold po_unit_size PO_MIN_SIZE
    simp only [Option.map_some', List.length_replicate]
    exact ⟨by norm_num, trivial, by norm_num, by norm_num, by norm_num⟩
  have hfit : po_page_fits ⟨8192, 0, some (List.replicate 8192 0)⟩ := by
    unfold po_page_fits po_unit_size
    rw [hsize]
    norm_num
  obtain ⟨dblk, hdup, _, _, _, hev, _, hb⟩ := po_duplicate_ok _ hs hfit
  rw [hsize, e2] at hdup hev hb
  rw [hnew]
  have hds : po_size (⟨12288, 0, some dblk⟩ : po_s) = 12288 :=
    po_size_of_even _ (by norm_num) (by norm_num)
  exact ⟨_, hs, hsize, hdup, hds, by rw [hds, hsize]; norm_num⟩

/-- C20: for every descriptor and every count, `po_drop` returns
`min(count, used)` and leaves `used` equal to old-used minus that value, which
is 0 when `count >= used`; the size word (reservation and local flag) and the
data block, so every element below the new `used`, are unchanged. -/
theorem po_drop_spec (po : po_s) (count : Nat) :
    (po_drop po count).1 = min count (po_used po) ∧
    po_used (po_drop po count).2 = po_used po - (po_drop po count).1 ∧
    (count ≥ po_used po → po_used (po_drop po count).2 = 0) ∧
    po_size (po_drop po count).2 = po_size po ∧
    po_get_local (po_drop po count).2 = po_get_local po ∧
    (po_drop po count).2.data = po.data ∧
    (∀ i, i < po_used (po_drop po count).2 →
      po_load (po_drop po count).2.data i = po_load po.data i) := by
  unfold po_used po_drop po_reset
  by_cases h : po.used ≥ count
  · rw [if_pos h]
    exact ⟨by dsimp only; omega, rfl, fun h2 => by dsimp only; omega, rfl, rfl, rfl,
      fun _ _ => rfl⟩
  · rw [if_neg h]
    exact ⟨by dsimp only; omega, by dsimp only; omega, fun _ => rfl, rfl, rfl, rfl,
      fun _ _ => rfl⟩

/-! ## Size word and byte allocator lemmas -/

theorem po_set_local_size (po : po_s) (v : Int) (hsz : po.size < 18446744073709551616) :
    (po_set_local po v).size = (if v ≠ 0 then po.size + (1 - po.size % 2)
      else po.size - po.size % 2) ∧
    (po_set_local po v).used = po.used ∧ (po_set_local po v).data = po.data := by
  unfold po_set_local po_lbms po_lbmc
  by_cases hv : v ≠ 0
  · rw [if_pos hv, if_pos hv]
    exact ⟨lor_one po.size, rfl, rfl⟩
  · rw [if_neg hv, if_neg hv]
    exact ⟨land_lbmc po.size hsz, rfl, rfl⟩

theorem po_units_eq (n : Nat) :
    (n >>> 3) + (if n &&& 0x07 ≠ 0 then 1 else 0) = (n + 7) / 8 := by
  have h7 : n &&& 0x07 = n % 8 := Nat.and_pow_two_sub_one_eq_mod n 3
  rw [h7, Nat.shiftRight_eq_div_pow]
  by_cases h : n % 8 ≠ 0
  · rw [if_pos h]; omega
  · rw [if_neg h]; omega

/-! ## Add, remove and append lemmas -/

theorem po_destroy_storage_fields (po : po_s) :
    (po_destroy_storage po).data = none ∧ po_size (po_destroy_storage po) = 0 ∧
      (po_destroy_storage po).used = po.used := by
  have hl : po_get_local { po with data := none } = ((po.size % 2 : Nat) : Int) :=
    po_get_local_eq _
  unfold po_destroy_storage po_set_size po_set_local
  rw [hl]
  have h01 : po.size % 2 = 0 ∨ po.size % 2 = 1 := by omega
  rcases h01 with h | h
  · rw [h]
    simp only [Nat.cast_zero, ne_eq, not_true_eq_false, if_false]
    unfold po_size pm_size
    dsimp only
    exact ⟨trivial, by decide, trivial⟩
  · rw [h]
    simp only [Nat.cast_one, ne_eq, one_ne_zero, not_false_eq_true, if_true]
    unfold po_size pm_size
    dsimp only
    exact ⟨trivial, by decide, trivial⟩

/-- The default container made by `po_new`. -/
theorem po_new_eq (po : po_s) : po_new po = ⟨16, 0, some (List.replicate 16 0)⟩ := by
  unfold po_new PO_DEFAULT_SIZE
  rw [po_new_sized_eq po 16 (by norm_num)]
  have e1 : po_legal_size 16 = 16 := by decide
  rw [e1]
  have e2 : po_malloc (pm_unit2byte 16) = some (List.replicate 16 0) := by decide
  rw [e2]

/-- Insertion at the position `used` with room: the store of `po_push`. -/
theorem po_insert_if_end (po : po_s) (item : Nat) (blk : List Nat)
    (hd : po.data = some blk) (hlen : blk.length = pm_size po)
    (hroom : po.used < pm_size po) (hsz : po.size < 18446744073709551616)
    (hb : po.used < 9223372036854775808) :
    po_insert_if po (po.used : Int) item =
      .ok (1, { size := po.size, used := po.used + 1, data := some (blk.set po.used item) }) := by
  have hps := pm_size_eq po hsz
  unfold po_insert_if
  have h1 : (po.used + 1) % 18446744073709551616 = po.used + 1 := by omega
  have h2 : ¬ po.used + 1 > pm_size po := by omega
  have h3 : to_i64 po.used = (po.used : Int) := to_i64_of_small _ hb
  have h4 : to_u64 (po.used : Int) = po.used := by
    rw [to_u64_of_nonneg _ (by omega) (by omega)]; simp
  simp only [h1, h2, if_false, h3, if_true, h4, Nat.lt_irrefl, gt_iff_lt, hd]
  rw [po_store_some _ _ _ (by omega)]

/-! ## Removal of the last element -/

/-- Remove from a container with storage: the last element is popped, and
when that empties the container its storage is destroyed. -/
theorem po_remove_ok (po : po_s) (hs : po_has_storage po) (hu : 0 < po.used) :
    ∃ ret q, po_remove po = .ok (ret, q) ∧ (po_items po)[po.used - 1]? = some ret ∧
      (po.used = 1 → q.data = none ∧ q.used = 0 ∧ po_size q = 0) ∧
      (1 < po.used → po_has_storage q ∧ q.used = po.used - 1 ∧ q.size = po.size) := by
  obtain ⟨blk, hd, _⟩ := po_has_storage_block hs
  obtain ⟨ret, q, hq, hret, hqu, hqs, hsq, _⟩ := po_pop_ok po hs hu
  have hne : po.data ≠ none := by rw [hd]; exact fun h => Option.noConfusion h
  by_cases h1 : po.used = 1
  · have hq0 : q.used = 0 := by omega
    obtain ⟨d1, d2, d3⟩ := po_destroy_storage_fields q
    refine ⟨ret, po_destroy_storage q, ?_, hret, fun _ => ⟨d1, by rw [d3, hq0], d2⟩,
      fun h => by omega⟩
    unfold po_remove
    simp only [hne, ne_eq, not_false_eq_true, if_true, hq, hq0]
  · have hq0 : ¬ q.used = 0 := by omega
    refine ⟨ret, q, ?_, hret, fun h => absurd h h1, fun _ => ⟨hsq, hqu, hqs⟩⟩
    unfold po_remove
    simp only [hne, ne_eq, not_false_eq_true, if_true, hq, hq0, if_false]

/-! ## Search lemmas -/

/-- The identity scan of `po_find` is the scan of `po_find_with` with the
comparison that answers 1 on identical pointers and 0 otherwise. -/
theorem po_find_loop_eq (po : po_s) (item : Nat) (n i : Nat) :
    po_find_loop po item n i =
      po_find_with_loop po (fun a b => if a = b then 1 else 0) item n i := by
  induction n generalizing i with
  | zero => rfl
  | succ n ih =>
    unfold po_find_loop po_find_with_loop
    cases po_load po.data i with
    | error e => rfl
    | ok x =>
      by_cases hx : x = item
      · simp only [hx, if_true, ne_eq, one_ne_zero, not_false_eq_true]
      · simp only [hx, if_false, ne_eq, not_true_eq_false]
        exact ih (i + 1)

/-- The scan finds nothing where no slot of its range matches. -/
theorem po_find_with_loop_none (po : po_s) (compare : Nat → Nat → Int) (ref : Nat)
    (blk : List Nat) (hd : po.data = some blk) (n i : Nat) (hlen : i + n ≤ blk.length)
    (hno : ∀ j v, i ≤ j → j < i + n → blk[j]? = some v → compare v ref = 0) :
    po_find_with_loop po compare ref n i = .ok PO_NOT_INDEX := by
  induction n generalizing i with
  | zero => rfl
  | succ n ih =>
    unfold po_find_with_loop
    have hi : i < blk.length := by omega
    rw [hd, po_load_some _ _ hi]
    have h0 := hno i blk[i] (Nat.le_refl _) (by omega) (List.getElem?_eq_getElem hi)
    simp only [h0, ne_eq, not_true_eq_false, if_false]
    exact ih (i + 1) (by omega) (fun j v h1 h2 => hno j v (by omega) (by omega))

/-- The scan returns the first slot of its range that matches. -/
theorem po_find_with_loop_first (po : po_s) (compare : Nat → Nat → Int) (ref : Nat)
    (blk : List Nat) (hd : po.data = some blk) (n i j : Nat) (v : Nat)
    (hlen : i + n ≤ blk.length) (hij : i ≤ j) (hjn : j < i + n)
    (hv : blk[j]? = some v) (hm : compare v ref ≠ 0)
    (hno : ∀ k w, i ≤ k → k < j → blk[k]? = some w → compare w ref = 0) :
    po_find_with_loop po compare ref n i = .ok (to_i64 j) := by
  induction n generalizing i with
  | zero => omega
  | succ n ih =>
    unfold po_find_with_loop
    have hi : i < blk.length := by omega
    rw [hd, po_load_some _ _ hi]
    by_cases hij2 : i = j
    · have e : blk[i]? = some v := by rw [hij2]; exact hv
      rw [List.getElem?_eq_getElem hi] at e
      rw [Option.some.inj e, hij2]
      simp only [hm, ne_eq, not_false_eq_true, if_true]
    · have h0 := hno i blk[i] (Nat.le_refl _) (by omega) (List.getElem?_eq_getElem hi)
      simp only [h0, ne_eq, not_true_eq_false, if_false]
      exact ih (i + 1) (by omega) (by omega) (by omega)
        (fun k w h1 h2 => hno k w (by omega) h2)

theorem po_items_getElem (po : po_s) (blk : List Nat) (hd : po.data = some blk) (j : Nat)
    (hj : j < po.used) : (po_items po)[j]? = blk[j]? := by
  unfold po_items po_block
  simp only [hd, Option.getD_some]
  rw [List.getElem?_take, if_pos hj]

/-- Search with a comparison in a container with storage. -/
theorem po_find_with_ok (po : po_s) (compare : Nat → Nat → Int) (ref : Nat)
    (hs : po_has_storage po) :
    (∀ j v, j < po.used → (po_items po)[j]? = some v → compare v ref ≠ 0 →
      (∀ k w, k < j → (po_items po)[k]? = some w → compare w ref = 0) →
      po_find_with po compare ref = .ok (j : Int)) ∧
    ((∀ j v, j < po.used → (po_items po)[j]? = some v → compare v ref = 0) →
      po_find_with po compare ref = .ok PO_NOT_INDEX) := by
  obtain ⟨blk, hd, hlen⟩ := po_has_storage_block hs
  obtain ⟨hsz, _, hbyte, hused, hmin⟩ := hs
  unfold po_unit_size at hbyte
  refine ⟨fun j v hj hv hm hno => ?_, fun hno => ?_⟩
  · unfold po_find_with
    rw [po_find_with_loop_first po compare ref blk hd po.used 0 j v (by omega) (by omega)
      (by omega) (by rw [← po_items_getElem po blk hd j hj]; exact hv) hm
      (fun k w _ hk hw => hno k w hk (by
        rw [po_items_getElem po blk hd k (by omega)]; exact hw))]
    rw [to_i64_of_small _ (by omega)]
  · unfold po_find_with
    exact po_find_with_loop_none po compare ref blk hd po.used 0 (by omega)
      (fun j v _ hj hv => hno j v (by omega) (by
        rw [po_items_getElem po blk hd j (by omega)]; exact hv))

/-! ## Invariant lemmas -/

theorem po_has_storage_used (po : po_s) (u : Nat) (hs : po_has_storage po)
    (hu : u ≤ po_size po) : po_has_storage { po with used := u } := by
  obtain ⟨hsz, hd, hbyte, _, hmin⟩ := hs
  exact ⟨hsz, hd, hbyte, hu, hmin⟩

theorem po_has_storage_data (po : po_s) (blk : List Nat) (hs : po_has_storage po)
    (hlen : blk.length = po_size po) : po_has_storage { po with data := some blk } := by
  obtain ⟨hsz, _, hbyte, hu, hmin⟩ := hs
  refine ⟨hsz, ?_, hbyte, hu, hmin⟩
  have : po_size { po with data := some blk } = po_size po := rfl
  rw [this]
  simp only [Option.map_some', hlen]

/-- A fresh block of an even, representable size under any `used` within it
makes a descriptor with storage. -/
theorem po_has_storage_fresh (n u : Nat) (blk : List Nat) (he : n % 2 = 0) (h2 : 2 ≤ n)
    (hb : 8 * n < 18446744073709551616) (hu : u ≤ n) (hlen : blk.length = n) :
    po_has_storage ⟨n, u, some blk⟩ ∧ po_size ⟨n, u, some blk⟩ = n ∧
      po_get_local ⟨n, u, some blk⟩ = 0 := by
  have hsize : po_size ⟨n, u, some blk⟩ = n := po_size_of_even _ (by simp only []; omega) he
  refine ⟨?_, hsize, ?_⟩
  · unfold po_has_storage
    rw [hsize]
    unfold po_unit_size PO_MIN_SIZE
    simp only [Option.map_some', hlen]
    exact ⟨by omega, trivial, by omega, by omega, by omega⟩
  · rw [po_get_local_eq]; simp only [he]; rfl

/-- Clear of a container with storage: `used` is 0 and every slot is `NULL`. -/
theorem po_clear_ok (po : po_s) (hs : po_has_storage po) :
    po_clear po = .ok ⟨po.size, 0, some (List.replicate (po_size po) 0)⟩ := by
  obtain ⟨blk, hd, hlen⟩ := po_has_storage_block hs
  obtain ⟨hsz, _, hbyte, _, _⟩ := hs
  unfold po_unit_size at hbyte
  have hb : ∀ q : po_s, q.size = po.size → po_byte_size q / po_unit_size = po_size po := by
    intro q hq
    unfold po_byte_size po_unit_size
    have : pm_size q = po_size po := by unfold po_size pm_size; rw [hq]
    rw [this]; omega
  have hb1 := hb ⟨po.size, 0, some blk⟩ rfl
  unfold po_clear po_memset0
  simp only [hd, hb1, Nat.zero_add]
  rw [if_pos (by omega)]
  simp only [List.take_zero, List.nil_append]
  rw [List.drop_eq_nil_of_le (by omega), List.append_nil]

/-- Resize of a container with storage to a representable size that is not
below `used`: the outcome does not depend on what `realloc` leaves in fresh
memory, the reservation is the legalized size, `used` stays, the result is
heap-owned with storage, and on growth the slots from the old reservation on
are `NULL`. -/
theorem po_resize_ok (po : po_s) (new_size : Nat) (hs : po_has_storage po)
    (hb : 8 * (new_size + 4097) < 18446744073709551616)
    (hge : po_legal_size new_size ≥ po.used) :
    ∃ p, (∀ junk, po_resize junk po new_size = .ok p) ∧ po_has_storage p ∧
      po_size p = po_legal_size new_size ∧ p.used = po.used ∧ po_get_local p = 0 ∧
      (po_size po < po_legal_size new_size →
        ∀ i, po_size po ≤ i → i < po_legal_size new_size → po_load p.data i = .ok NULL) := by
  obtain ⟨blk, hd, hlen⟩ := po_has_storage_block hs
  obtain ⟨hsz, _, hbyte, hused, hmin⟩ := hs
  unfold po_unit_size at hbyte
  unfold PO_MIN_SIZE at hmin
  unfold po_size at hlen hbyte hused hmin
  obtain ⟨lev, lmin, lge, _, lle⟩ := po_legal_size_bounds new_size (by omega)
  unfold PO_MIN_SIZE at lmin
  have hpm : po_size po = pm_size po := rfl
  rw [hpm]
  generalize hL : po_legal_size new_size = L at hge lev lmin lge lle
  have hres : ∀ junk, po_resize junk po new_size = po_resize_to junk po L := by
    intro junk
    unfold po_resize
    simp only [hL, hge, ge_iff_le, if_true]
  by_cases hloc : po_local po = 0
  · by_cases hgt : pm_size po < L
    · obtain ⟨f1, f2, f3⟩ := po_has_storage_fresh L po.used
        (blk ++ List.replicate (L - pm_size po) 0) lev lmin (by omega) hge
        (by simp only [List.length_append, List.length_replicate]; omega)
      refine ⟨_, fun junk => by
        rw [hres junk, po_resize_to_heap_grow junk po L blk hd hlen hloc hgt (by omega) lev],
        f1, f2, rfl, f3, fun _ i hi1 hi2 => ?_⟩
      rw [po_load_some _ _ (by
        simp only [List.length_append, List.length_replicate]; omega)]
      rw [List.getElem_append_right (by omega)]
      simp
    · obtain ⟨f1, f2, f3⟩ := po_has_storage_fresh L po.used (blk.take L) lev lmin (by omega) hge
        (by rw [List.length_take]; omega)
      exact ⟨_, fun junk => by
        rw [hres junk, po_resize_to_heap_shrink junk po L blk hd hlen hloc (by omega) lev
          (by omega)],
        f1, f2, rfl, f3, fun h => absurd h hgt⟩
  · obtain ⟨f1, f2, f3⟩ := po_has_storage_fresh L po.used (List.replicate L 0) lev lmin
      (by omega) hge (by simp)
    refine ⟨_, fun junk => by
      rw [hres junk, po_resize_to_local junk po L hloc (by omega) lev],
      f1, f2, rfl, f3, fun _ i hi1 hi2 => ?_⟩
    rw [po_load_some _ _ (by simp only [List.length_replicate]; omega)]
    simp

/-- Swap at a valid position of a non-empty container with storage: the
sizes stay, the block keeps its length. -/
theorem po_swap_ok (po : po_s) (pos : Int) (item : Nat) (hs : po_has_storage po)
    (h1 : -(po.used : Int) ≤ pos) (h2 : pos < po.used) :
    ∃ ret q, po_swap po pos item = .ok (ret, q) ∧ po_has_storage q ∧ q.used = po.used ∧
      q.size = po.size := by
  obtain ⟨blk, hd, hlen⟩ := po_has_storage_block hs
  have hs' := hs
  obtain ⟨hsz, _, hbyte, hused, hmin⟩ := hs
  unfold po_unit_size at hbyte
  obtain ⟨hn1, hn2⟩ := po_norm_idx_in_range po pos (by omega) h1 h2
  have hne : ¬ po.data = none := by rw [hd]; exact fun h => Option.noConfusion h
  have hu : ¬ po.used = 0 := by omega
  unfold po_swap
  simp only [hne, hu, if_false, hn1, hd]
  rw [po_load_some _ _ (by omega), po_store_some _ _ _ (by omega)]
  refine ⟨_, _, rfl, ?_, rfl, rfl⟩
  have := po_has_storage_data po (blk.set (normalize po.used pos) item) hs'
    (by rw [List.length_set]; exact hlen)
  exact this

/-- Deletion of the sole element of a container with storage. -/
theorem po_delete_at_one (po : po_s) (pos : Int) (hs : po_has_storage po)
    (h1 : po.used = 1) :
    ∃ q, po_delete_at po pos = .ok (NULL, q) ∧ po_has_storage q ∧ q.used = 0 ∧
      q.size = po.size := by
  obtain ⟨blk, hd, hlen⟩ := po_has_storage_block hs
  have hs' := hs
  obtain ⟨hsz, _, hbyte, hused, hmin⟩ := hs
  unfold PO_MIN_SIZE at hmin
  have hpos : 0 < blk.length := by omega
  refine ⟨{ size := po.size, used := 0, data := some (blk.set 0 NULL) }, ?_, ?_, rfl, rfl⟩
  · unfold po_delete_at po_first
    simp only [h1, one_ne_zero, if_false, if_true, hd]
    rw [po_load_some _ _ hpos]
    simp only []
    rw [po_store_some _ _ _ hpos]
  · have a := po_has_storage_data po (blk.set 0 NULL) hs' (by rw [List.length_set]; exact hlen)
    exact po_has_storage_used _ 0 a (Nat.zero_le _)

/-- Remove on a container with storage always ends normally, and leaves a
descriptor with storage or one without storage, `used` and reservation 0. -/
theorem po_remove_total (po : po_s) (hs : po_has_storage po) :
    ∃ ret q, po_remove po = .ok (ret, q) ∧ po_invariant q := by
  by_cases hu : 0 < po.used
  · obtain ⟨ret, q, hq, _, hone, hmany⟩ := po_remove_ok po hs hu
    refine ⟨ret, q, hq, ?_⟩
    by_cases h1 : po.used = 1
    · exact Or.inr (hone h1)
    · exact Or.inl (hmany (by omega)).1
  · obtain ⟨blk, hd, _⟩ := po_has_storage_block hs
    have hne : po.data ≠ none := by rw [hd]; exact fun h => Option.noConfusion h
    have h0 : po.used = 0 := by omega
    obtain ⟨d1, d2, d3⟩ := po_destroy_storage_fields po
    refine ⟨NULL, po_destroy_storage po, ?_, Or.inr ⟨d1, by unfold po_used; rw [d3, h0], d2⟩⟩
    unfold po_remove po_pop
    simp only [hne, ne_eq, not_false_eq_true, if_true, h0, gt_iff_lt, Nat.lt_irrefl, if_false]

/-! ## Tail lemmas -/

/-- After the growth step of a full container every slot from `used` on is
`NULL`. -/
theorem po_grow_tail (junk : Nat → Nat) (po p1 : po_s) (hs : po_has_storage po)
    (hfull : po.used = po_size po) (hfit : po_grow_fits po)
    (hr : po_resize_to junk po (po_incr_size po) = .ok p1) (i : Nat) (hi1 : po.used ≤ i)
    (hi2 : i < po_incr_size po) : po_load p1.data i = .ok NULL := by
  obtain ⟨blk, hd, hlen⟩ := po_has_storage_block hs
  obtain ⟨hsz, _, hbyte, hused, hmin⟩ := hs
  unfold po_grow_fits po_unit_size at hfit
  unfold PO_MIN_SIZE at hmin
  unfold po_size at *
  obtain ⟨b1, b2, _, _, b5⟩ := po_incr_size_bounds po hsz hfit
  by_cases hloc : po_local po = 0
  · rw [po_resize_to_heap_grow junk po _ blk hd hlen hloc (by omega) (by omega) b5] at hr
    rw [← Except.ok.inj hr]
    rw [po_load_some _ _ (by simp only [List.length_append, List.length_replicate]; omega)]
    rw [List.getElem_append_right (by omega)]
    simp
  · rw [po_resize_to_local junk po _ hloc (by omega) b5] at hr
    rw [← Except.ok.inj hr]
    rw [po_load_some _ _ (by simp only [List.length_replicate]; omega)]
    simp

theorem insert_tail (blk : List Nat) (n u item i : Nat) (hn : n ≤ u) (hu : u < blk.length)
    (hi : u + 1 ≤ i) :
    ((List.take (n + 1) blk ++ List.take (u - n) (List.drop n blk)
        ++ List.drop (n + 1 + (u - n)) blk).set n item)[i]? = blk[i]? := by
  simp only [List.getElem?_take, List.getElem?_set, List.getElem?_append, List.getElem?_drop,
    List.length_take, List.length_append, List.length_drop, List.getElem?_cons, List.length_set]
  have e1 : min (n + 1) blk.length = n + 1 := by omega
  have e3 : min (u - n) (blk.length - n) = u - n := by omega
  simp only [e1, e3]
  split_ifs <;> first | rfl | omega | (congr 1; omega)

/-- Insertion with room at a valid position leaves the slots beyond the new
`used` as they were. -/
theorem po_insert_if_tail (po q : po_s) (pos : Int) (item : Nat) (flag : Int)
    (hs : po_has_storage po) (hroom : po.used < po_size po)
    (h1 : -(po.used : Int) ≤ pos) (h2 : pos ≤ po.used)
    (hq : po_insert_if po pos item = .ok (flag, q)) (i : Nat) (hi : po.used + 1 ≤ i) :
    po_load q.data i = po_load po.data i := by
  obtain ⟨blk, hd, hlen⟩ := po_has_storage_block hs
  obtain ⟨hsz, _, hbyte, hused, hmin⟩ := hs
  unfold po_unit_size at hbyte
  unfold po_size at *
  have hnorm : (if pos = to_i64 po.used then Except.ok (to_u64 pos) else po_norm_idx po pos)
      = .ok (normalize po.used pos) ∧ normalize po.used pos ≤ po.used := by
    rw [to_i64_of_small _ (by omega)]
    by_cases hp : pos = (po.used : Int)
    · rw [if_pos hp, to_u64_of_nonneg pos (by omega) (by omega)]
      unfold normalize
      rw [if_pos (by omega)]
      exact ⟨rfl, by omega⟩
    · rw [if_neg hp]
      obtain ⟨e, l⟩ := po_norm_idx_in_range po pos (by omega) h1 (by omega)
      exact ⟨e, by omega⟩
  obtain ⟨hn1, hn2⟩ := hnorm
  unfold po_insert_if at hq
  have hnu : (po.used + 1) % 18446744073709551616 = po.used + 1 := by omega
  have hng : ¬ po.used + 1 > pm_size po := by omega
  simp only [hnu, hng, if_false, hn1] at hq
  by_cases hlt : normalize po.used pos < po.used
  · simp only [hlt, if_true, hd] at hq
    have hb : (po.used - normalize po.used pos) * po_unit_size % 18446744073709551616
        / po_unit_size = po.used - normalize po.used pos := by
      unfold po_unit_size; omega
    unfold po_memmove at hq
    simp only [hb] at hq
    rw [if_pos (by constructor <;> omega)] at hq
    simp only [] at hq
    rw [po_store_some _ _ _ (by
      simp only [List.length_append, List.length_take, List.length_drop]; omega)] at hq
    simp only [] at hq
    have e := (Prod.mk.inj (Except.ok.inj hq)).2
    rw [← e, hd]
    unfold po_load
    simp only [insert_tail blk (normalize po.used pos) po.used item i (by omega) (by omega) hi]
  · have heq : normalize po.used pos = po.used := by omega
    have hgt : ¬ normalize po.used pos > po.used := by omega
    simp only [hlt, hgt, if_false, hd] at hq
    rw [po_store_some _ _ _ (by omega)] at hq
    simp only [] at hq
    have e := (Prod.mk.inj (Except.ok.inj hq)).2
    rw [← e, hd]
    exact po_load_set_ne blk _ i item (by omega)

/-- Push into a full container with storage, in full: the grown descriptor of
the growth step with the item stored at offset old-used. -/
theorem po_push_full_form (po : po_s) (item : Nat) (hs : po_has_storage po)
    (hfull : po.used = po_size po) (hfit : po_grow_fits po) :
    ∃ p1 blk1, (∀ junk, po_resize_to junk po (po_incr_size po) = .ok p1) ∧
      p1.data = some blk1 ∧ po_size p1 = po_incr_size po ∧ po_size po < po_incr_size po ∧
      ∀ junk, po_push junk po item =
        .ok ⟨p1.size, po.used + 1, some (blk1.set po.used item)⟩ := by
  obtain ⟨p1, hr, hsize1, hused1, hs1, hps1, _, _⟩ := po_grow_step po hs hfull hfit
  obtain ⟨blk1, hd1, hlen1⟩ := po_has_storage_block hs1
  obtain ⟨hsz, _, hbyte, hused, hmin⟩ := hs
  unfold po_unit_size at hbyte
  unfold po_grow_fits po_unit_size at hfit
  unfold PO_MIN_SIZE at hmin
  unfold po_size at *
  obtain ⟨b1, b2, _, _, b5⟩ := po_incr_size_bounds po hsz hfit
  have hnu : (po.used + 1) % 18446744073709551616 = po.used + 1 := by omega
  have hgt : po.used + 1 > pm_size po := by omega
  refine ⟨p1, blk1, hr, hd1, hps1, by omega, fun junk => ?_⟩
  unfold po_push
  simp only [hnu, hgt, if_true, hr junk, hd1, hused1]
  rw [po_store_some _ _ _ (by omega)]

/-! ## Claims C21 to C24 -/

/-- C21: for every descriptor without storage, `po_add` creates heap-owned
storage of reservation `PO_DEFAULT_SIZE` holding exactly the item
(`used == 1`); for every container with storage holding exactly one element,
`po_remove` returns that element and leaves `data == NULL` and
`reservation == 0`; hence `po_add` followed by `po_remove` on a storage-less
descriptor returns the item and leaves the descriptor storage-less with
`used == 0`; and `po_remove` on a storage-less descriptor returns `NULL` and
changes nothing. -/
theorem po_add_remove_spec (junk : Nat → Nat) (po c : po_s) (item : Nat)
    (hd : po.data = none) :
    (∃ p, po_add junk po item = .ok p ∧ po_has_storage p ∧ po_get_local p = 0 ∧
      po_size p = PO_DEFAULT_SIZE ∧ po_used p = 1 ∧ po_items p = [item]) ∧
    (po_has_storage c → po_used c = 1 →
      ∃ v q, po_load c.data 0 = .ok v ∧ po_remove c = .ok (v, q) ∧ q.data = none ∧
        po_size q = 0) ∧
    (∃ p q, po_add junk po item = .ok p ∧ po_remove p = .ok (item, q) ∧ q.data = none ∧
      po_used q = 0 ∧ po_size q = 0) ∧
    po_remove po = .ok (NULL, po) := by
  have hone : ∀ c : po_s, po_has_storage c → c.used = 1 →
      ∃ v q, po_load c.data 0 = .ok v ∧ po_remove c = .ok (v, q) ∧ q.data = none ∧
        q.used = 0 ∧ po_size q = 0 ∧ (po_items c)[0]? = some v := by
    intro c hc h1
    obtain ⟨v, hv1, hv2⟩ := po_load_items c hc 0 (by omega)
    obtain ⟨ret, q, hq, hret, hdone, _⟩ := po_remove_ok c hc (by omega)
    have e : c.used - 1 = 0 := by omega
    rw [e, hv1] at hret
    obtain ⟨a1, a2, a3⟩ := hdone h1
    exact ⟨v, q, hv2, by rw [hq, Option.some.inj hret], a1, a2, a3, hv1⟩
  have hadd : ∃ p, po_add junk po item = .ok p ∧ po_has_storage p ∧ po_get_local p = 0 ∧
      po_size p = PO_DEFAULT_SIZE ∧ po_used p = 1 ∧ po_items p = [item] := by
    have hs0 : po_has_storage ⟨16, 0, some (List.replicate 16 0)⟩ := by decide
    obtain ⟨p, hp, hsp, hu, hroom, _, hit⟩ :=
      po_push_step ⟨16, 0, some (List.replicate 16 0)⟩ item hs0 (by decide)
    have hsize : p.size = 16 := hroom (by decide)
    refine ⟨p, ?_, hsp, ?_, ?_, hu, ?_⟩
    · unfold po_add
      simp only [hd, if_true, po_new_eq]
      exact hp junk
    · rw [po_get_local_eq, hsize]; rfl
    · unfold po_size pm_size PO_DEFAULT_SIZE; rw [hsize]; decide
    · rw [hit (Or.inl (by decide))]; rfl
  refine ⟨hadd, fun hc h1 => ?_, ?_, ?_⟩
  · obtain ⟨v, q, a, b, c1, _, c3, _⟩ := hone c hc h1
    exact ⟨v, q, a, b, c1, c3⟩
  · obtain ⟨p, hp, hsp, _, _, hu, hit⟩ := hadd
    obtain ⟨v, q, _, b, c1, c2, c3, hv⟩ := hone p hsp hu
    rw [hit] at hv
    have : v = item := (Option.some.inj hv).symm
    rw [this] at b
    exact ⟨p, q, hp, b, c1, c2, c3⟩
  · unfold po_remove
    simp only [hd, ne_eq, not_true_eq_false, if_false]

/-- Witness for C21: add then remove on the blank descriptor. -/
theorem po_add_remove_spec_witness :
    po_s.data ⟨0, 0, none⟩ = none ∧
    po_remove ⟨0, 0, none⟩ = .ok (NULL, ⟨0, 0, none⟩) :=
  ⟨rfl, (po_add_remove_spec (fun _ => 9) ⟨0, 0, none⟩ ⟨2, 1, some [5, 0]⟩ 7 rfl).2.2.2⟩

/-- C22, as stated, fails for `po_resize`.  The allocator result is stored
unchecked: when the request for `2 ^ 59` slots is refused, a heap-owned
container of two slots is resized through `NULL` and the run ends in a fault,
and a local one is left with `data == NULL` while `used` is 1.  The legalized
size can also wrap: on an empty local container the request `2 ^ 64 - 4096` is
legalized to 0, 0 is not below `used`, and a met request leaves reservation 0
over a non-null block of no slots. -/
theorem po_resize_breaks_invariant :
    po_has_storage ⟨2, 1, some [11, 0]⟩ ∧
    po_resize_fallible ⟨fun n => decide (n < 140737488355328), fun _ => true, fun _ => 0⟩
      ⟨2, 1, some [11, 0]⟩ 576460752303423488 = .error .null_deref ∧
    po_use ⟨0, 0, none⟩ [5, 5] 2 = .ok ⟨3, 0, some [0, 0]⟩ ∧
    po_push_fallible ⟨fun n => decide (n < 140737488355328), fun _ => true, fun _ => 0⟩
      ⟨3, 0, some [0, 0]⟩ 11 = .ok ⟨3, 1, some [11, 0]⟩ ∧
    po_has_storage ⟨3, 1, some [11, 0]⟩ ∧
    po_resize_fallible ⟨fun n => decide (n < 140737488355328), fun _ => true, fun _ => 0⟩
      ⟨3, 1, some [11, 0]⟩ 576460752303423488 = .ok ⟨576460752303427584, 1, none⟩ ∧
    ¬ po_invariant ⟨576460752303427584, 1, none⟩ ∧
    po_has_storage ⟨3, 0, some [0, 0]⟩ ∧
    po_legal_size 18446744073709547520 = 0 ∧
    po_resize_fallible ⟨fun _ => true, fun _ => true, fun _ => 0⟩
      ⟨3, 0, some [0, 0]⟩ 18446744073709547520 = .ok ⟨0, 0, some []⟩ ∧
    ¬ (PO_MIN_SIZE ≤ po_size ⟨0, 0, some []⟩) ∧
    ¬ (po_s.data ⟨0, 0, some []⟩ = none) ∧
    ¬ po_invariant ⟨0, 0, some []⟩ := by
  decide

/-- C22, amended: starting from any container with storage, each of
`po_push`, `po_pop`, `po_drop`, `po_add`, `po_remove`, `po_insert_at`,
`po_insert_if`, `po_delete_at`, `po_swap`, `po_resize`, `po_reset` and
`po_clear` ends normally and yields a descriptor that either again has storage,
so `used <= reservation` with an even reservation of at least `PO_MIN_SIZE`, or
has no storage with `used == 0` and `reservation == 0`, provided that a
position is valid where one is taken, that the allocator meets the request of a
growth step and of a `po_resize` that acts, and that for `po_resize` the byte
size of the legalized request is representable in 64 bits. -/
theorem po_invariant_preserved (al : po_allocator) (po : po_s) (item : Nat) (ipos dpos : Int)
    (count new_size : Nat) (hs : po_has_storage po)
    (hfit : po_used po = po_size po → po_grow_fits po)
    (hgrow : po_used po = po_size po → al.meets (pm_unit2byte (po_incr_size po)) = true)
    (hi : -(po_used po : Int) ≤ ipos ∧ ipos ≤ po_used po)
    (hdp : 0 < po_used po → -(po_used po : Int) ≤ dpos ∧ dpos < po_used po)
    (hr : po_unit_size * (new_size + 4097) < 18446744073709551616)
    (hres : po_used po ≤ po_legal_size new_size →
      al.meets (pm_unit2byte (po_legal_size new_size)) = true) :
    (∃ p, po_push_fallible al po item = .ok p ∧ po_invariant p) ∧
    (∃ r p, po_pop po = .ok (r, p) ∧ po_invariant p) ∧
    po_invariant (po_drop po count).2 ∧
    (∃ p, po_add_fallible al po item = .ok p ∧ po_invariant p) ∧
    (∃ r p, po_remove po = .ok (r, p) ∧ po_invariant p) ∧
    (∃ p, po_insert_at_fallible al po ipos item = .ok p ∧ po_invariant p) ∧
    (∃ f p, po_insert_if po ipos item = .ok (f, p) ∧ po_invariant p) ∧
    (∃ r p, po_delete_at po dpos = .ok (r, p) ∧ po_invariant p) ∧
    (∃ r p, po_swap po dpos item = .ok (r, p) ∧ po_invariant p) ∧
    (∃ p, po_resize_fallible al po new_size = .ok p ∧ po_invariant p) ∧
    po_invariant (po_reset po) ∧
    (∃ p, po_clear po = .ok p ∧ po_invariant p) ∧
    (∀ q, po_invariant q →
      (q.data ≠ none ∧ po_used q ≤ po_size q ∧ po_size q % 2 = 0 ∧ PO_MIN_SIZE ≤ po_size q) ∨
      (q.data = none ∧ po_used q = 0 ∧ po_size q = 0)) := by
  unfold po_used at hfit hgrow hi hdp hres
  unfold po_unit_size at hr
  obtain ⟨blk, hd, hlen⟩ := po_has_storage_block hs
  have hne : ¬ po.data = none := by rw [hd]; exact fun h => Option.noConfusion h
  have hused : po.used ≤ po_size po := hs.2.2.2.1
  have hmeet : (po.used + 1) % 18446744073709551616 > pm_size po →
      al.meets (pm_unit2byte (po_incr_size po)) = true :=
    fun h => hgrow ((po_growth_test po hs).1 h)
  have hpush : ∃ p, po_push_fallible al po item = .ok p ∧ po_invariant p := by
    obtain ⟨p, hp, hsp, _⟩ := po_push_step po item hs hfit
    exact ⟨p, by rw [po_push_fallible_met al po item hmeet]; exact hp al.junk, Or.inl hsp⟩
  refine ⟨hpush, ?_, ?_, ?_, ?_, ?_, ?_, ?_, ?_, ?_, ?_, ?_, ?_⟩
  · by_cases hu : 0 < po.used
    · obtain ⟨r, q, hq, _, _, _, hsq, _⟩ := po_pop_ok po hs hu
      exact ⟨r, q, hq, Or.inl hsq⟩
    · refine ⟨NULL, po, ?_, Or.inl hs⟩
      unfold po_pop
      simp only [hu, gt_iff_lt, if_false]
  · unfold po_drop po_reset
    by_cases h : po.used ≥ count
    · rw [if_pos h]
      exact Or.inl (po_has_storage_used po _ hs (by omega))
    · rw [if_neg h]
      exact Or.inl (po_has_storage_used po 0 hs (Nat.zero_le _))
  · unfold po_add_fallible
    simp only [hne, if_false]
    exact hpush
  · exact po_remove_total po hs
  · obtain ⟨p, hp, hsp, _⟩ := po_insert_at_step al.junk po ipos item hs hfit hi.1 hi.2
    exact ⟨p, by rw [po_insert_at_fallible_met al po ipos item hmeet]; exact hp, Or.inl hsp⟩
  · by_cases hroom : po.used < po_size po
    · obtain ⟨p, hp, _, _, hsp, _⟩ := po_insert_if_room po ipos item hs hroom hi.1 hi.2
      exact ⟨1, p, hp, Or.inl hsp⟩
    · refine ⟨0, po, ?_, Or.inl hs⟩
      have hbyte := hs.2.2.1
      unfold po_unit_size at hbyte
      unfold po_size at hroom hused hbyte
      unfold po_insert_if
      have hnu : (po.used + 1) % 18446744073709551616 = po.used + 1 := by omega
      have hgt : po.used + 1 > pm_size po := by omega
      simp only [hnu, hgt, if_true]
  · by_cases h0 : po.used = 0
    · refine ⟨NULL, po, ?_, Or.inl hs⟩
      unfold po_delete_at
      simp only [h0, if_true]
    · by_cases h1 : po.used = 1
      · obtain ⟨q, hq, hsq, _⟩ := po_delete_at_one po dpos hs h1
        exact ⟨NULL, q, hq, Or.inl hsq⟩
      · obtain ⟨a, b⟩ := hdp (by omega)
        obtain ⟨r, q, hq, _, _, _, hsq, _⟩ := po_delete_at_many po dpos hs (by omega) a b
        exact ⟨r, q, hq, Or.inl hsq⟩
  · by_cases h0 : po.used = 0
    · refine ⟨NULL, po, ?_, Or.inl hs⟩
      unfold po_swap
      simp only [hne, h0, if_true, if_false]
    · obtain ⟨a, b⟩ := hdp (by omega)
      obtain ⟨r, q, hq, hsq, _⟩ := po_swap_ok po dpos item hs a b
      exact ⟨r, q, hq, Or.inl hsq⟩
  · rw [po_resize_fallible_met al po new_size hres]
    by_cases hge : po_legal_size new_size ≥ po.used
    · obtain ⟨p, hp, hsp, _⟩ := po_resize_ok po new_size hs hr hge
      exact ⟨p, hp al.junk, Or.inl hsp⟩
    · exact ⟨po, po_resize_ignored al.junk po new_size (by omega), Or.inl hs⟩
  · unfold po_reset
    exact Or.inl (po_has_storage_used po 0 hs (Nat.zero_le _))
  · refine ⟨_, po_clear_ok po hs, Or.inl ?_⟩
    have a := po_has_storage_data po (List.replicate (po_size po) 0) hs (by simp)
    exact po_has_storage_used _ 0 a (Nat.zero_le _)
  · intro q hq
    rcases hq with h | h
    · obtain ⟨b, hb, _⟩ := po_has_storage_block h
      refine Or.inl ⟨by rw [hb]; exact fun e => Option.noConfusion e, h.2.2.2.1,
        po_size_even q h.1, h.2.2.2.2⟩
    · exact Or.inr h

/-- Witness for C22 (amended): a full heap-owned container of two slots, whose
push grows the reservation, with an allocator that meets requests below
`2 ^ 47` bytes. -/
theorem po_invariant_preserved_witness :
    po_has_storage ⟨2, 2, some [5, 6]⟩ ∧
    (po_used ⟨2, 2, some [5, 6]⟩ = po_size ⟨2, 2, some [5, 6]⟩ →
      po_grow_fits ⟨2, 2, some [5, 6]⟩) ∧
    (po_used ⟨2, 2, some [5, 6]⟩ = po_size ⟨2, 2, some [5, 6]⟩ →
      decide (pm_unit2byte (po_incr_size ⟨2, 2, some [5, 6]⟩) < 140737488355328) = true) ∧
    (-(po_used ⟨2, 2, some [5, 6]⟩ : Int) ≤ 1 ∧ (1 : Int) ≤ po_used ⟨2, 2, some [5, 6]⟩) ∧
    (0 < po_used ⟨2, 2, some [5, 6]⟩ →
      -(po_used ⟨2, 2, some [5, 6]⟩ : Int) ≤ -1 ∧ (-1 : Int) < po_used ⟨2, 2, some [5, 6]⟩) ∧
    po_unit_size * (8 + 4097) < 18446744073709551616 ∧
    (po_used ⟨2, 2, some [5, 6]⟩ ≤ po_legal_size 8 →
      decide (pm_unit2byte (po_legal_size 8) < 140737488355328) = true) ∧
    (∃ p, po_push_fallible ⟨fun n => decide (n < 140737488355328), fun _ => true, fun _ => 9⟩
        ⟨2, 2, some [5, 6]⟩ 7 = .ok p ∧ po_invariant p) ∧
    (∃ p, po_resize_fallible ⟨fun n => decide (n < 140737488355328), fun _ => true, fun _ => 9⟩
        ⟨2, 2, some [5, 6]⟩ 8 = .ok p ∧ po_invariant p) :=
  ⟨by decide, by decide, by decide, by decide, by decide, by decide, by decide,
    (po_invariant_preserved ⟨fun n => decide (n < 140737488355328), fun _ => true, fun _ => 9⟩
      ⟨2, 2, some [5, 6]⟩ 7 1 (-1) 1 8 (by decide) (by decide) (by decide) (by decide)
      (by decide) (by decide) (by decide)).1,
    (po_invariant_preserved ⟨fun n => decide (n < 140737488355328), fun _ => true, fun _ => 9⟩
      ⟨2, 2, some [5, 6]⟩ 7 1 (-1) 1 8 (by decide) (by decide) (by decide) (by decide)
      (by decide) (by decide) (by decide)).2.2.2.2.2.2.2.2.2.1⟩

/-- C23, as stated, fails for `po_resize`: from `po_new_sized` with two slots,
two pushes and a pop leave the popped item in slot 1; growing the reservation
to four slots zero-fills only the new slots 2 and 3, so slot 1, an index in
`[used, reservation)`, still holds 22 right after the growth.  Every request is
met here. -/
theorem po_resize_growth_keeps_stale_slot :
    po_new_sized_fallible ⟨fun n => decide (n < 140737488355328), fun _ => true, fun _ => 0⟩
      ⟨0, 0, none⟩ 2 = ⟨2, 0, some [0, 0]⟩ ∧
    po_push_fallible ⟨fun n => decide (n < 140737488355328), fun _ => true, fun _ => 0⟩
      ⟨2, 0, some [0, 0]⟩ 11 = .ok ⟨2, 1, some [11, 0]⟩ ∧
    po_push_fallible ⟨fun n => decide (n < 140737488355328), fun _ => true, fun _ => 0⟩
      ⟨2, 1, some [11, 0]⟩ 22 = .ok ⟨2, 2, some [11, 22]⟩ ∧
    po_pop ⟨2, 2, some [11, 22]⟩ = .ok (22, ⟨2, 1, some [11, 22]⟩) ∧
    po_resize_fallible ⟨fun n => decide (n < 140737488355328), fun _ => true, fun _ => 0⟩
      ⟨2, 1, some [11, 22]⟩ 4 = .ok ⟨4, 1, some [11, 22, 0, 0]⟩ ∧
    po_size ⟨2, 1, some [11, 22]⟩ < po_size ⟨4, 1, some [11, 22, 0, 0]⟩ ∧
    po_used ⟨4, 1, some [11, 22, 0, 0]⟩ ≤ 1 ∧ 1 < po_size ⟨4, 1, some [11, 22, 0, 0]⟩ ∧
    po_load (po_s.data ⟨4, 1, some [11, 22, 0, 0]⟩) 1 = .ok 22 ∧ 22 ≠ NULL := by
  decide

/-- C23, amended: for every container with storage, when the allocator meets
the request: right after a `po_push` or `po_insert_at` that triggers growth,
and right after `po_clear`, every slot at an index in `[used, reservation)` is
NULL; right after a `po_resize` to a larger reservation (the byte size of the
legalized request representable in 64 bits) `used` is unchanged and every slot
at an index in `[old reservation, new reservation)` is NULL, while below the old
reservation a heap-owned container keeps in every slot what it held and a local
container has NULL in every slot. -/
theorem po_growth_and_clear_tail (al : po_allocator) (po : po_s) (item : Nat) (pos : Int)
    (new_size : Nat) (hs : po_has_storage po) :
    (po_used po = po_size po → po_grow_fits po →
      al.meets (pm_unit2byte (po_incr_size po)) = true →
      ∃ p, po_push_fallible al po item = .ok p ∧ po_size po < po_size p ∧
        ∀ i, po_used p ≤ i → i < po_size p → po_load p.data i = .ok NULL) ∧
    (po_used po = po_size po → po_grow_fits po →
      al.meets (pm_unit2byte (po_incr_size po)) = true →
      -(po_used po : Int) ≤ pos → pos ≤ po_used po →
      ∃ p, po_insert_at_fallible al po pos item = .ok p ∧ po_size po < po_size p ∧
        ∀ i, po_used p ≤ i → i < po_size p → po_load p.data i = .ok NULL) ∧
    (∃ p, po_clear po = .ok p ∧ po_size p = po_size po ∧ po_used p = 0 ∧
      ∀ i, po_used p ≤ i → i < po_size p → po_load p.data i = .ok NULL) ∧
    (po_unit_size * (new_size + 4097) < 18446744073709551616 →
      po_size po < po_legal_size new_size →
      al.meets (pm_unit2byte (po_legal_size new_size)) = true →
      ∃ p, po_resize_fallible al po new_size = .ok p ∧ po_size p = po_legal_size new_size ∧
        po_used p = po_used po ∧
        (∀ i, po_size po ≤ i → i < po_size p → po_load p.data i = .ok NULL) ∧
        (po_get_local po = 0 → ∀ i, i < po_size po → po_load p.data i = po_load po.data i) ∧
        (po_get_local po ≠ 0 → ∀ i, i < po_size po → po_load p.data i = .ok NULL)) := by
  unfold po_used
  refine ⟨?_, ?_, ?_, ?_⟩
  · intro hfull hfit hmeet
    obtain ⟨p1, blk1, hr, hd1, hps1, hlt, hp⟩ := po_push_full_form po item hs hfull hfit
    have hsz : po_size (⟨p1.size, po.used + 1, some (blk1.set po.used item)⟩ : po_s)
        = po_incr_size po := by rw [← hps1]; rfl
    refine ⟨_, by rw [po_push_fallible_met al po item (fun _ => hmeet)]; exact hp al.junk,
      by rw [hsz]; exact hlt, ?_⟩
    intro i hi1 hi2
    rw [hsz] at hi2
    have hi1 : po.used + 1 ≤ i := hi1
    show po_load (some (blk1.set po.used item)) i = .ok NULL
    rw [po_load_set_ne _ _ _ _ (by omega), ← hd1]
    exact po_grow_tail al.junk po p1 hs hfull hfit (hr al.junk) i (by omega) hi2
  · intro hfull hfit hmeet h1 h2
    obtain ⟨p1, hr, hsize1, hused1, hs1, hps1, _, _⟩ := po_grow_step po hs hfull hfit
    have hfit' := hfit
    unfold po_grow_fits po_unit_size po_size at hfit'
    have hbyte := hs.2.2.1
    have hmin := hs.2.2.2.2
    unfold po_unit_size at hbyte
    unfold PO_MIN_SIZE at hmin
    unfold po_size at hbyte hmin
    obtain ⟨b1, b2, _, _, b5⟩ := po_incr_size_bounds po hs.1 hfit'
    have hfull' : po.used = pm_size po := hfull
    have hroom1 : p1.used < po_size p1 := by rw [hps1, hused1]; omega
    obtain ⟨q, hq, hsize, hu, _, _⟩ :=
      po_insert_if_room p1 pos item hs1 hroom1 (by rw [hused1]; exact h1)
        (by rw [hused1]; exact h2)
    have hszq : po_size q = po_incr_size po := by
      have : po_size q = po_size p1 := by unfold po_size pm_size; rw [hsize]
      rw [this, hps1]
    refine ⟨q, ?_, ?_, ?_⟩
    · rw [po_insert_at_fallible_met al po pos item (fun _ => hmeet)]
      unfold po_insert_at
      have hnu : (po.used + 1) % 18446744073709551616 = po.used + 1 := by omega
      have hgt : po.used + 1 > pm_size po := by omega
      simp only [hnu, hgt, if_true, hr al.junk, hq]
    · rw [hszq]; unfold po_size; omega
    · intro i hi1 hi2
      rw [hszq] at hi2
      rw [hu, hused1] at hi1
      rw [po_insert_if_tail p1 q pos item 1 hs1 hroom1 (by rw [hused1]; exact h1)
        (by rw [hused1]; exact h2) hq i (by rw [hused1]; exact hi1)]
      exact po_grow_tail al.junk po p1 hs hfull hfit (hr al.junk) i (by omega) hi2
  · refine ⟨_, po_clear_ok po hs, rfl, rfl, ?_⟩
    intro i _ hi2
    have hi2 : i < po_size po := hi2
    show po_load (some (List.replicate (po_size po) 0)) i = .ok NULL
    rw [po_load_some _ _ (by simpa using hi2)]
    simp [NULL]
  · intro hb hlt hmeet
    unfold po_unit_size at hb
    have hused := hs.2.2.2.1
    obtain ⟨p, hp, _, hsp, hup, _, htail⟩ := po_resize_ok po new_size hs hb (by omega)
    obtain ⟨k1, k2⟩ := po_resize_grow_kept al.junk po p new_size hs hb hlt (hp al.junk)
    have hloc : po_get_local po = 0 ↔ po_local po = 0 := by
      unfold po_get_local
      exact Int.natCast_eq_zero
    refine ⟨p, by rw [po_resize_fallible_met al po new_size (fun _ => hmeet)]; exact hp al.junk,
      hsp, hup, ?_, fun h0 => k1 (hloc.1 h0), fun h1 i hi => ?_⟩
    · intro i hi1 hi2
      rw [hsp] at hi2
      exact htail hlt i hi1 hi2
    · exact k2 (fun e => h1 (hloc.2 e)) i (by omega)

/-- Witness for C23 (amended): the push onto a full container of two slots,
which triggers growth, with an allocator that meets requests below `2 ^ 47`
bytes. -/
theorem po_growth_and_clear_tail_witness :
    po_has_storage ⟨2, 2, some [5, 6]⟩ ∧
    po_used ⟨2, 2, some [5, 6]⟩ = po_size ⟨2, 2, some [5, 6]⟩ ∧
    po_grow_fits ⟨2, 2, some [5, 6]⟩ ∧
    decide (pm_unit2byte (po_incr_size ⟨2, 2, some [5, 6]⟩) < 140737488355328) = true ∧
    (∃ p, po_push_fallible ⟨fun n => decide (n < 140737488355328), fun _ => true, fun _ => 9⟩
        ⟨2, 2, some [5, 6]⟩ 7 = .ok p ∧
      po_size ⟨2, 2, some [5, 6]⟩ < po_size p ∧
      ∀ i, po_used p ≤ i → i < po_size p → po_load p.data i = .ok NULL) :=
  ⟨by decide, by decide, by decide, by decide,
    (po_growth_and_clear_tail ⟨fun n => decide (n < 140737488355328), fun _ => true, fun _ => 9⟩
      ⟨2, 2, some [5, 6]⟩ 7 1 8 (by decide)).1 (by decide) (by decide) (by decide)⟩

/-- C24, as stated, fails for `po_bytesize` on large size words: at the size
word `2 ^ 61` the reservation is `2 ^ 61` slots and the 64-bit product with the
unit size wraps, so `po_bytesize` returns 0, not `8 * po_size`. -/
theorem po_bytesize_wraps :
    po_size ⟨2305843009213693952, 0, none⟩ = 2305843009213693952 ∧
    po_bytesize ⟨2305843009213693952, 0, none⟩ = 0 ∧
    po_bytesize ⟨2305843009213693952, 0, none⟩ ≠ 8 * po_size ⟨2305843009213693952, 0, none⟩ := by
  decide

/-- C24, amended: for every 64-bit size word, `po_set_local` with `v` makes
`po_get_local` return 1 if `v != 0` and 0 otherwise and leaves `po_size`
unchanged; `po_set_size` with an even 64-bit `s` makes `po_size` return `s`
and leaves `po_get_local` unchanged; `po_size` is even; and `po_bytesize` is
`8 * po_size` reduced modulo `2 ^ 64`, so exactly `8 * po_size` whenever that
product is below `2 ^ 64`. -/
theorem po_size_word_codec (po : po_s) (v : Int) (s : Nat)
    (hsz : po.size < 18446744073709551616) (hs : s < 18446744073709551616)
    (he : s % 2 = 0) :
    po_get_local (po_set_local po v) = (if v ≠ 0 then 1 else 0) ∧
    po_size (po_set_local po v) = po_size po ∧
    po_size (po_set_size po s) = s ∧
    po_get_local (po_set_size po s) = po_get_local po ∧
    po_size po % 2 = 0 ∧
    po_bytesize po = (8 * po_size po) % 18446744073709551616 ∧
    (8 * po_size po < 18446744073709551616 → po_bytesize po = 8 * po_size po) := by
  obtain ⟨h1, _, _⟩ := po_set_local_size po v hsz
  have hlt : (po_set_local po v).size < 18446744073709551616 := by
    rw [h1]; split <;> omega
  have hset : po_set_size po s = po_set_local { po with size := s } (po_get_local po) := rfl
  obtain ⟨h2, _, _⟩ := po_set_local_size { po with size := s } (po_get_local po) hs
  simp only [] at h2
  have hlt2 : (po_set_size po s).size < 18446744073709551616 := by
    rw [hset, h2]; split <;> omega
  have hloc : po_get_local po ≠ 0 ↔ po.size % 2 = 1 := by
    rw [po_get_local_eq]; omega
  refine ⟨?_, ?_, ?_, ?_, po_size_even po hsz, rfl, fun hb => ?_⟩
  · rw [po_get_local_eq, h1]
    by_cases hv : v ≠ 0
    · rw [if_pos hv, if_pos hv]
      have : (po.size + (1 - po.size % 2)) % 2 = 1 := by omega
      rw [this]; rfl
    · rw [if_neg hv, if_neg hv]
      have : (po.size - po.size % 2) % 2 = 0 := by omega
      rw [this]; rfl
  · unfold po_size
    rw [pm_size_eq _ hlt, pm_size_eq _ hsz, h1]
    split <;> omega
  · unfold po_size
    rw [pm_size_eq _ hlt2, hset, h2]
    split <;> omega
  · rw [po_get_local_eq, po_get_local_eq po, hset, h2]
    by_cases hl : po_get_local po ≠ 0
    · have := hloc.1 hl
      rw [if_pos hl]
      congr 1; omega
    · have : ¬ po.size % 2 = 1 := fun h => hl (hloc.2 h)
      rw [if_neg hl]
      congr 1; omega
  · unfold po_bytesize po_unit_size po_size at *
    omega

/-- Witness for C24 (amended): the size word 5 (reservation 4, local), set to 12. -/
theorem po_size_word_codec_witness :
    (5 : Nat) < 18446744073709551616 ∧ (12 : Nat) < 18446744073709551616 ∧ 12 % 2 = 0 ∧
    po_get_local (po_set_local ⟨5, 0, none⟩ 0) = (if (0 : Int) ≠ 0 then 1 else 0) ∧
    po_size (po_set_local ⟨5, 0, none⟩ 0) = po_size ⟨5, 0, none⟩ ∧
    po_size (po_set_size ⟨5, 0, none⟩ 12) = 12 ∧
    po_get_local (po_set_size ⟨5, 0, none⟩ 12) = po_get_local ⟨5, 0, none⟩ :=
  ⟨by decide, by decide, by decide,
    (po_size_word_codec ⟨5, 0, none⟩ 0 12 (by decide) (by decide) (by decide)).1,
    (po_size_word_codec ⟨5, 0, none⟩ 0 12 (by decide) (by decide) (by decide)).2.1,
    (po_size_word_codec ⟨5, 0, none⟩ 0 12 (by decide) (by decide) (by decide)).2.2.1,
    (po_size_word_codec ⟨5, 0, none⟩ 0 12 (by decide) (by decide) (by decide)).2.2.2.1⟩

/-! ## Claims C25 to C28 -/

/-- C25: for every container, with storage or without, and every item,
`po_find` returns the least offset `j < used` whose element is the item, and `PO_NOT_INDEX`, which
is -1, when no offset in `[0, used)` holds it; `po_find_with` returns the least
offset `j < used` for which the comparison with the reference is non-zero, and
`PO_NOT_INDEX` when there is none; what lies in slots at or beyond `used` plays
no part. -/
theorem po_find_spec (po : po_s) (item : Nat) (compare : Nat → Nat → Int) (ref : Nat)
    (hinv : po_invariant po) :
    (∀ j, j < po_used po → (po_items po)[j]? = some item →
      (∀ k, k < j → (po_items po)[k]? ≠ some item) →
      po_find po item = .ok (j : Int)) ∧
    ((∀ j, j < po_used po → (po_items po)[j]? ≠ some item) →
      po_find po item = .ok PO_NOT_INDEX) ∧
    (∀ j v, j < po_used po → (po_items po)[j]? = some v → compare v ref ≠ 0 →
      (∀ k w, k < j → (po_items po)[k]? = some w → compare w ref = 0) →
      po_find_with po compare ref = .ok (j : Int)) ∧
    ((∀ j v, j < po_used po → (po_items po)[j]? = some v → compare v ref = 0) →
      po_find_with po compare ref = .ok PO_NOT_INDEX) ∧
    PO_NOT_INDEX = -1 := by
  unfold po_used
  rcases hinv with hs | ⟨_, hu, _⟩
  swap
  · have hu : po.used = 0 := hu
    refine ⟨fun j hj => ?_, fun _ => ?_, fun j v hj => ?_, fun _ => ?_, rfl⟩
    · omega
    · unfold po_find; rw [hu]; rfl
    · omega
    · unfold po_find_with; rw [hu]; rfl
  have hfind : po_find po item = po_find_with po (fun a b => if a = b then 1 else 0) item := by
    unfold po_find po_find_with
    exact po_find_loop_eq po item po.used 0
  obtain ⟨a1, a2⟩ := po_find_with_ok po (fun a b => if a = b then 1 else 0) item hs
  obtain ⟨b1, b2⟩ := po_find_with_ok po compare ref hs
  refine ⟨fun j hj hv hno => ?_, fun hno => ?_, b1, b2, rfl⟩
  · rw [hfind]
    refine a1 j item hj hv (by simp) (fun k w hk hw => ?_)
    have : w ≠ item := fun e => hno k hk (by rw [hw, e])
    simp only [this, if_false]
  · rw [hfind]
    refine a2 (fun j v hj hv => ?_)
    have : v ≠ item := fun e => hno j hj (by rw [hv, e])
    simp only [this, if_false]

/-- Witness for C25: the item 22 at offsets 1 and 2 of three elements. -/
theorem po_find_spec_witness :
    po_invariant ⟨4, 3, some [11, 22, 22, 0]⟩ ∧
    po_find ⟨4, 3, some [11, 22, 22, 0]⟩ 22 = .ok 1 ∧
    po_find ⟨4, 3, some [11, 22, 22, 0]⟩ 0 = .ok PO_NOT_INDEX :=
  ⟨by decide,
    (po_find_spec ⟨4, 3, some [11, 22, 22, 0]⟩ 22 (fun _ _ => 0) 0 (by decide)).1 1
      (by decide) (by decide) (by decide),
    (po_find_spec ⟨4, 3, some [11, 22, 22, 0]⟩ 0 (fun _ _ => 0) 0 (by decide)).2.1
      (by decide)⟩

/-- C26: for every container with storage and every 64-bit byte count
`n >= 1` that fits (`ceil(n / 8) <= reservation - used`), `po_alloc_bytes`
returns the address of the slot at offset old-used and advances `used` by
exactly `ceil(n / 8)` units, touching nothing else; 1, 2 and 8 bytes each take
1 unit and 9 bytes take 2 units. -/
theorem po_alloc_bytes_units (po : po_s) (n : Nat) (hs : po_has_storage po) (hn : 1 ≤ n)
    (hn64 : n < 18446744073709551616) (hfits : (n + 7) / 8 ≤ po_size po - po_used po) :
    po_alloc_bytes po n = (some (po_used po), { po with used := po_used po + (n + 7) / 8 }) ∧
    (1 + 7) / 8 = 1 ∧ (2 + 7) / 8 = 1 ∧ (8 + 7) / 8 = 1 ∧ (9 + 7) / 8 = 2 := by
  refine ⟨?_, by decide, by decide, by decide, by decide⟩
  unfold po_used at *
  obtain ⟨blk, hd, _⟩ := po_has_storage_block hs
  obtain ⟨hsz, _, hbyte, hused, _⟩ := hs
  unfold po_unit_size at hbyte
  have hps : po_size po = po.size - po.size % 2 := pm_size_eq po hsz
  unfold po_alloc_bytes
  rw [po_units_eq]
  have e1 : (n + 7) / 8 % 18446744073709551616 = (n + 7) / 8 := by omega
  have e2 : (po.used + (n + 7) / 8) % 18446744073709551616 = po.used + (n + 7) / 8 := by omega
  have e3 : po.size ≥ po.used + (n + 7) / 8 := by omega
  have e4 : ¬ (po.data = none ∧ po.used = 0) := by
    rw [hd]; exact fun h => Option.noConfusion h.1
  simp only [e1, e2, e3, e4, if_true, if_false]

/-- Witness for C26: nine bytes from a container of four slots holding one
element. -/
theorem po_alloc_bytes_units_witness :
    po_has_storage ⟨4, 1, some [11, 0, 0, 0]⟩ ∧ 1 ≤ 9 ∧ 9 < 18446744073709551616 ∧
    (9 + 7) / 8 ≤ po_size ⟨4, 1, some [11, 0, 0, 0]⟩ - po_used ⟨4, 1, some [11, 0, 0, 0]⟩ ∧
    po_alloc_bytes ⟨4, 1, some [11, 0, 0, 0]⟩ 9 = (some 1, ⟨4, 3, some [11, 0, 0, 0]⟩) :=
  ⟨by decide, by decide, by decide, by decide,
    (po_alloc_bytes_units ⟨4, 1, some [11, 0, 0, 0]⟩ 9 (by decide) (by decide) (by decide)
      (by decide)).1⟩

/-- C27: evaluation at a container of four slots holding one element and the
byte count 0.  `po_alloc_bytes` computes zero units, returns the non-null
address of the slot at offset 1 and leaves `used` at 1: the call does not
advance `used` by one unit. -/
theorem po_alloc_bytes_zero_takes_nothing :
    po_has_storage ⟨4, 1, some [11, 0, 0, 0]⟩ ∧
    po_alloc_bytes ⟨4, 1, some [11, 0, 0, 0]⟩ 0 = (some 1, ⟨4, 1, some [11, 0, 0, 0]⟩) ∧
    (po_alloc_bytes ⟨4, 1, some [11, 0, 0, 0]⟩ 0).1 ≠ none ∧
    po_used (po_alloc_bytes ⟨4, 1, some [11, 0, 0, 0]⟩ 0).2 = po_used ⟨4, 1, some [11, 0, 0, 0]⟩ ∧
    po_alloc_bytes ⟨4, 4, some [11, 22, 33, 44]⟩ 0 = (some 4, ⟨4, 4, some [11, 22, 33, 44]⟩) := by
  decide

/-- C28: for every container with storage, local or heap-owned, and every
item, `po_insert_at` at the position equal to the current `used` and `po_push`
both succeed and return the very same descriptor (size word, so reservation
and local flag, `used`, and the whole data block), also when the container is
full and growth is triggered. -/
theorem po_insert_at_end_is_push (junk : Nat → Nat) (po : po_s) (item : Nat)
    (hs : po_has_storage po) (hfit : po_used po = po_size po → po_grow_fits po) :
    ∃ p, po_push junk po item = .ok p ∧
      po_insert_at junk po (po_used po : Int) item = .ok p := by
  unfold po_used at *
  obtain ⟨blk, hd, hlen⟩ := po_has_storage_block hs
  have hs' := hs
  obtain ⟨hsz, _, hbyte, hused, hmin⟩ := hs
  unfold po_unit_size at hbyte
  unfold po_size at hlen hbyte hused hmin
  have hnu : (po.used + 1) % 18446744073709551616 = po.used + 1 := by omega
  by_cases hroom : po.used < pm_size po
  · refine ⟨_, po_push_room junk po item blk hd hlen hroom hsz, ?_⟩
    unfold po_insert_at
    have hng : ¬ po.used + 1 > pm_size po := by omega
    simp only [hnu, hng, if_false]
    rw [po_insert_if_end po item blk hd hlen hroom hsz (by omega)]
  · have hfull : po.used = po_size po := by unfold po_size; omega
    obtain ⟨p1, hr, hsize1, hused1, hs1, hps1, _, _⟩ :=
      po_grow_step po hs' hfull (hfit hfull)
    obtain ⟨blk1, hd1, hlen1⟩ := po_has_storage_block hs1
    have hfit' := hfit hfull
    unfold po_grow_fits po_unit_size po_size at hfit'
    obtain ⟨b1, b2, _, _, b5⟩ := po_incr_size_bounds po hsz hfit'
    unfold PO_MIN_SIZE at hmin
    unfold po_size at hps1 hlen1
    have hgt : po.used + 1 > pm_size po := by omega
    refine ⟨{ size := p1.size, used := po.used + 1, data := some (blk1.set po.used item) },
      ?_, ?_⟩
    · unfold po_push
      simp only [hnu, hgt, if_true, hr junk, hd1, hused1]
      rw [po_store_some _ _ _ (by omega)]
    · unfold po_insert_at
      simp only [hnu, hgt, if_true, hr junk]
      rw [← hused1, po_insert_if_end p1 item blk1 hd1 hlen1 (by omega) hs1.1 (by omega)]

/-- Witness for C28: a full container of two slots, where growth is
triggered. -/
theorem po_insert_at_end_is_push_witness :
    po_has_storage ⟨2, 2, some [5, 6]⟩ ∧
    (po_used ⟨2, 2, some [5, 6]⟩ = po_size ⟨2, 2, some [5, 6]⟩ →
      po_grow_fits ⟨2, 2, some [5, 6]⟩) ∧
    (∃ p, po_push (fun _ => 9) ⟨2, 2, some [5, 6]⟩ 7 = .ok p ∧
      po_insert_at (fun _ => 9) ⟨2, 2, some [5, 6]⟩
        (po_used ⟨2, 2, some [5, 6]⟩ : Int) 7 = .ok p) :=
  ⟨by decide, by decide,
    po_insert_at_end_is_push (fun _ => 9) ⟨2, 2, some [5, 6]⟩ 7 (by decide) (by decide)⟩

end Postor
